import Mathlib

/-!
# usCountyRisk: the join-and-derive loop of `update.go`

A shallow embedding of `main` of `src/update.go` (the "Mix results" loop, lines 142-182)
together with the parts of the Go runtime and standard library the loop relies on:

* Go `int` on a 64-bit target: integers with two's-complement wrap-around, truncating
  division, a run-time panic on division by zero;
* `strconv.Atoi` and `strings.ReplaceAll`;
* `float64`: IEEE 754 binary64 with round-to-nearest-even, modelled exactly with integer
  significands and exponents, `math.Round`, and the conversions `float64(int)` and
  `int(float64)`.

`strconv.ParseFloat` is a parameter of the model.
-/

namespace UsCountyRisk

/-! ## Go `int` -/

/-- Reduction of a mathematical integer to the `int64` it is stored as. -/
def wrap64 (x : ℤ) : ℤ := (x + 2 ^ 63) % 2 ^ 64 - 2 ^ 63

/-- Go `a * b` on `int`. -/
def mulInt (a b : ℤ) : ℤ := wrap64 (a * b)

/-- Go `a + b` on `int`. -/
def addInt (a b : ℤ) : ℤ := wrap64 (a + b)

/-- Go `a / b` on `int`: truncated towards zero; `none` is the run-time panic
"integer divide by zero". -/
def divInt (a b : ℤ) : Option ℤ :=
  if b = 0 then none else some (wrap64 (Int.tdiv a b))

/-- Values an `int` variable can hold. -/
def isInt64 (x : ℤ) : Prop := -2 ^ 63 ≤ x ∧ x < 2 ^ 63

instance (x : ℤ) : Decidable (isInt64 x) := by unfold isInt64; infer_instance

/-! ## `strconv.Atoi` -/

/-- The `Err` of a `*strconv.NumError`, or no error. -/
inductive NumError where
  | ok : NumError
  | syntaxErr : NumError
  | rangeErr : NumError
deriving DecidableEq, Repr

def maxUint64 : ℕ := 2 ^ 64 - 1

/-- The digit loop of `strconv.ParseUint(s, 10, 64)`: a byte that is not a decimal digit
ends it with `(0, ErrSyntax)`, an overflow ends it with `(maxUint64, ErrRange)`, whichever
comes first. -/
def parseUintLoop : List Char → ℕ → ℕ × NumError
  | [], n => (n, NumError.ok)
  | c :: cs, n =>
    if '0' ≤ c ∧ c ≤ '9' then
      if maxUint64 / 10 + 1 ≤ n then (maxUint64, NumError.rangeErr)
      else
        let n1 := n * 10 + (c.toNat - '0'.toNat)
        if maxUint64 < n1 then (maxUint64, NumError.rangeErr) else parseUintLoop cs n1
    else (0, NumError.syntaxErr)

def ParseUint (s : List Char) : ℕ × NumError :=
  if s = [] then (0, NumError.syntaxErr) else parseUintLoop s 0

/-- The text after an optional leading sign, and whether the sign was `-`. -/
def splitSign : List Char → Bool × List Char
  | '+' :: t => (false, t)
  | '-' :: t => (true, t)
  | s => (false, s)

/-- Go `strconv.ParseInt(s, 10, 64)`. -/
def ParseInt (s : List Char) : ℤ × NumError :=
  if s = [] then (0, NumError.syntaxErr) else
    let sr := splitSign s
    let ur := ParseUint sr.2
    if ur.2 = NumError.syntaxErr then (0, NumError.syntaxErr)
    else if sr.1 = false ∧ 2 ^ 63 ≤ ur.1 then (2 ^ 63 - 1, NumError.rangeErr)
    else if sr.1 = true ∧ 2 ^ 63 < ur.1 then (-2 ^ 63, NumError.rangeErr)
    else (if sr.1 then -(ur.1 : ℤ) else (ur.1 : ℤ), NumError.ok)

/-- Go `strconv.Atoi` on a 64-bit target (its fast path for short inputs computes the same
value as `ParseInt`). -/
def Atoi (s : String) : ℤ × NumError := ParseInt s.toList

/-! ## `strings.ReplaceAll` -/

/-- Left-to-right scan of `strings.Replace(s, old, new, -1)` for a non-empty `old`: at an
occurrence of `old` emit `new` and skip the occurrence, otherwise copy one character.
`skip` counts the characters of the current occurrence still to be dropped. -/
def replaceScan (old new : List Char) : List Char → ℕ → List Char
  | [], _ => []
  | _ :: t, skip + 1 => replaceScan old new t skip
  | c :: t, 0 =>
    if old.isPrefixOf (c :: t) then new ++ replaceScan old new t (old.length - 1)
    else c :: replaceScan old new t 0

/-- Go `strings.ReplaceAll` on character lists. -/
def replaceAllChars (s old new : List Char) : List Char :=
  if old = new then s
  else if old = [] then new ++ s.flatMap (fun c => c :: new)
  else replaceScan old new s 0

/-- Go `strings.ReplaceAll(s, old, new)`. -/
def ReplaceAll (s old new : String) : String :=
  String.mk (replaceAllChars s.toList old.toList new.toList)

/-! ## `float64` -/

/-- Number of binary digits of `n`, with `fuel` an upper bound on it. -/
def bitLenAux : ℕ → ℕ → ℕ
  | 0, _ => 0
  | fuel + 1, n => if n = 0 then 0 else bitLenAux fuel (n / 2) + 1

/-- Number of binary digits of `n` (`0` for `0`). -/
def bitLen (n : ℕ) : ℕ := bitLenAux n n

/-- An IEEE 754 binary64 value. `fin neg m e` is `(-1)^neg * m * 2^e`; the values the
operations below produce are in canonical form: `2^52 ≤ m < 2^53` and `-1074 ≤ e ≤ 971`
(normal), or `m < 2^52` and `e = -1074` (zero and subnormal). -/
inductive F64 where
  | nan : F64
  | inf (neg : Bool) : F64
  | fin (neg : Bool) (m : ℕ) (e : ℤ) : F64
deriving DecidableEq, Repr

namespace F64

/-- Numerator of `p / q * 2^x / 2^k` written as a quotient of naturals. -/
def scaledNum (p : ℕ) (x k : ℤ) : ℕ := p * 2 ^ (x - k).toNat

/-- Denominator of `p / q * 2^x / 2^k` written as a quotient of naturals. -/
def scaledDen (q : ℕ) (x k : ℤ) : ℕ := q * 2 ^ (k - x).toNat

/-- The integer nearest to `n / d`, ties to the even one. -/
def roundHalfEven (n d : ℕ) : ℕ :=
  if 2 * (n % d) < d then n / d
  else if d < 2 * (n % d) then n / d + 1
  else if (n / d) % 2 = 0 then n / d else n / d + 1

/-- The binary exponent `⌊log₂ (p / q * 2^x)⌋` of a positive value. -/
def ilog2 (p q : ℕ) (x : ℤ) : ℤ :=
  let d : ℤ := (bitLen p : ℤ) - (bitLen q : ℤ) + x
  if scaledDen q x d ≤ scaledNum p x d then d else d - 1

/-- The binary64 value nearest to `(-1)^neg * p / q * 2^x` (`q > 0`), ties to even:
the correctly rounded result of an arithmetic operation. -/
def rne (neg : Bool) (p q : ℕ) (x : ℤ) : F64 :=
  if p = 0 then fin neg 0 (-1074) else
    let k : ℤ := max (ilog2 p q x) (-1022) - 52
    let n := roundHalfEven (scaledNum p x k) (scaledDen q x k)
    let m := if n = 2 ^ 53 then 2 ^ 52 else n
    let e := if n = 2 ^ 53 then k + 1 else k
    if 971 < e then inf neg else fin neg m e

/-- The literal `0.0`. -/
def zero : F64 := fin false 0 (-1074)

/-- Go `float64(i)` for an `int` `i`. -/
def ofInt (i : ℤ) : F64 := rne (decide (i < 0)) i.natAbs 1 0

/-- Go `x * y` on `float64`. -/
def mul : F64 → F64 → F64
  | fin s m e, fin t n f => rne (xor s t) (m * n) 1 (e + f)
  | fin s m _, inf t => if m = 0 then nan else inf (xor s t)
  | inf s, fin t n _ => if n = 0 then nan else inf (xor s t)
  | inf s, inf t => inf (xor s t)
  | _, _ => nan

/-- Go `x / y` on `float64`. -/
def div : F64 → F64 → F64
  | fin s m e, fin t n f =>
    if n = 0 then (if m = 0 then nan else inf (xor s t)) else rne (xor s t) m n (e - f)
  | fin s _ _, inf t => fin (xor s t) 0 (-1074)
  | inf s, fin t _ _ => inf (xor s t)
  | _, _ => nan

/-- Go `math.Round`: nearest integer, halves away from zero; `±0`, `±Inf` and `NaN` are
returned unchanged. -/
def Round : F64 → F64
  | fin s m e =>
    if 0 ≤ e then fin s m e
    else rne s ((2 * m + 2 ^ (-e).toNat) / (2 * 2 ^ (-e).toNat)) 1 0
  | x => x

/-- Go `int(x)` for a `float64` `x` on amd64: the fraction is discarded; a value outside
`int64`, an infinity or a NaN gives the "integer indefinite" value `-2^63`. -/
def toInt : F64 → ℤ
  | fin s m e =>
    let t : ℤ := if 0 ≤ e then (m : ℤ) * 2 ^ e.toNat else (m : ℤ) / 2 ^ (-e).toNat
    let v : ℤ := if s then -t else t
    if -2 ^ 63 ≤ v ∧ v < 2 ^ 63 then v else -2 ^ 63
  | _ => -2 ^ 63

/-- The rational number a finite value denotes (`0` for infinities and NaN). -/
def toRat : F64 → ℚ
  | fin s m e => (if s then -1 else 1) * (m : ℚ) * 2 ^ e
  | _ => 0

/-- A finite value. -/
def isFinite : F64 → Bool
  | fin _ _ _ => true
  | _ => false

/-- The magnitude of a finite value (`0` for infinities and NaN). -/
def mag : F64 → ℚ
  | fin _ m e => (m : ℚ) * 2 ^ e
  | _ => 0

/-- The rational `p / q * 2^x` that `rne` is given. -/
def ratVal (p q : ℕ) (x : ℤ) : ℚ := (p : ℚ) / q * 2 ^ x

/-- The integer nearest to a rational, ties to the even one. -/
def nearestEven (y : ℚ) : ℤ :=
  if y - ⌊y⌋ < 1 / 2 then ⌊y⌋
  else if 1 / 2 < y - ⌊y⌋ then ⌊y⌋ + 1
  else if ⌊y⌋ % 2 = 0 then ⌊y⌋ else ⌊y⌋ + 1

/-- The multiple of `2^(E-52)` nearest to `v`, ties to the even multiple: what a value `v`
of binary exponent `E` is rounded to. -/
def rndAt (E : ℤ) (v : ℚ) : ℚ := (nearestEven (v / 2 ^ (E - 52)) : ℚ) * 2 ^ (E - 52)

end F64

/-! ## The data model (lines 28-67) -/

structure county where
  Name : String
  State : String
  StateCode : String
  Fips : ℤ
  Population : ℤ
  Area : ℤ
  Density : ℤ
  Cases : ℤ
  Deaths : ℤ
  PercentOfState : F64
  CasesByPopulation : ℤ
  CasesByArea : ℤ
  DeathsByPopulation : ℤ
  DeathsByArea : ℤ
  RiskIndex : F64
deriving DecidableEq, Repr

structure countyCDC where
  Name : String
  State : String
  Fips : ℤ
  Cases : String
  Deaths : String
  Percent : String
  Rate : String
deriving DecidableEq, Repr

structure countyGithub where
  Name : String
  State : String
  Fips : String
  Population : ℤ
  Area : ℤ
  Density : ℤ
deriving DecidableEq, Repr

/-! ## The "Mix results" loop of `main` (lines 128-182) -/

/-- The variables of `main` the loop reads and writes (lines 128-136). -/
structure MainVars where
  result : List county
  completeCounty : county
  tempFips : ℤ
  cases : ℤ
  deaths : ℤ
  area : F64
  percent : F64
deriving DecidableEq, Repr

/-- The zero-valued variables `main` starts with. -/
def initVars : MainVars :=
  { result := []
    completeCounty :=
      { Name := "", State := "", StateCode := "", Fips := 0, Population := 0, Area := 0,
        Density := 0, Cases := 0, Deaths := 0, PercentOfState := F64.zero,
        CasesByPopulation := 0, CasesByArea := 0, DeathsByPopulation := 0,
        DeathsByArea := 0, RiskIndex := F64.zero }
    tempFips := 0, cases := 0, deaths := 0, area := F64.zero, percent := F64.zero }

/-- The constant `2.59` as a `float64`. -/
def sqMileToSqKm : F64 := F64.rne false 259 100 0

/-- One execution of the inner loop body (lines 144-180) for the demographic record `g`
and the epidemiological record `c`; `none` is a run-time panic. -/
def loopBody (ParseFloat : String → F64) (g : countyGithub) (c : countyCDC) (v : MainVars) :
    Option MainVars :=
  let tempFips := (Atoi g.Fips).1
  if tempFips = c.Fips then
    let cc := v.completeCounty
    let cc := { cc with Name := ReplaceAll c.Name " County" "" }
    let cc := { cc with State := g.State }
    let cc := { cc with StateCode := c.State }
    let cc := { cc with Fips := c.Fips }
    let cc := { cc with Population := g.Population }
    let area := F64.mul (F64.ofInt g.Area) sqMileToSqKm
    let cc := { cc with Area := F64.toInt area }
    (divInt g.Population cc.Area).bind fun density =>
    let cc := { cc with Density := density }
    let cases := if c.Cases ≠ "<20" then (Atoi c.Cases).1 else 10
    let cc := { cc with Cases := cases }
    let deaths := if c.Deaths ≠ "<20" then (Atoi c.Deaths).1 else 10
    let cc := { cc with Deaths := deaths }
    let percent :=
      if c.Percent ≠ "Not Calculated" then ParseFloat (ReplaceAll c.Percent " %" "")
      else F64.zero
    let cc := { cc with PercentOfState := percent }
    (divInt (mulInt cc.Cases 100000) cc.Population).bind fun cbp =>
    let cc := { cc with CasesByPopulation := cbp }
    (divInt (mulInt cc.Cases 1000) cc.Area).bind fun cba =>
    let cc := { cc with CasesByArea := cba }
    (divInt (mulInt cc.Deaths 100000) cc.Population).bind fun dbp =>
    let cc := { cc with DeathsByPopulation := dbp }
    (divInt (mulInt cc.Deaths 1000) cc.Area).bind fun dba =>
    let cc := { cc with DeathsByArea := dba }
    let riskIndex :=
      F64.div
        (F64.Round
          (F64.mul
            (F64.ofInt (mulInt (addInt cc.DeathsByArea 1) (addInt cc.CasesByPopulation 1)))
            (F64.ofInt 100)))
        (F64.ofInt 10000)
    let cc := { cc with RiskIndex := riskIndex }
    some { result := v.result ++ [cc], completeCounty := cc, tempFips := tempFips,
           cases := cases, deaths := deaths, area := area, percent := percent }
  else some { v with tempFips := tempFips }

/-- The inner loop `for _, c := range CDCCounties.Data` (line 143). -/
def innerLoop (ParseFloat : String → F64) (g : countyGithub) :
    List countyCDC → MainVars → Option MainVars
  | [], v => some v
  | c :: cs, v => (loopBody ParseFloat g c v).bind (innerLoop ParseFloat g cs)

/-- The outer loop `for _, g := range GithubCounties` (line 142); the list is the map's
values in the order the iteration yields them. -/
def outerLoop (ParseFloat : String → F64) (cs : List countyCDC) :
    List countyGithub → MainVars → Option MainVars
  | [], v => some v
  | g :: gs, v => (innerLoop ParseFloat g cs v).bind (outerLoop ParseFloat cs gs)

/-- The slice `result` after the loop, from the zero-valued variables. -/
def mixResults (ParseFloat : String → F64) (gs : List countyGithub) (cs : List countyCDC) :
    Option (List county) :=
  (outerLoop ParseFloat cs gs initVars).map (fun v => v.result)

/-! ## The joined record as a function of one pair -/

/-- The converted area of a demographic record (lines 151-152). -/
def convertedArea (g : countyGithub) : ℤ :=
  F64.toInt (F64.mul (F64.ofInt g.Area) sqMileToSqKm)

/-- A case or death field as a number (lines 154-158 and 161-165). -/
def parseCount (s : String) : ℤ := if s = "<20" then 10 else (Atoi s).1

/-- The percent field as a number (lines 167-171). -/
def parsePercent (ParseFloat : String → F64) (s : String) : F64 :=
  if s = "Not Calculated" then F64.zero else ParseFloat (ReplaceAll s " %" "")

/-- The risk index of line 178 as a function of the integer product it converts. -/
def riskOfProduct (P : ℤ) : F64 :=
  F64.div (F64.Round (F64.mul (F64.ofInt P) (F64.ofInt 100))) (F64.ofInt 10000)

/-- The risk index of line 178 from the two rates it reads. -/
def riskIndexOf (deathsByArea casesByPopulation : ℤ) : F64 :=
  riskOfProduct (mulInt (addInt deathsByArea 1) (addInt casesByPopulation 1))

/-- The joined record of a pair, from the pair alone; `none` when one of the five integer
divisions has a zero divisor. -/
def joinPair (ParseFloat : String → F64) (g : countyGithub) (c : countyCDC) : Option county :=
  (divInt g.Population (convertedArea g)).bind fun density =>
  (divInt (mulInt (parseCount c.Cases) 100000) g.Population).bind fun cbp =>
  (divInt (mulInt (parseCount c.Cases) 1000) (convertedArea g)).bind fun cba =>
  (divInt (mulInt (parseCount c.Deaths) 100000) g.Population).bind fun dbp =>
  (divInt (mulInt (parseCount c.Deaths) 1000) (convertedArea g)).bind fun dba =>
  some
    { Name := ReplaceAll c.Name " County" "", State := g.State, StateCode := c.State,
      Fips := c.Fips, Population := g.Population, Area := convertedArea g,
      Density := density, Cases := parseCount c.Cases, Deaths := parseCount c.Deaths,
      PercentOfState := parsePercent ParseFloat c.Percent, CasesByPopulation := cbp,
      CasesByArea := cba, DeathsByPopulation := dbp, DeathsByArea := dba,
      RiskIndex := riskIndexOf dba cbp }

/-- Whether the loop treats `g` and `c` as the same county (lines 144-145). -/
def sameFips (g : countyGithub) (c : countyCDC) : Prop := (Atoi g.Fips).1 = c.Fips

instance (g : countyGithub) (c : countyCDC) : Decidable (sameFips g c) := by
  unfold sameFips; infer_instance

/-- The pairs the loop joins, in the order it meets them. -/
def matchingPairs (gs : List countyGithub) (cs : List countyCDC) :
    List (countyGithub × countyCDC) :=
  gs.flatMap fun g => (cs.filter fun c => decide (sameFips g c)).map fun c => (g, c)

/-- The records of a list of pairs, in order; `none` when a pair has none. -/
def joinAll (ParseFloat : String → F64) :
    List (countyGithub × countyCDC) → Option (List county)
  | [] => some []
  | p :: ps =>
    (joinPair ParseFloat p.1 p.2).bind fun r =>
    (joinAll ParseFloat ps).bind fun rs => some (r :: rs)

/-- The variables after the body has joined a pair into the record `r`. -/
def varsAfter (ParseFloat : String → F64) (g : countyGithub) (c : countyCDC) (r : county)
    (v : MainVars) : MainVars :=
  { result := v.result ++ [r], completeCounty := r, tempFips := c.Fips,
    cases := parseCount c.Cases, deaths := parseCount c.Deaths,
    area := F64.mul (F64.ofInt g.Area) sqMileToSqKm,
    percent := parsePercent ParseFloat c.Percent }


/-! ## Texts of integers -/

/-- A decimal digit, as `strconv` tests it. -/
def isDecimalDigit (c : Char) : Bool := decide ('0' ≤ c ∧ c ≤ '9')

/-- One or more decimal digits. -/
def isDigits (s : List Char) : Bool := s ≠ [] && s.all isDecimalDigit

/-- The text of an integer: an optional sign `+` or `-` followed by one or more decimal
digits. -/
def isIntegerText : List Char → Bool
  | '+' :: t => isDigits t
  | '-' :: t => isDigits t
  | s => isDigits s

/-! ## The fetchers (lines 69-125) -/

/-- The contents of a file or of a response body. -/
abbrev Bytes := List UInt8

/-- A file as the program meets it: what `ioutil.ReadFile` returns (`none` when it fails) and
whether `ioutil.WriteFile` and `os.Create` succeed on it. -/
structure File where
  content : Option Bytes
  writable : Bool
deriving DecidableEq, Repr

/-- Go `ioutil.ReadFile` with the error dropped: the bytes of the file, `nil` when the read
fails. -/
def readFile (f : File) : Bytes :=
  match f.content with
  | some b => b
  | none => []

/-- Go `ioutil.WriteFile` with the error dropped: a failed write leaves the file as it
was. -/
def writeFile (f : File) (b : Bytes) : File :=
  if f.writable then { f with content := some b } else f

/-- A non-nil `*http.Response`: its status code and the bytes `ioutil.ReadAll` returns for its
body. -/
structure Response where
  StatusCode : ℤ
  body : Bytes
deriving DecidableEq, Repr

/-- The byte-order mark `"\xef\xbb\xbf"`. -/
def byteOrderMark : Bytes := [0xef, 0xbb, 0xbf]

/-- Go `bytes.TrimPrefix`. -/
def trimPrefix (s pre : Bytes) : Bytes :=
  if pre.isPrefixOf s then s.drop pre.length else s

/-- What a fetcher leaves behind: the bytes it handed to `json.Unmarshal`, the decoded
records and the cache file. -/
structure Fetched (α : Type) where
  parsed : Bytes
  counties : α
  file : File

/-- The body both fetchers share (lines 70-95 and 99-124). `res` is the response of
`http.Get`, `none` when the request failed and the response is `nil`; the result `none` is
the run-time panic of `res.Body` on line 76 (105) in that case. `Unmarshal body counties` is
the value of the records after `json.Unmarshal(body, &counties)`. -/
def fetch {α : Type} (Unmarshal : Bytes → α → α) (counties : α) (res : Option Response)
    (file : File) : Option (Fetched α) :=
  match res with
  | none => none
  | some r =>
    let body : Bytes :=
      if r.StatusCode ≠ 200 then readFile file
      else trimPrefix r.body byteOrderMark
    let counties := Unmarshal body counties
    let file := writeFile file body
    some { parsed := body, counties := counties, file := file }

/-- The cache refresh of a fetch that got the response `r` and found the cache `file`: the
cache holds the bytes handed to the parser; these are the body without one leading
byte-order mark when the status is 200, and the previous content of the cache, left
unchanged, when the status is another one and the cache could be read. -/
def CacheRefreshed {α : Type} (r : Response) (file : File) (out : Fetched α) : Prop :=
  out.file.content = some out.parsed ∧
  (r.StatusCode = 200 → out.parsed = trimPrefix r.body byteOrderMark) ∧
  (r.StatusCode ≠ 200 → ∀ b, file.content = some b →
    out.parsed = b ∧ out.file.content = file.content)

/-- Go `getCDCFile` (lines 69-96); the records are `counties.Data`. -/
def getCDCFile (Unmarshal : Bytes → List countyCDC → List countyCDC)
    (counties : List countyCDC) (res : Option Response) (fileName : File) :
    Option (Fetched (List countyCDC)) :=
  fetch Unmarshal counties res fileName

/-- Go `getGithubFile` (lines 98-125); the records are the values of the map in the order
the loop of `main` will meet them. -/
def getGithubFile (Unmarshal : Bytes → List countyGithub → List countyGithub)
    (counties : List countyGithub) (res : Option Response) (fileName : File) :
    Option (Fetched (List countyGithub)) :=
  fetch Unmarshal counties res fileName

/-! ## The export (lines 184-237) -/

/-- A field of a `county` as `reflect` presents it: its kind and its value. -/
inductive FieldValue where
  | String (s : String) : FieldValue
  | Int (i : ℤ) : FieldValue
  | Float64 (f : F64) : FieldValue
deriving DecidableEq, Repr

/-- The fields `reflect.ValueOf(r).Field(i)` of a county, in the order the struct declares
them (lines 28-44). -/
def countyFields (r : county) : List FieldValue :=
  [FieldValue.String r.Name, FieldValue.String r.State, FieldValue.String r.StateCode,
   FieldValue.Int r.Fips, FieldValue.Int r.Population, FieldValue.Int r.Area,
   FieldValue.Int r.Density, FieldValue.Int r.Cases, FieldValue.Int r.Deaths,
   FieldValue.Float64 r.PercentOfState, FieldValue.Int r.CasesByPopulation,
   FieldValue.Int r.CasesByArea, FieldValue.Int r.DeathsByPopulation,
   FieldValue.Int r.DeathsByArea, FieldValue.Float64 r.RiskIndex]

/-- Go `fmt.Sprintf("%d", i)`. -/
def SprintfD (i : ℤ) : String := toString i

/-- The loop over the fields of one county (lines 222-232): each field appends its text to
`resultCsv` according to its kind. `Sprintf2f` is `fmt.Sprintf("%.2f", _)`. -/
def fieldLoop (Sprintf2f : F64 → String) : List FieldValue → List String → List String
  | [], resultCsv => resultCsv
  | FieldValue.String s :: vs, resultCsv => fieldLoop Sprintf2f vs (resultCsv ++ [s])
  | FieldValue.Int i :: vs, resultCsv => fieldLoop Sprintf2f vs (resultCsv ++ [SprintfD i])
  | FieldValue.Float64 f :: vs, resultCsv =>
    fieldLoop Sprintf2f vs (resultCsv ++ [Sprintf2f f])

/-- The header row: the fifteen appends of lines 201-215 to the empty `resultCsv`. -/
def headerRow : List String :=
  ((((((((((((((([] ++ ["Name"]) ++ ["State"]) ++ ["State Code"]) ++ ["Fips"])
    ++ ["Population"]) ++ ["Area"]) ++ ["Density"]) ++ ["Cases"]) ++ ["Deaths"])
    ++ ["Percent Of State"]) ++ ["Cases By Population"]) ++ ["Cases By Area"])
    ++ ["Deaths By Population"]) ++ ["Deaths By Area"]) ++ ["Risk Index"])

/-- The loop over the result (lines 219-235): the rows handed to `csvWriter.Write`, one per
county, `resultCsv` being emptied before each. -/
def rowLoop (Sprintf2f : F64 → String) : List county → List (List String)
  | [] => []
  | r :: rs => fieldLoop Sprintf2f (countyFields r) [] :: rowLoop Sprintf2f rs

/-- The records handed to `csvWriter.Write`, in order: the header row (line 217), then the
data rows (line 234). -/
def csvRecords (Sprintf2f : F64 → String) (result : List county) : List (List String) :=
  headerRow :: rowLoop Sprintf2f result

/-- The columns of the tabular export: each label with the field of the county it
names. -/
def columns : List (String × (county → FieldValue)) :=
  [("Name", fun r => FieldValue.String r.Name),
   ("State", fun r => FieldValue.String r.State),
   ("State Code", fun r => FieldValue.String r.StateCode),
   ("Fips", fun r => FieldValue.Int r.Fips),
   ("Population", fun r => FieldValue.Int r.Population),
   ("Area", fun r => FieldValue.Int r.Area),
   ("Density", fun r => FieldValue.Int r.Density),
   ("Cases", fun r => FieldValue.Int r.Cases),
   ("Deaths", fun r => FieldValue.Int r.Deaths),
   ("Percent Of State", fun r => FieldValue.Float64 r.PercentOfState),
   ("Cases By Population", fun r => FieldValue.Int r.CasesByPopulation),
   ("Cases By Area", fun r => FieldValue.Int r.CasesByArea),
   ("Deaths By Population", fun r => FieldValue.Int r.DeathsByPopulation),
   ("Deaths By Area", fun r => FieldValue.Int r.DeathsByArea),
   ("Risk Index", fun r => FieldValue.Float64 r.RiskIndex)]

/-- The text of a field in the tabular export: a string verbatim, an integer in decimal, a
floating-point number with two decimals. -/
def formatField (Sprintf2f : F64 → String) : FieldValue → String
  | FieldValue.String s => s
  | FieldValue.Int i => SprintfD i
  | FieldValue.Float64 f => Sprintf2f f

/-! ## The run of `main` (lines 127-239) -/

/-- The functions of the Go standard library the run takes as parameters. -/
structure Lib where
  ParseFloat : String → F64
  UnmarshalCDC : Bytes → List countyCDC → List countyCDC
  UnmarshalGithub : Bytes → List countyGithub → List countyGithub
  MarshalIndent : List county → Bytes
  Sprintf2f : F64 → String
  csvEncode : List (List String) → Bytes

/-- What a run meets: the responses of the two requests and the four files. -/
structure World where
  cdcResponse : Option Response
  githubResponse : Option Response
  cdcLocalFile : File
  githubLocalFile : File
  resultJSONFile : File
  resultCSVFile : File
deriving DecidableEq, Repr

/-- How a run ends, with the files as it leaves them. -/
inductive Run where
  | finished (w : World) : Run
  | panicked (w : World) : Run
deriving DecidableEq, Repr

/-- Go `main`: the two fetches, the join and the export. -/
def main (lib : Lib) (w : World) : Run :=
  match getCDCFile lib.UnmarshalCDC [] w.cdcResponse w.cdcLocalFile with
  | none => Run.panicked w
  | some a =>
    let w := { w with cdcLocalFile := a.file }
    match getGithubFile lib.UnmarshalGithub [] w.githubResponse w.githubLocalFile with
    | none => Run.panicked w
    | some b =>
      let w := { w with githubLocalFile := b.file }
      match mixResults lib.ParseFloat b.counties a.counties with
      | none => Run.panicked w
      | some result =>
        let jsonResult := lib.MarshalIndent result
        let w := { w with resultJSONFile := writeFile w.resultJSONFile jsonResult }
        let csvBytes := lib.csvEncode (csvRecords lib.Sprintf2f result)
        let w := { w with resultCSVFile := writeFile w.resultCSVFile csvBytes }
        Run.finished w


/-! ## Concrete inputs -/

/-- A stand-in for `strconv.ParseFloat` in concrete runs; no statement below depends on the
value it returns. -/
def sampleParseFloat : String → F64 := fun _ => F64.nan

/-- A demographic record with the identifier text `"06037"`. -/
def losAngelesGithub : countyGithub :=
  { Name := "Los Angeles", State := "California", Fips := "06037",
    Population := 10039107, Area := 4058, Density := 2474 }

/-- An epidemiological record with the identifier `6037`. -/
def losAngelesCDC : countyCDC :=
  { Name := "Los Angeles County", State := "CA", Fips := 6037, Cases := "1000",
    Deaths := "55", Percent := "12.5 %", Rate := "9.96" }

/-- An epidemiological record whose three text fields hold the sentinels. -/
def sentinelCDC : countyCDC :=
  { Name := "Jefferson County", State := "AL", Fips := 6037, Cases := "<20",
    Deaths := "<20", Percent := "Not Calculated", Rate := "" }

/-- A demographic record with population zero. -/
def emptyGithub : countyGithub :=
  { Name := "Nowhere", State := "California", Fips := "06037",
    Population := 0, Area := 4058, Density := 0 }

/-- A demographic record of 100 square miles and 100000 inhabitants. -/
def squareGithub : countyGithub :=
  { Name := "Square", State := "Wyoming", Fips := "56001",
    Population := 100000, Area := 100, Density := 1000 }

/-- An epidemiological record with a negative case count. -/
def negativeCDC : countyCDC :=
  { Name := "Square County", State := "WY", Fips := 56001, Cases := "-2",
    Deaths := "0", Percent := "0 %", Rate := "0" }

/-- An epidemiological record whose case count times 100000 exceeds `int64`. -/
def hugeCDC : countyCDC :=
  { Name := "Square County", State := "WY", Fips := 56001, Cases := "100000000000000",
    Deaths := "0", Percent := "0 %", Rate := "0" }

/-- An epidemiological record with six cases and no death. -/
def sixCasesCDC : countyCDC :=
  { Name := "Square County", State := "WY", Fips := 56001, Cases := "6",
    Deaths := "0", Percent := "0 %", Rate := "0" }

/-- An epidemiological record named `"County County"`. -/
def countyCountyCDC : countyCDC :=
  { Name := "County County", State := "WY", Fips := 56001, Cases := "6",
    Deaths := "0", Percent := "0 %", Rate := "0" }

/-- A demographic record with a large area. -/
def vastGithub : countyGithub :=
  { Name := "Vast", State := "Wyoming", Fips := "56001",
    Population := 100000, Area := 108677597185661, Density := 0 }

/-- An epidemiological record whose case field is twenty-one digits followed by a
letter. -/
def overflowCDC : countyCDC :=
  { Name := "Los Angeles County", State := "CA", Fips := 6037,
    Cases := "999999999999999999999x", Deaths := "55", Percent := "12.5 %", Rate := "9.96" }

/-- A demographic record whose identifier text is an integer beyond the range of `int`. -/
def overflowGithub : countyGithub :=
  { Name := "Square", State := "Wyoming", Fips := "99999999999999999999",
    Population := 100000, Area := 100, Density := 1000 }

/-- An epidemiological record with the largest `int` as identifier. -/
def maxFipsCDC : countyCDC :=
  { Name := "Square County", State := "WY", Fips := 9223372036854775807, Cases := "6",
    Deaths := "0", Percent := "0 %", Rate := "0" }

/-- An epidemiological record with the identifier zero. -/
def zeroFipsCDC : countyCDC :=
  { Name := "Square County", State := "WY", Fips := 0, Cases := "6",
    Deaths := "0", Percent := "0 %", Rate := "0" }

/-- A demographic record whose identifier text is not a number. -/
def unnumberedGithub : countyGithub :=
  { Name := "Square", State := "Wyoming", Fips := "n/a",
    Population := 100000, Area := 100, Density := 1000 }

/-- An epidemiological record whose case and death fields are not numbers. -/
def unparsableCDC : countyCDC :=
  { Name := "Square County", State := "WY", Fips := 56001, Cases := "n/a",
    Deaths := "", Percent := "0 %", Rate := "0" }

/-- Stand-ins for the library functions of a run; no statement below depends on the values
they return. -/
def sampleLib : Lib :=
  { ParseFloat := sampleParseFloat
    UnmarshalCDC := fun _ counties => counties
    UnmarshalGithub := fun _ counties => counties
    MarshalIndent := fun result => List.replicate result.length 0x7b
    Sprintf2f := fun _ => "0.00"
    csvEncode := fun records => List.replicate records.length 0x0a }

/-- A response with status 200 whose body starts with a byte-order mark. -/
def markedResponse : Response :=
  { StatusCode := 200, body := [0xef, 0xbb, 0xbf, 0x7b, 0x7d] }

/-- A response with status 404. -/
def notFoundResponse : Response :=
  { StatusCode := 404, body := [0x3c, 0x68, 0x31, 0x3e] }

/-- A cache file that can be read and written. -/
def cachedFile : File := { content := some [0x5b, 0x5d], writable := true }

/-- A cache file that can be read and not written. -/
def readOnlyFile : File := { content := some [0x5b, 0x5d], writable := false }

/-- A file that does not exist yet, in a directory where it can be created. -/
def absentFile : File := { content := none, writable := true }

/-- A run in which the first request is answered with status 404 and the first cache file
does not exist. -/
def missingCacheWorld : World :=
  { cdcResponse := some notFoundResponse, githubResponse := some markedResponse,
    cdcLocalFile := absentFile, githubLocalFile := cachedFile,
    resultJSONFile := absentFile, resultCSVFile := absentFile }

/-- A demographic record whose area is `2^62` square miles. -/
def boundlessGithub : countyGithub :=
  { Name := "Boundless", State := "Wyoming", Fips := "56001",
    Population := 100000, Area := 4611686018427387904, Density := 0 }

/-- A later epidemiological record of the identifier `6037`, with more cases and more
deaths. -/
def losAngelesLaterCDC : countyCDC :=
  { Name := "Los Angeles County", State := "CA", Fips := 6037, Cases := "2000",
    Deaths := "60", Percent := "12.5 %", Rate := "9.96" }

/-! ## Rounding to binary64 -/

open F64

theorem lt_two_pow_bitLenAux : ∀ fuel n : ℕ, n ≤ fuel → n < 2 ^ bitLenAux fuel n := by
  intro fuel
  induction fuel with
  | zero => intro n h; simp [bitLenAux]; omega
  | succ f ih =>
    intro n h
    unfold bitLenAux
    split_ifs with h0
    · simp [h0]
    · have := ih (n / 2) (by omega)
      rw [pow_succ]
      omega

theorem two_pow_bitLenAux_le : ∀ fuel n : ℕ, 0 < n → 2 ^ bitLenAux fuel n ≤ 2 * n := by
  intro fuel
  induction fuel with
  | zero => intro n h; simp [bitLenAux]; omega
  | succ f ih =>
    intro n h
    unfold bitLenAux
    split_ifs with h0
    · omega
    · rw [pow_succ]
      by_cases h1 : n / 2 = 0
      · have : n = 1 := by omega
        subst this
        cases f <;> simp [bitLenAux]
      · have := ih (n / 2) (by omega)
        omega

theorem lt_two_pow_bitLen (n : ℕ) : n < 2 ^ bitLen n := lt_two_pow_bitLenAux n n le_rfl

theorem two_pow_bitLen_le (n : ℕ) (h : 0 < n) : 2 ^ bitLen n ≤ 2 * n :=
  two_pow_bitLenAux_le n n h

theorem scaled_ratio (p q : ℕ) (x k : ℤ) :
    (scaledNum p x k : ℚ) / (scaledDen q x k : ℚ) = (p : ℚ) / q * 2 ^ (x - k) := by
  unfold scaledNum scaledDen
  push_cast
  rcases le_total k x with h | h
  · obtain ⟨n, hn⟩ := Int.eq_ofNat_of_zero_le (sub_nonneg.2 h)
    have h1 : k - x = -(n : ℤ) := by omega
    rw [hn, h1]
    simp
    ring
  · obtain ⟨n, hn⟩ := Int.eq_ofNat_of_zero_le (sub_nonneg.2 h)
    have h1 : x - k = -(n : ℤ) := by omega
    rw [hn, h1]
    simp
    field_simp

theorem scaledDen_pos (q : ℕ) (x k : ℤ) (hq : 0 < q) : 0 < scaledDen q x k := by
  unfold scaledDen
  positivity

theorem nearestEven_natDiv (n d : ℕ) (hd : 0 < d) :
    ((roundHalfEven n d : ℕ) : ℤ) = nearestEven ((n : ℚ) / d) := by
  have hfl : ⌊(n : ℚ) / d⌋ = ((n / d : ℕ) : ℤ) := by
    have := Rat.floor_intCast_div_natCast (n : ℤ) d
    simpa using this
  have hd' : (0 : ℚ) < d := by exact_mod_cast hd
  have hfr : (n : ℚ) / d - ((n / d : ℕ) : ℤ) = ((n % d : ℕ) : ℚ) / d := by
    have h := Nat.div_add_mod n d
    have h' : (n : ℚ) = d * ((n / d : ℕ) : ℚ) + ((n % d : ℕ) : ℚ) := by exact_mod_cast h.symm
    rw [Int.cast_natCast]
    field_simp
    linarith
  unfold roundHalfEven nearestEven
  rw [hfl, hfr]
  have e1 : ((n % d : ℕ) : ℚ) / d < 1 / 2 ↔ 2 * (n % d) < d := by
    rw [div_lt_div_iff₀ hd' (by norm_num)]
    constructor
    · intro h; have : ((2 * (n % d) : ℕ) : ℚ) < (d : ℚ) := by push_cast; linarith
      exact_mod_cast this
    · intro h; have : ((2 * (n % d) : ℕ) : ℚ) < (d : ℚ) := by exact_mod_cast h
      push_cast at this; linarith
  have e2 : (1 : ℚ) / 2 < ((n % d : ℕ) : ℚ) / d ↔ d < 2 * (n % d) := by
    rw [div_lt_div_iff₀ (by norm_num) hd']
    constructor
    · intro h; have : (d : ℚ) < ((2 * (n % d) : ℕ) : ℚ) := by push_cast; linarith
      exact_mod_cast this
    · intro h; have : (d : ℚ) < ((2 * (n % d) : ℕ) : ℚ) := by exact_mod_cast h
      push_cast at this; linarith
  have e3 : (((n / d : ℕ) : ℤ) % 2 = 0) ↔ (n / d) % 2 = 0 := by omega
  simp only [e1, e2, e3]
  split_ifs <;> push_cast <;> rfl

theorem ilog2_spec (p q : ℕ) (x : ℤ) (hp : 0 < p) (hq : 0 < q) :
    (2 : ℚ) ^ ilog2 p q x ≤ (p : ℚ) / q * 2 ^ x ∧
      (p : ℚ) / q * 2 ^ x < 2 ^ (ilog2 p q x + 1) := by
  have hp' : (0 : ℚ) < p := by exact_mod_cast hp
  have hq' : (0 : ℚ) < q := by exact_mod_cast hq
  have h1 : (p : ℚ) < 2 ^ (bitLen p : ℤ) := by
    rw [zpow_natCast]; exact_mod_cast lt_two_pow_bitLen p
  have h2 : (2 : ℚ) ^ (bitLen p : ℤ) ≤ 2 * p := by
    rw [zpow_natCast]; exact_mod_cast two_pow_bitLen_le p hp
  have h3 : (q : ℚ) < 2 ^ (bitLen q : ℤ) := by
    rw [zpow_natCast]; exact_mod_cast lt_two_pow_bitLen q
  have h4 : (2 : ℚ) ^ (bitLen q : ℤ) ≤ 2 * q := by
    rw [zpow_natCast]; exact_mod_cast two_pow_bitLen_le q hq
  have hA : (0 : ℚ) < 2 ^ (bitLen p : ℤ) := by positivity
  have hB : (0 : ℚ) < 2 ^ (bitLen q : ℤ) := by positivity
  have hX : (0 : ℚ) < 2 ^ x := by positivity
  set d : ℤ := (bitLen p : ℤ) - (bitLen q : ℤ) + x with hd
  have hpow : (2 : ℚ) ^ d = 2 ^ (bitLen p : ℤ) / 2 ^ (bitLen q : ℤ) * 2 ^ x := by
    rw [hd, zpow_add₀ (by norm_num), zpow_sub₀ (by norm_num)]
  have hlo : (2 : ℚ) ^ (d - 1) ≤ (p : ℚ) / q * 2 ^ x := by
    rw [zpow_sub₀ (by norm_num), hpow, zpow_one]
    have : (2 : ℚ) ^ (bitLen p : ℤ) / 2 ^ (bitLen q : ℤ) / 2 ≤ (p : ℚ) / q := by
      rw [div_div, div_le_div_iff₀ (by positivity) hq']
      nlinarith
    calc (2 : ℚ) ^ (bitLen p : ℤ) / 2 ^ (bitLen q : ℤ) * 2 ^ x / 2
        = (2 : ℚ) ^ (bitLen p : ℤ) / 2 ^ (bitLen q : ℤ) / 2 * 2 ^ x := by ring
      _ ≤ (p : ℚ) / q * 2 ^ x := mul_le_mul_of_nonneg_right this hX.le
  have hhi : (p : ℚ) / q * 2 ^ x < 2 ^ (d + 1) := by
    rw [zpow_add₀ (by norm_num), hpow, zpow_one]
    have : (p : ℚ) / q < 2 ^ (bitLen p : ℤ) / 2 ^ (bitLen q : ℤ) * 2 := by
      rw [div_mul_eq_mul_div, div_lt_div_iff₀ hq' hB]
      nlinarith
    calc (p : ℚ) / q * 2 ^ x < 2 ^ (bitLen p : ℤ) / 2 ^ (bitLen q : ℤ) * 2 * 2 ^ x :=
          mul_lt_mul_of_pos_right this hX
      _ = 2 ^ (bitLen p : ℤ) / 2 ^ (bitLen q : ℤ) * 2 ^ x * 2 := by ring
  have hden : (0 : ℚ) < (scaledDen q x d : ℚ) := by exact_mod_cast scaledDen_pos q x d hq
  have hr := scaled_ratio p q x d
  have hD : (0 : ℚ) < 2 ^ d := by positivity
  have hxd : (2 : ℚ) ^ (x - d) = 2 ^ x / 2 ^ d := zpow_sub₀ (by norm_num) x d
  unfold ilog2
  simp only [← hd]
  split_ifs with ht
  · refine ⟨?_, hhi⟩
    have h5 : (1 : ℚ) ≤ (scaledNum p x d : ℚ) / (scaledDen q x d : ℚ) := by
      rw [le_div_iff₀ hden, one_mul]; exact_mod_cast ht
    rw [hr, hxd] at h5
    have h6 : (p : ℚ) / q * (2 ^ x / 2 ^ d) = (p : ℚ) / q * 2 ^ x / 2 ^ d := by ring
    rw [h6, le_div_iff₀ hD, one_mul] at h5
    exact h5
  · refine ⟨hlo, ?_⟩
    have h5 : (scaledNum p x d : ℚ) / (scaledDen q x d : ℚ) < 1 := by
      rw [div_lt_iff₀ hden, one_mul]; exact_mod_cast not_le.1 ht
    rw [hr, hxd] at h5
    have h6 : (p : ℚ) / q * (2 ^ x / 2 ^ d) = (p : ℚ) / q * 2 ^ x / 2 ^ d := by ring
    rw [h6, div_lt_iff₀ hD, one_mul] at h5
    simpa using h5

theorem nearestEven_mono {y z : ℚ} (h : y ≤ z) : nearestEven y ≤ nearestEven z := by
  have hf : ⌊y⌋ ≤ ⌊z⌋ := Int.floor_mono h
  have hy1 : (⌊y⌋ : ℚ) ≤ y := Int.floor_le y
  have hy2 : y < ⌊y⌋ + 1 := Int.lt_floor_add_one y
  have hz1 : (⌊z⌋ : ℚ) ≤ z := Int.floor_le z
  have hz2 : z < ⌊z⌋ + 1 := Int.lt_floor_add_one z
  rcases hf.lt_or_eq with hlt | heq
  · have : ⌊y⌋ + 1 ≤ ⌊z⌋ := hlt
    unfold nearestEven
    split_ifs <;> omega
  · unfold nearestEven
    rw [← heq]
    rw [← heq] at hz1 hz2
    split_ifs <;> first | omega | (exfalso; linarith)

theorem nearestEven_intCast (n : ℤ) : nearestEven (n : ℚ) = n := by
  unfold nearestEven
  simp

theorem nearestEven_ge {y : ℚ} {n : ℤ} (h : (n : ℚ) - 1 / 2 < y) : n ≤ nearestEven y := by
  have hy2 : y < ⌊y⌋ + 1 := Int.lt_floor_add_one y
  have h1 : (n : ℚ) < (⌊y⌋ : ℚ) + 1 + 1 / 2 := by linarith
  have h2 : n ≤ ⌊y⌋ + 1 := by
    by_contra hc
    have : ⌊y⌋ + 2 ≤ n := by omega
    have : ((⌊y⌋ + 2 : ℤ) : ℚ) ≤ (n : ℚ) := by exact_mod_cast this
    push_cast at this
    linarith
  unfold nearestEven
  split_ifs with h3 h4 h5
  · by_contra hc
    have h6 : n = ⌊y⌋ + 1 := by omega
    rw [h6] at h
    push_cast at h
    linarith
  · exact h2
  · by_contra hc
    have h6 : n = ⌊y⌋ + 1 := by omega
    rw [h6] at h
    push_cast at h
    linarith
  · exact h2

theorem rndAt_le {E : ℤ} {v : ℚ} {N : ℤ} (h : v ≤ (N : ℚ) * 2 ^ (E - 52)) :
    rndAt E v ≤ (N : ℚ) * 2 ^ (E - 52) := by
  have hk : (0 : ℚ) < 2 ^ (E - 52) := by positivity
  unfold rndAt
  apply mul_le_mul_of_nonneg_right _ hk.le
  have h1 : v / 2 ^ (E - 52) ≤ (N : ℚ) := by rw [div_le_iff₀ hk]; exact h
  have h2 := nearestEven_mono h1
  rw [nearestEven_intCast] at h2
  exact_mod_cast h2

theorem le_rndAt {E : ℤ} {v : ℚ} {N : ℤ} (h : (N : ℚ) * 2 ^ (E - 52) ≤ v) :
    (N : ℚ) * 2 ^ (E - 52) ≤ rndAt E v := by
  have hk : (0 : ℚ) < 2 ^ (E - 52) := by positivity
  unfold rndAt
  apply mul_le_mul_of_nonneg_right _ hk.le
  have h1 : (N : ℚ) ≤ v / 2 ^ (E - 52) := by rw [le_div_iff₀ hk]; exact h
  have h2 := nearestEven_mono h1
  rw [nearestEven_intCast] at h2
  exact_mod_cast h2

theorem two_zpow_split (E : ℤ) : (2 : ℚ) ^ (E + 1) = ((2 ^ 53 : ℤ) : ℚ) * 2 ^ (E - 52) := by
  have : E + 1 = 53 + (E - 52) := by ring
  rw [this, zpow_add₀ (by norm_num)]
  norm_num

theorem two_zpow_split_lo (E : ℤ) : (2 : ℚ) ^ E = ((2 ^ 52 : ℤ) : ℚ) * 2 ^ (E - 52) := by
  have : E = 52 + (E - 52) := by ring
  nth_rewrite 1 [this]
  rw [zpow_add₀ (by norm_num)]
  norm_num

theorem rndAt_mono {E F : ℤ} {v w : ℚ} (hv1 : (2 : ℚ) ^ E ≤ v) (hv2 : v < 2 ^ (E + 1))
    (hw1 : (2 : ℚ) ^ F ≤ w) (hw2 : w < 2 ^ (F + 1)) (h : v ≤ w) :
    rndAt E v ≤ rndAt F w := by
  have hEF : E ≤ F := by
    by_contra hc
    have h1 : F + 1 ≤ E := by omega
    have h2 : (2 : ℚ) ^ (F + 1) ≤ 2 ^ E := zpow_le_zpow_right₀ (by norm_num) h1
    linarith
  rcases hEF.lt_or_eq with hlt | heq
  · have h1 : rndAt E v ≤ 2 ^ (E + 1) := by
      rw [two_zpow_split]
      apply rndAt_le
      rw [← two_zpow_split]
      exact hv2.le
    have h2 : (2 : ℚ) ^ F ≤ rndAt F w := by
      rw [two_zpow_split_lo]
      apply le_rndAt
      rw [← two_zpow_split_lo]
      exact hw1
    have h3 : (2 : ℚ) ^ (E + 1) ≤ 2 ^ F := zpow_le_zpow_right₀ (by norm_num) (by omega)
    linarith
  · subst heq
    have hk : (0 : ℚ) < 2 ^ (E - 52) := by positivity
    unfold rndAt
    apply mul_le_mul_of_nonneg_right _ hk.le
    have h1 : v / 2 ^ (E - 52) ≤ w / 2 ^ (E - 52) := div_le_div_of_nonneg_right h hk.le
    exact_mod_cast nearestEven_mono h1

theorem rne_eq (neg : Bool) (p q : ℕ) (x : ℤ) (hp : 0 < p) (hq : 0 < q)
    (hlo : -1022 ≤ ilog2 p q x) (hhi : ilog2 p q x ≤ 1022) :
    ∃ m e, rne neg p q x = fin neg m e ∧
      (m : ℚ) * 2 ^ e = rndAt (ilog2 p q x) (ratVal p q x) := by
  obtain ⟨hs1, hs2⟩ := ilog2_spec p q x hp hq
  set E := ilog2 p q x with hE
  have hmax : max E (-1022) = E := max_eq_left hlo
  have hk : (0 : ℚ) < 2 ^ (E - 52) := by positivity
  have hden : 0 < scaledDen q x (E - 52) := scaledDen_pos q x _ hq
  have hn := nearestEven_natDiv (scaledNum p x (E - 52)) (scaledDen q x (E - 52)) hden
  rw [scaled_ratio, zpow_sub₀ (by norm_num : (2 : ℚ) ≠ 0)] at hn
  have hval : (p : ℚ) / q * (2 ^ x / 2 ^ (E - 52)) = ratVal p q x / 2 ^ (E - 52) := by
    unfold ratVal; ring
  rw [hval] at hn
  have hr : rndAt E (ratVal p q x)
      = ((roundHalfEven (scaledNum p x (E - 52)) (scaledDen q x (E - 52)) : ℕ) : ℚ)
          * 2 ^ (E - 52) := by
    unfold rndAt
    rw [← hn]
    norm_cast
  unfold rne
  simp only [Nat.pos_iff_ne_zero.1 hp, if_false, ← hE, hmax]
  by_cases h53 : roundHalfEven (scaledNum p x (E - 52)) (scaledDen q x (E - 52)) = 2 ^ 53
  · simp only [h53, if_true]
    have : ¬ (971 < E - 52 + 1) := by omega
    simp only [this, if_false]
    refine ⟨_, _, rfl, ?_⟩
    rw [hr, h53]
    have : E - 52 + 1 = 1 + (E - 52) := by ring
    rw [this, zpow_add₀ (by norm_num)]
    norm_num
    ring
  · simp only [h53, if_false]
    have : ¬ (971 < E - 52) := by omega
    simp only [this, if_false]
    exact ⟨_, _, rfl, hr.symm⟩

theorem ilog2_range (p q : ℕ) (x : ℤ) (hp : 0 < p) (hq : 0 < q)
    (hlo : (2 : ℚ) ^ (-64 : ℤ) ≤ ratVal p q x) (hhi : ratVal p q x ≤ 2 ^ (128 : ℤ)) :
    -64 ≤ ilog2 p q x ∧ ilog2 p q x ≤ 128 := by
  obtain ⟨hs1, hs2⟩ := ilog2_spec p q x hp hq
  change (2 : ℚ) ^ ilog2 p q x ≤ ratVal p q x at hs1
  change ratVal p q x < 2 ^ (ilog2 p q x + 1) at hs2
  constructor
  · by_contra hc
    have h1 : ilog2 p q x + 1 ≤ -64 := by omega
    have h2 : (2 : ℚ) ^ (ilog2 p q x + 1) ≤ 2 ^ (-64 : ℤ) :=
      zpow_le_zpow_right₀ (by norm_num) h1
    linarith
  · by_contra hc
    have h1 : (128 : ℤ) + 1 ≤ ilog2 p q x := by omega
    have h2 : (2 : ℚ) ^ ((128 : ℤ) + 1) ≤ 2 ^ ilog2 p q x :=
      zpow_le_zpow_right₀ (by norm_num) h1
    have h3 : (2 : ℚ) ^ (128 : ℤ) < 2 ^ ((128 : ℤ) + 1) := by norm_num
    linarith

theorem rne_mag (s : Bool) (p q : ℕ) (x : ℤ) (hp : 0 < p) (hq : 0 < q)
    (hlo : (2 : ℚ) ^ (-64 : ℤ) ≤ ratVal p q x) (hhi : ratVal p q x ≤ 2 ^ (128 : ℤ)) :
    (∃ m e, rne s p q x = fin s m e) ∧
      mag (rne s p q x) = rndAt (ilog2 p q x) (ratVal p q x) := by
  obtain ⟨h1, h2⟩ := ilog2_range p q x hp hq hlo hhi
  obtain ⟨m, e, h3, h4⟩ := rne_eq s p q x hp hq (by omega) (by omega)
  refine ⟨⟨m, e, h3⟩, ?_⟩
  rw [h3]
  exact h4

theorem rne_mag_mono (s t : Bool) (p q p1 q1 : ℕ) (x x1 : ℤ) (hp : 0 < p) (hq : 0 < q)
    (hq1 : 0 < q1) (hlo : (2 : ℚ) ^ (-64 : ℤ) ≤ ratVal p q x)
    (hhi : ratVal p1 q1 x1 ≤ 2 ^ (128 : ℤ)) (h : ratVal p q x ≤ ratVal p1 q1 x1) :
    mag (rne s p q x) ≤ mag (rne t p1 q1 x1) := by
  have hp1 : 0 < p1 := by
    rcases Nat.eq_zero_or_pos p1 with h0 | h0
    · exfalso
      have h5 : ratVal p1 q1 x1 = 0 := by simp [ratVal, h0]
      have h6 : (0 : ℚ) < 2 ^ (-64 : ℤ) := by positivity
      linarith
    · exact h0
  rw [(rne_mag s p q x hp hq hlo (h.trans hhi)).2,
    (rne_mag t p1 q1 x1 hp1 hq1 (hlo.trans h) hhi).2]
  obtain ⟨a1, a2⟩ := ilog2_spec p q x hp hq
  obtain ⟨b1, b2⟩ := ilog2_spec p1 q1 x1 hp1 hq1
  exact rndAt_mono a1 a2 b1 b2 h

theorem rne_mag_exact (s : Bool) (M : ℕ) (j : ℤ) (hM : 0 < M) (hM2 : M < 2 ^ 53)
    (hlo : (2 : ℚ) ^ (-64 : ℤ) ≤ ratVal M 1 j) (hhi : ratVal M 1 j ≤ 2 ^ (128 : ℤ)) :
    mag (rne s M 1 j) = ratVal M 1 j := by
  rw [(rne_mag s M 1 j hM Nat.one_pos hlo hhi).2]
  obtain ⟨a1, a2⟩ := ilog2_spec M 1 j hM Nat.one_pos
  set E := ilog2 M 1 j
  have hv : ratVal M 1 j = (M : ℚ) * 2 ^ j := by simp [ratVal]
  change (2 : ℚ) ^ E ≤ ratVal M 1 j at a1
  rw [hv] at a1 ⊢
  have hE : E < 53 + j := by
    by_contra hc
    have h1 : 53 + j ≤ E := by omega
    have h2 : (2 : ℚ) ^ (53 + j) ≤ 2 ^ E := zpow_le_zpow_right₀ (by norm_num) h1
    have h3 : (M : ℚ) < 2 ^ 53 := by exact_mod_cast hM2
    have h4 : (2 : ℚ) ^ (53 + j) = 2 ^ 53 * 2 ^ j := by
      rw [zpow_add₀ (by norm_num)]; norm_num
    have h5 : (0 : ℚ) < 2 ^ j := by positivity
    nlinarith
  obtain ⟨t, ht⟩ := Int.eq_ofNat_of_zero_le (show 0 ≤ j - (E - 52) by omega)
  have hj : (2 : ℚ) ^ j = ((2 ^ t : ℕ) : ℚ) * 2 ^ (E - 52) := by
    have : j = (t : ℤ) + (E - 52) := by omega
    rw [this, zpow_add₀ (by norm_num), zpow_natCast]
    push_cast
    ring
  have hN : (M : ℚ) * 2 ^ j = (((M * 2 ^ t : ℕ) : ℤ) : ℚ) * 2 ^ (E - 52) := by
    rw [hj]; push_cast; ring
  apply le_antisymm
  · rw [hN]; apply rndAt_le; rw [← hN]
  · rw [hN]; apply le_rndAt; rw [← hN]

theorem rne_mag_ge_near (s : Bool) (p q : ℕ) (x : ℤ) (N : ℕ) (hp : 0 < p) (hq : 0 < q)
    (hlo : (2 : ℚ) ^ (-64 : ℤ) ≤ ratVal p q x) (hhi : ratVal p q x < 2 ^ (53 : ℤ))
    (h : (N : ℚ) ≤ ratVal p q x * (1 + 2 ^ (-54 : ℤ))) :
    (N : ℚ) ≤ mag (rne s p q x) := by
  have hhi2 : ratVal p q x ≤ 2 ^ (128 : ℤ) :=
    hhi.le.trans (zpow_le_zpow_right₀ (by norm_num) (by norm_num))
  rw [(rne_mag s p q x hp hq hlo hhi2).2]
  obtain ⟨a1, a2⟩ := ilog2_spec p q x hp hq
  set E := ilog2 p q x
  change (2 : ℚ) ^ E ≤ ratVal p q x at a1
  change ratVal p q x < 2 ^ (E + 1) at a2
  set v := ratVal p q x
  have hE : E ≤ 52 := by
    by_contra hc
    have h1 : (53 : ℤ) ≤ E := by omega
    have h2 : (2 : ℚ) ^ (53 : ℤ) ≤ 2 ^ E := zpow_le_zpow_right₀ (by norm_num) h1
    linarith
  obtain ⟨t, ht⟩ := Int.eq_ofNat_of_zero_le (show 0 ≤ 52 - E by omega)
  have hk : (0 : ℚ) < 2 ^ (E - 52) := by positivity
  have hone : ((2 ^ t : ℕ) : ℚ) * 2 ^ (E - 52) = 1 := by
    have : E - 52 = -(t : ℤ) := by omega
    rw [this, zpow_neg, zpow_natCast]
    push_cast
    field_simp
  have hN : (N : ℚ) = (((N * 2 ^ t : ℕ) : ℤ) : ℚ) * 2 ^ (E - 52) := by
    push_cast
    push_cast at hone
    rw [mul_assoc, hone, mul_one]
  have hhalf : (2 : ℚ) ^ (E + 1) * 2 ^ (-54 : ℤ) = 2 ^ (E - 52) / 2 := by
    have : E + 1 = (E - 52) + 53 := by ring
    rw [this, zpow_add₀ (by norm_num)]
    norm_num
    ring
  have hnear : (((N * 2 ^ t : ℕ) : ℤ) : ℚ) - 1 / 2 < v / 2 ^ (E - 52) := by
    rw [lt_div_iff₀ hk, sub_mul, ← hN]
    have h54 : (0 : ℚ) < 2 ^ (-54 : ℤ) := by positivity
    have : v * 2 ^ (-54 : ℤ) < 2 ^ (E + 1) * 2 ^ (-54 : ℤ) := mul_lt_mul_of_pos_right a2 h54
    rw [hhalf] at this
    rw [mul_add, mul_one] at h
    generalize v * (2 : ℚ) ^ (-54 : ℤ) = vc at this h
    generalize (2 : ℚ) ^ (E - 52) = K at this ⊢
    generalize ((N : ℕ) : ℚ) = Nq at h ⊢
    linarith
  have := nearestEven_ge hnear
  rw [hN]
  unfold rndAt
  apply mul_le_mul_of_nonneg_right _ hk.le
  exact_mod_cast this

/-! ## `strings.ReplaceAll` with the pattern `" County"` -/

theorem replaceScan_skip (old new a rest : List Char) :
    replaceScan old new (a ++ rest) a.length = replaceScan old new rest 0 := by
  induction a with
  | nil => rfl
  | cons c t ih => simpa [replaceScan] using ih

theorem replaceScan_occurrence (old new rest : List Char) (h : old ≠ []) :
    replaceScan old new (old ++ rest) 0 = new ++ replaceScan old new rest 0 := by
  cases old with
  | nil => exact absurd rfl h
  | cons c t =>
    have hp : (c :: t).isPrefixOf (c :: (t ++ rest)) = true := by
      rw [List.isPrefixOf_iff_prefix]
      exact ⟨rest, rfl⟩
    rw [List.cons_append, replaceScan, if_pos hp]
    simp only [List.length_cons, Nat.add_sub_cancel]
    rw [replaceScan_skip]

theorem replaceScan_no_occurrence (old new : List Char) (c : Char) (t : List Char)
    (h : ¬ old <+: c :: t) :
    replaceScan old new (c :: t) 0 = c :: replaceScan old new t 0 := by
  have hp : ¬ (old.isPrefixOf (c :: t) = true) := by
    rw [List.isPrefixOf_iff_prefix]
    exact h
  rw [replaceScan, if_neg hp]

/-- A text without the pattern is copied unchanged. -/
theorem replaceScan_of_not_isInfix (old new : List Char) :
    ∀ s : List Char, ¬ old <:+: s → replaceScan old new s 0 = s := by
  intro s
  induction s with
  | nil => intro _; rfl
  | cons c t ih =>
    intro h
    have h1 : ¬ old <+: c :: t := fun hp => h hp.isInfix
    have h2 : ¬ old <:+: t := fun hi => h (hi.trans (List.suffix_cons c t).isInfix)
    rw [replaceScan_no_occurrence old new c t h1, ih h2]

/-- The pattern `" County"` as a list of characters. -/
theorem county_chars : " County".toList = [' ', 'C', 'o', 'u', 'n', 't', 'y'] := by decide

/-- The pattern `" County"` does not overlap itself: behind a non-empty text without the
pattern, an occurrence does not start in the text. -/
theorem county_no_overlap (s rest : List Char) (hs : s ≠ [])
    (h : ¬ " County".toList <:+: s) :
    ¬ " County".toList <+: s ++ (" County".toList ++ rest) := by
  intro hp
  by_cases hlen : 7 ≤ s.length
  · apply h
    have h1 : " County".toList <+: s :=
      List.prefix_of_prefix_length_le hp (List.prefix_append _ _)
        (by rw [county_chars]; simpa using hlen)
    exact h1.isInfix
  · obtain ⟨u, hu⟩ := hp
    have hk : s.length < 7 := by omega
    have hk0 : 0 < s.length := List.length_pos.2 hs
    have h2 := congrArg (fun l => l[s.length]?) hu
    simp only at h2
    rw [List.getElem?_append_left (by rw [county_chars]; simpa using hk),
      List.getElem?_append_right (le_refl _), Nat.sub_self, county_chars] at h2
    simp only [List.cons_append, List.getElem?_cons_zero] at h2
    generalize s.length = k at hk hk0 h2
    interval_cases k <;> simp at h2

/-- An occurrence of `" County"` after a text without the pattern is the leftmost one: the
scan copies the text and drops the occurrence. -/
theorem replaceScan_county_segment (rest : List Char) :
    ∀ s : List Char, ¬ " County".toList <:+: s →
      replaceScan " County".toList [] (s ++ (" County".toList ++ rest)) 0
        = s ++ replaceScan " County".toList [] rest 0 := by
  intro s
  induction s with
  | nil =>
    intro _
    rw [List.nil_append, replaceScan_occurrence _ _ _ (by rw [county_chars]; simp)]
  | cons c t ih =>
    intro h
    have h1 : ¬ " County".toList <+: c :: (t ++ (" County".toList ++ rest)) :=
      county_no_overlap (c :: t) rest (by simp) h
    have h2 : ¬ " County".toList <:+: t :=
      fun hi => h (hi.trans (List.suffix_cons c t).isInfix)
    rw [List.cons_append, replaceScan_no_occurrence _ _ c _ h1, ih h2]
    rfl

/-- Removing `" County"` from segments joined by `" County"` leaves the segments. -/
theorem replaceScan_county_intercalate :
    ∀ segs : List (List Char), (∀ s ∈ segs, ¬ " County".toList <:+: s) →
      replaceScan " County".toList [] (" County".toList.intercalate segs) 0 = segs.flatten := by
  intro segs
  induction segs with
  | nil => intro _; rfl
  | cons s rest ih =>
    intro h
    cases rest with
    | nil =>
      simp only [List.intercalate, List.intersperse, List.flatten, List.append_nil]
      exact replaceScan_of_not_isInfix _ _ s (h s (by simp))
    | cons s1 rest1 =>
      have hrec := ih (fun x hx => h x (List.mem_cons_of_mem _ hx))
      have hint : " County".toList.intercalate (s :: s1 :: rest1)
          = s ++ (" County".toList ++ " County".toList.intercalate (s1 :: rest1)) := by
        simp [List.intercalate, List.intersperse]
      rw [hint, replaceScan_county_segment _ s (h s (by simp)), hrec]
      simp

/-- The leftmost occurrence: a text with the pattern splits into a text without it, the
pattern, and a rest. -/
theorem exists_leftmost (pat : List Char) :
    ∀ l : List Char, pat <:+: l → ∃ s t, l = s ++ (pat ++ t) ∧ ¬ pat <:+: s ∨ pat = [] := by
  intro l
  induction l with
  | nil =>
    intro h
    have : pat = [] := List.eq_nil_of_infix_nil h
    exact ⟨[], [], Or.inr this⟩
  | cons c l1 ih =>
    intro h
    by_cases hnil : pat = []
    · exact ⟨[], [], Or.inr hnil⟩
    by_cases hp : pat <+: c :: l1
    · obtain ⟨t, ht⟩ := hp
      refine ⟨[], t, Or.inl ⟨by simpa using ht.symm, ?_⟩⟩
      intro hi
      exact hnil (List.eq_nil_of_infix_nil hi)
    · have h1 : pat <:+: l1 := by
        rcases List.infix_cons_iff.1 h with h2 | h2
        · exact absurd h2 hp
        · exact h2
      obtain ⟨s, t, hst⟩ := ih h1
      rcases hst with ⟨hl, hfree⟩ | hn
      · refine ⟨c :: s, t, Or.inl ⟨by rw [hl]; rfl, ?_⟩⟩
        intro hi
        rcases List.infix_cons_iff.1 hi with h2 | h2
        · apply hp
          have : c :: s <+: c :: l1 := by rw [hl]; exact List.prefix_append _ _
          exact h2.trans this
        · exact hfree h2
      · exact absurd hn hnil

/-- Every text is a sequence of segments without `" County"` joined by `" County"`. -/
theorem exists_county_segments :
    ∀ (n : ℕ) (l : List Char), l.length ≤ n →
      ∃ segs : List (List Char), (∀ s ∈ segs, ¬ " County".toList <:+: s) ∧
        l = " County".toList.intercalate segs := by
  intro n
  induction n with
  | zero =>
    intro l hl
    have hl0 : l = [] := List.length_eq_zero.1 (by omega)
    subst hl0
    refine ⟨[[]], ?_, by simp [List.intercalate, List.intersperse]⟩
    intro s hs
    have : s = [] := by simpa using hs
    subst this
    intro hi
    have := List.eq_nil_of_infix_nil hi
    rw [county_chars] at this
    simp at this
  | succ k ih =>
    intro l hl
    by_cases hfree : " County".toList <:+: l
    · obtain ⟨s, t, hst⟩ := exists_leftmost " County".toList l hfree
      rcases hst with ⟨hl2, hs⟩ | hn
      · have hlen : t.length ≤ k := by
          have := congrArg List.length hl2
          rw [county_chars] at this
          simp at this
          omega
        obtain ⟨segs, hsegs, ht⟩ := ih t hlen
        cases segs with
        | nil =>
          refine ⟨[s, []], ?_, ?_⟩
          · intro x hx
            simp only [List.mem_cons, List.mem_singleton, List.not_mem_nil, or_false] at hx
            rcases hx with hx | hx
            · rw [hx]; exact hs
            · rw [hx]
              intro hi
              have := List.eq_nil_of_infix_nil hi
              rw [county_chars] at this
              simp at this
          · have ht0 : t = [] := by simpa [List.intercalate, List.intersperse] using ht
            rw [hl2, ht0]
            simp [List.intercalate, List.intersperse]
        | cons s1 rest1 =>
          refine ⟨s :: s1 :: rest1, ?_, ?_⟩
          · intro x hx
            rcases List.mem_cons.1 hx with hx | hx
            · rw [hx]; exact hs
            · exact hsegs x hx
          · rw [hl2, ht]
            simp [List.intercalate, List.intersperse]
      · rw [county_chars] at hn
        simp at hn
    · exact ⟨[l], by simpa using hfree, by simp [List.intercalate, List.intersperse]⟩

theorem ReplaceAll_county_toList (s : String) :
    (ReplaceAll s " County" "").toList = replaceScan " County".toList [] s.toList 0 := by
  have h1 : ¬ (" County".toList = "".toList) := by decide
  have h2 : ¬ (" County".toList = []) := by decide
  have h3 : "".toList = [] := rfl
  unfold ReplaceAll replaceAllChars
  rw [if_neg h1, if_neg h2, h3]
  rfl

/-! ## Go `int` arithmetic without overflow -/

theorem wrap64_of_isInt64 {x : ℤ} (h : isInt64 x) : wrap64 x = x := by
  unfold isInt64 at h
  unfold wrap64
  norm_num at h ⊢
  omega

theorem isInt64_wrap64 (x : ℤ) : isInt64 (wrap64 x) := by
  unfold isInt64 wrap64
  norm_num
  omega

theorem wrap64_mul_wrap64 (a b : ℤ) : wrap64 (wrap64 a * wrap64 b) = wrap64 (a * b) := by
  have h : ∀ x y : ℤ, (x - y) % 2 ^ 64 = 0 → wrap64 x = wrap64 y := by
    intro x y hxy
    unfold wrap64
    norm_num at hxy ⊢
    omega
  apply h
  have ha : (wrap64 a - a) % 2 ^ 64 = 0 := by unfold wrap64; norm_num; omega
  have hb : (wrap64 b - b) % 2 ^ 64 = 0 := by unfold wrap64; norm_num; omega
  obtain ⟨u, hu⟩ := Int.dvd_of_emod_eq_zero ha
  obtain ⟨w, hw⟩ := Int.dvd_of_emod_eq_zero hb
  apply Int.emod_eq_zero_of_dvd
  refine ⟨u * b + a * w + 2 ^ 64 * u * w, ?_⟩
  have h1 : wrap64 a = a + 2 ^ 64 * u := by linarith
  have h2 : wrap64 b = b + 2 ^ 64 * w := by linarith
  rw [h1, h2]
  ring

theorem natAbs_tdiv_le (a b : ℤ) : (Int.tdiv a b).natAbs ≤ a.natAbs := by
  rw [Int.natAbs_tdiv]
  exact Nat.div_le_self _ _

/-- A truncated quotient of an `int` fits an `int`, the quotient `-2^63 / -1` apart. -/
theorem isInt64_tdiv {a b : ℤ} (ha : isInt64 a) (hb : a ≠ -2 ^ 63 ∨ b ≠ -1) :
    isInt64 (Int.tdiv a b) := by
  have h1 := natAbs_tdiv_le a b
  unfold isInt64 at ha ⊢
  by_cases h2 : a = -2 ^ 63
  · have hb1 : b ≠ -1 := by
      rcases hb with hb | hb
      · exact absurd h2 hb
      · exact hb
    subst h2
    by_cases h3 : b = 1
    · subst h3; simp
    · by_cases h4 : b = 0
      · subst h4; simp
      · have h5 : 2 ≤ b.natAbs := by omega
        have h6 : (Int.tdiv (-2 ^ 63) b).natAbs ≤ 2 ^ 62 := by
          rw [Int.natAbs_tdiv]
          have h8 : (-2 ^ 63 : ℤ).natAbs = 2 ^ 63 := by decide
          rw [h8]
          calc 2 ^ 63 / b.natAbs ≤ 2 ^ 63 / 2 := Nat.div_le_div_left h5 (by norm_num)
            _ = 2 ^ 62 := by norm_num
        generalize Int.tdiv (-2 ^ 63) b = q at h6 ⊢
        norm_num at h6 ⊢
        omega
  · have h7 : a.natAbs < 2 ^ 63 := by norm_num at ha h2 ⊢; omega
    generalize Int.tdiv a b = q at h1 ⊢
    norm_num at h7 ⊢
    omega

/-! ## The `float64` operations of the loop -/

theorem ratVal_mul (m n : ℕ) (e f : ℤ) :
    ratVal (m * n) 1 (e + f) = ((m : ℚ) * 2 ^ e) * ((n : ℚ) * 2 ^ f) := by
  unfold ratVal
  rw [zpow_add₀ (by norm_num)]
  push_cast
  ring

theorem ratVal_div (m n : ℕ) (e f : ℤ) :
    ratVal m n (e - f) = ((m : ℚ) * 2 ^ e) / ((n : ℚ) * 2 ^ f) := by
  unfold ratVal
  rw [zpow_sub₀ (by norm_num)]
  ring

theorem ratVal_one (M : ℕ) (j : ℤ) : ratVal M 1 j = (M : ℚ) * 2 ^ j := by
  simp [ratVal]

theorem ratVal_pos (p q : ℕ) (x : ℤ) (hp : 0 < p) (hq : 0 < q) : 0 < ratVal p q x := by
  unfold ratVal
  positivity

theorem ilog2_unique {E F : ℤ} {v : ℚ} (a1 : (2 : ℚ) ^ E ≤ v) (a2 : v < 2 ^ (E + 1))
    (b1 : (2 : ℚ) ^ F ≤ v) (b2 : v < 2 ^ (F + 1)) : E = F := by
  have h1 : E ≤ F := by
    by_contra hc
    have h : (2 : ℚ) ^ (F + 1) ≤ 2 ^ E := zpow_le_zpow_right₀ (by norm_num) (by omega)
    linarith
  have h2 : F ≤ E := by
    by_contra hc
    have h : (2 : ℚ) ^ (E + 1) ≤ 2 ^ F := zpow_le_zpow_right₀ (by norm_num) (by omega)
    linarith
  omega

/-- The rounded value depends on the rational it is given only. -/
theorem rne_congr (s : Bool) (p q p1 q1 : ℕ) (x x1 : ℤ) (hp : 0 < p) (hq : 0 < q)
    (hp1 : 0 < p1) (hq1 : 0 < q1) (h : ratVal p q x = ratVal p1 q1 x1) :
    rne s p q x = rne s p1 q1 x1 := by
  obtain ⟨a1, a2⟩ := ilog2_spec p q x hp hq
  obtain ⟨b1, b2⟩ := ilog2_spec p1 q1 x1 hp1 hq1
  change (2 : ℚ) ^ ilog2 p q x ≤ ratVal p q x at a1
  change ratVal p q x < 2 ^ (ilog2 p q x + 1) at a2
  change (2 : ℚ) ^ ilog2 p1 q1 x1 ≤ ratVal p1 q1 x1 at b1
  change ratVal p1 q1 x1 < 2 ^ (ilog2 p1 q1 x1 + 1) at b2
  rw [← h] at b1 b2
  have hE : ilog2 p q x = ilog2 p1 q1 x1 := ilog2_unique a1 a2 b1 b2
  have hn : ∀ k : ℤ, roundHalfEven (scaledNum p x k) (scaledDen q x k)
      = roundHalfEven (scaledNum p1 x1 k) (scaledDen q1 x1 k) := by
    intro k
    have h1 := nearestEven_natDiv (scaledNum p x k) (scaledDen q x k) (scaledDen_pos q x k hq)
    have h2 := nearestEven_natDiv (scaledNum p1 x1 k) (scaledDen q1 x1 k)
      (scaledDen_pos q1 x1 k hq1)
    rw [scaled_ratio, zpow_sub₀ (by norm_num : (2 : ℚ) ≠ 0)] at h1 h2
    have h3 : (p : ℚ) / q * (2 ^ x / 2 ^ k) = (p1 : ℚ) / q1 * (2 ^ x1 / 2 ^ k) := by
      unfold ratVal at h
      calc (p : ℚ) / q * (2 ^ x / 2 ^ k) = (p : ℚ) / q * 2 ^ x / 2 ^ k := by ring
        _ = (p1 : ℚ) / q1 * 2 ^ x1 / 2 ^ k := by rw [h]
        _ = (p1 : ℚ) / q1 * (2 ^ x1 / 2 ^ k) := by ring
    rw [h3, ← h2] at h1
    exact_mod_cast h1
  unfold rne
  simp only [Nat.pos_iff_ne_zero.1 hp, Nat.pos_iff_ne_zero.1 hp1, if_false, hE, hn]

theorem rne_ge_of_rep (s : Bool) (p q : ℕ) (x : ℤ) (M : ℕ) (j : ℤ) (_hp : 0 < p)
    (hq : 0 < q) (hM : 0 < M) (hM2 : M < 2 ^ 53)
    (hlo : (2 : ℚ) ^ (-64 : ℤ) ≤ ratVal M 1 j) (hhi : ratVal p q x ≤ 2 ^ (128 : ℤ))
    (h : ratVal M 1 j ≤ ratVal p q x) : ratVal M 1 j ≤ mag (rne s p q x) := by
  have h1 := rne_mag_mono s s M 1 p q j x hM Nat.one_pos hq hlo hhi h
  rw [rne_mag_exact s M j hM hM2 hlo (h.trans hhi)] at h1
  exact h1

theorem rne_le_of_rep (s : Bool) (p q : ℕ) (x : ℤ) (M : ℕ) (j : ℤ) (hp : 0 < p)
    (hq : 0 < q) (hM2 : M < 2 ^ 53)
    (hlo : (2 : ℚ) ^ (-64 : ℤ) ≤ ratVal p q x) (hhi : ratVal M 1 j ≤ 2 ^ (128 : ℤ))
    (h : ratVal p q x ≤ ratVal M 1 j) : mag (rne s p q x) ≤ ratVal M 1 j := by
  have hM : 0 < M := by
    rcases Nat.eq_zero_or_pos M with h0 | h0
    · exfalso
      have h5 : ratVal M 1 j = 0 := by simp [ratVal, h0]
      have h6 := ratVal_pos p q x hp hq
      linarith
    · exact h0
  have h1 := rne_mag_mono s s p q M 1 x j hp hq Nat.one_pos hlo hhi h
  rw [rne_mag_exact s M j hM hM2 (hlo.trans h) hhi] at h1
  exact h1

/-- The value of `int(x)` for a finite `x`: the integer part of the magnitude with the sign
of `x`, when that fits an `int`. -/
theorem toInt_fin (s : Bool) (m : ℕ) (e : ℤ) :
    toInt (fin s m e)
      = if -2 ^ 63 ≤ (if s then -⌊(m : ℚ) * 2 ^ e⌋ else ⌊(m : ℚ) * 2 ^ e⌋) ∧
            (if s then -⌊(m : ℚ) * 2 ^ e⌋ else ⌊(m : ℚ) * 2 ^ e⌋) < 2 ^ 63
        then (if s then -⌊(m : ℚ) * 2 ^ e⌋ else ⌊(m : ℚ) * 2 ^ e⌋) else -2 ^ 63 := by
  have hfl : (if 0 ≤ e then (m : ℤ) * 2 ^ e.toNat else (m : ℤ) / 2 ^ (-e).toNat)
      = ⌊(m : ℚ) * 2 ^ e⌋ := by
    split_ifs with he
    · obtain ⟨t, ht⟩ := Int.eq_ofNat_of_zero_le he
      subst ht
      have : (m : ℚ) * 2 ^ ((t : ℕ) : ℤ) = (((m : ℤ) * 2 ^ t : ℤ) : ℚ) := by
        rw [zpow_natCast]; push_cast; rfl
      rw [this, Int.floor_intCast]
      simp
    · obtain ⟨t, ht⟩ := Int.eq_ofNat_of_zero_le (show 0 ≤ -e by omega)
      have he2 : e = -(t : ℤ) := by omega
      subst he2
      have : (m : ℚ) * 2 ^ (-(t : ℤ)) = ((m : ℤ) : ℚ) / ((2 ^ t : ℕ) : ℚ) := by
        rw [zpow_neg, zpow_natCast]; push_cast; rfl
      rw [this, Rat.floor_intCast_div_natCast]
      simp
  unfold toInt
  simp only [hfl]

/-! ## Conversions between `int` and `float64` -/

theorem two_zpow_neg64_le_one : (2 : ℚ) ^ (-64 : ℤ) ≤ 1 := by
  rw [zpow_neg]
  norm_num

theorem natAbs_cast_bounds (i : ℤ) (hi : i ≠ 0) (hr : isInt64 i) :
    (1 : ℚ) ≤ (i.natAbs : ℚ) ∧ (i.natAbs : ℚ) ≤ 2 ^ 63 := by
  unfold isInt64 at hr
  have h1 : 1 ≤ i.natAbs := by omega
  have h2 : i.natAbs ≤ 2 ^ 63 := by norm_num at hr ⊢; omega
  constructor
  · exact_mod_cast h1
  · exact_mod_cast h2

/-- The value of `float64(i)` for a non-zero `int`: a finite value with the sign of `i` and
a magnitude between `1` and `2^63`. -/
theorem ofInt_bounds (i : ℤ) (hi : i ≠ 0) (hr : isInt64 i) :
    ∃ m e, ofInt i = fin (decide (i < 0)) m e ∧ (1 : ℚ) ≤ (m : ℚ) * 2 ^ e ∧
      (m : ℚ) * 2 ^ e ≤ 2 ^ 63 := by
  obtain ⟨b1, b2⟩ := natAbs_cast_bounds i hi hr
  have hp : 0 < i.natAbs := by omega
  have hv : ratVal i.natAbs 1 0 = (i.natAbs : ℚ) := by simp [ratVal]
  have hlo : (2 : ℚ) ^ (-64 : ℤ) ≤ ratVal i.natAbs 1 0 := by
    rw [hv]; exact two_zpow_neg64_le_one.trans b1
  have hhi : ratVal i.natAbs 1 0 ≤ 2 ^ (128 : ℤ) := by
    rw [hv]; refine b2.trans ?_; norm_num
  obtain ⟨⟨m, e, hf⟩, -⟩ := rne_mag (decide (i < 0)) i.natAbs 1 0 hp Nat.one_pos hlo hhi
  have hL : ratVal 1 1 0 = 1 := by simp [ratVal]
  have hU : ratVal 1 1 63 = 2 ^ 63 := by rw [ratVal_one]; norm_num
  have h1 := rne_ge_of_rep (decide (i < 0)) i.natAbs 1 0 1 0 hp Nat.one_pos Nat.one_pos
    (by norm_num) (by rw [hL]; exact two_zpow_neg64_le_one) hhi (by rw [hL, hv]; exact b1)
  have h2 := rne_le_of_rep (decide (i < 0)) i.natAbs 1 0 1 63 hp Nat.one_pos
    (by norm_num) hlo (by rw [hU]; norm_num) (by rw [hU, hv]; exact b2)
  rw [hL, hf] at h1
  rw [hU, hf] at h2
  exact ⟨m, e, hf, h1, h2⟩

/-- An `int` below `2^53` in magnitude is converted exactly. -/
theorem ofInt_exact (i : ℤ) (hi : i ≠ 0) (h53 : i.natAbs < 2 ^ 53) :
    ∃ m e, ofInt i = fin (decide (i < 0)) m e ∧ (m : ℚ) * 2 ^ e = (i.natAbs : ℚ) := by
  have hp : 0 < i.natAbs := by omega
  have hv : ratVal i.natAbs 1 0 = (i.natAbs : ℚ) := by simp [ratVal]
  have b1 : (1 : ℚ) ≤ (i.natAbs : ℚ) := by exact_mod_cast hp
  have b2 : (i.natAbs : ℚ) ≤ 2 ^ 53 := by exact_mod_cast h53.le
  have hlo : (2 : ℚ) ^ (-64 : ℤ) ≤ ratVal i.natAbs 1 0 := by
    rw [hv]; exact two_zpow_neg64_le_one.trans b1
  have hhi : ratVal i.natAbs 1 0 ≤ 2 ^ (128 : ℤ) := by
    rw [hv]; refine b2.trans ?_; norm_num
  obtain ⟨⟨m, e, hf⟩, -⟩ := rne_mag (decide (i < 0)) i.natAbs 1 0 hp Nat.one_pos hlo hhi
  have h1 := rne_mag_exact (decide (i < 0)) i.natAbs 0 hp h53 hlo hhi
  have : ofInt i = rne (decide (i < 0)) i.natAbs 1 0 := rfl
  refine ⟨m, e, this ▸ hf, ?_⟩
  rw [hf, hv] at h1
  simpa [mag] using h1

set_option maxRecDepth 8000 in
theorem sqMileToSqKm_eq : sqMileToSqKm = fin false 5832161517444792 (-51) := by decide

set_option maxRecDepth 8000 in
theorem ofInt_100 : ofInt 100 = fin false 7036874417766400 (-46) := by decide

set_option maxRecDepth 8000 in
theorem ofInt_10000 : ofInt 10000 = fin false 5497558138880000 (-39) := by decide

set_option maxRecDepth 8000 in
theorem rne_hundredth : rne false 1 100 0 = fin false 5764607523034235 (-59) := by decide

/-! ## The converted area -/

theorem nearestEven_le_pred {y : ℚ} {n : ℤ} (h : y < (n : ℚ) - 1 / 2) :
    nearestEven y ≤ n - 1 := by
  have hy1 : (⌊y⌋ : ℚ) ≤ y := Int.floor_le y
  have h1 : ⌊y⌋ ≤ n - 1 := by
    by_contra hc
    have : n ≤ ⌊y⌋ := by omega
    have : (n : ℚ) ≤ (⌊y⌋ : ℚ) := by exact_mod_cast this
    linarith
  unfold nearestEven
  split_ifs with h3 h4 h5
  · exact h1
  · by_contra hc
    have h6 : ⌊y⌋ = n - 1 := by omega
    rw [h6] at h4
    push_cast at h4
    linarith
  · exact h1
  · by_contra hc
    have h6 : ⌊y⌋ = n - 1 := by omega
    rw [h6] at h3
    push_cast at h3
    linarith

/-- A value more than half a unit in the last place below a natural number `N` is rounded
to a value below `N`. -/
theorem rne_mag_lt_near (s : Bool) (p q : ℕ) (x : ℤ) (N : ℕ) (b : ℤ) (hp : 0 < p)
    (hq : 0 < q) (hb : b ≤ 53) (hlo : (2 : ℚ) ^ (-64 : ℤ) ≤ ratVal p q x)
    (hvb : ratVal p q x < 2 ^ b) (h : ratVal p q x + 2 ^ (b - 54) < (N : ℚ)) :
    mag (rne s p q x) < (N : ℚ) := by
  have hb2 : (2 : ℚ) ^ b ≤ 2 ^ (128 : ℤ) := zpow_le_zpow_right₀ (by norm_num) (by omega)
  rw [(rne_mag s p q x hp hq hlo (hvb.le.trans hb2)).2]
  obtain ⟨a1, a2⟩ := ilog2_spec p q x hp hq
  set E := ilog2 p q x
  change (2 : ℚ) ^ E ≤ ratVal p q x at a1
  set v := ratVal p q x
  have hE : E + 1 ≤ b := by
    by_contra hc
    have h2 : (2 : ℚ) ^ b ≤ 2 ^ E := zpow_le_zpow_right₀ (by norm_num) (by omega)
    linarith
  obtain ⟨t, ht⟩ := Int.eq_ofNat_of_zero_le (show 0 ≤ 52 - E by omega)
  have hk : (0 : ℚ) < 2 ^ (E - 52) := by positivity
  have hone : ((2 ^ t : ℕ) : ℚ) * 2 ^ (E - 52) = 1 := by
    have : E - 52 = -(t : ℤ) := by omega
    rw [this, zpow_neg, zpow_natCast]
    push_cast
    field_simp
  have hN : (N : ℚ) = (((N * 2 ^ t : ℕ) : ℤ) : ℚ) * 2 ^ (E - 52) := by
    push_cast
    push_cast at hone
    rw [mul_assoc, hone, mul_one]
  have hhalf : (2 : ℚ) ^ (E - 53) = 2 ^ (E - 52) / 2 := by
    have : E - 53 = (E - 52) - 1 := by ring
    rw [this, zpow_sub₀ (by norm_num)]
    norm_num
  have hmono : (2 : ℚ) ^ (E - 53) ≤ 2 ^ (b - 54) :=
    zpow_le_zpow_right₀ (by norm_num) (by omega)
  have hnear : v / 2 ^ (E - 52) < (((N * 2 ^ t : ℕ) : ℤ) : ℚ) - 1 / 2 := by
    rw [div_lt_iff₀ hk, sub_mul, ← hN]
    rw [hhalf] at hmono
    generalize (2 : ℚ) ^ (E - 52) = K at hmono ⊢
    generalize (2 : ℚ) ^ (b - 54) = B at hmono h
    generalize ((N : ℕ) : ℚ) = Nq at h ⊢
    linarith
  have h5 := nearestEven_le_pred hnear
  have h6 : ((nearestEven (v / 2 ^ (E - 52)) : ℤ) : ℚ) ≤ (((N * 2 ^ t : ℕ) : ℤ) : ℚ) - 1 := by
    exact_mod_cast h5
  unfold rndAt
  calc ((nearestEven (v / 2 ^ (E - 52)) : ℤ) : ℚ) * 2 ^ (E - 52)
      ≤ ((((N * 2 ^ t : ℕ) : ℤ) : ℚ) - 1) * 2 ^ (E - 52) :=
        mul_le_mul_of_nonneg_right h6 hk.le
    _ = (N : ℚ) - 2 ^ (E - 52) := by rw [sub_mul, ← hN, one_mul]
    _ < (N : ℚ) := by linarith

/-- The `float64` constant `2.59` as a rational. -/
theorem sqMileToSqKm_val :
    ((5832161517444792 : ℕ) : ℚ) * 2 ^ (-51 : ℤ) = 259 / 100 - 1 / (100 * 2 ^ 46) := by
  rw [zpow_neg]
  norm_num

/-- A non-zero source area gives a converted area of magnitude at least two. -/
theorem convertedArea_abs_ge (g : countyGithub) (h0 : g.Area ≠ 0) (hr : isInt64 g.Area) :
    convertedArea g ≤ -2 ∨ 2 ≤ convertedArea g := by
  obtain ⟨m, e, hf, b1, b2⟩ := ofInt_bounds g.Area h0 hr
  have hm : 0 < m := by
    rcases Nat.eq_zero_or_pos m with h | h
    · rw [h] at b1; norm_num at b1
    · exact h
  have hv : ratVal (m * 5832161517444792) 1 (e + -51)
      = (m : ℚ) * 2 ^ e * (259 / 100 - 1 / (100 * 2 ^ 46)) := by
    rw [ratVal_mul, sqMileToSqKm_val]
  have hc1 : (2 : ℚ) ≤ 259 / 100 - 1 / (100 * 2 ^ 46) := by norm_num
  have hc2 : (259 : ℚ) / 100 - 1 / (100 * 2 ^ 46) ≤ 4 := by norm_num
  have hc0 : (0 : ℚ) ≤ 259 / 100 - 1 / (100 * 2 ^ 46) := by norm_num
  have hlo2 : (2 : ℚ) ≤ ratVal (m * 5832161517444792) 1 (e + -51) := by
    rw [hv]
    generalize (259 : ℚ) / 100 - 1 / (100 * 2 ^ 46) = c at hc1 hc2 hc0 ⊢
    nlinarith
  have hhi2 : ratVal (m * 5832161517444792) 1 (e + -51) ≤ 2 ^ (128 : ℤ) := by
    rw [hv]
    have : (m : ℚ) * 2 ^ e * (259 / 100 - 1 / (100 * 2 ^ 46)) ≤ 2 ^ 63 * 4 := by
      generalize (259 : ℚ) / 100 - 1 / (100 * 2 ^ 46) = c at hc1 hc2 hc0 ⊢
      nlinarith
    refine this.trans ?_
    norm_num
  have hp : 0 < m * 5832161517444792 := by positivity
  have hlo : (2 : ℚ) ^ (-64 : ℤ) ≤ ratVal (m * 5832161517444792) 1 (e + -51) :=
    two_zpow_neg64_le_one.trans (by linarith)
  obtain ⟨⟨m2, e2, hf2⟩, -⟩ := rne_mag (xor (decide (g.Area < 0)) false)
    (m * 5832161517444792) 1 (e + -51) hp Nat.one_pos hlo hhi2
  have hge := rne_ge_of_rep (xor (decide (g.Area < 0)) false) (m * 5832161517444792) 1
    (e + -51) 2 0 hp Nat.one_pos (by norm_num) (by norm_num)
    (by rw [ratVal_one]; norm_num [two_zpow_neg64_le_one]) hhi2
    (by rw [ratVal_one]; simpa using hlo2)
  rw [hf2, ratVal_one] at hge
  simp only [mag, Nat.cast_ofNat, zpow_zero, mul_one] at hge
  have hfl : (2 : ℤ) ≤ ⌊(m2 : ℚ) * 2 ^ e2⌋ := by
    rw [Int.le_floor]; exact_mod_cast hge
  have hmul : F64.mul (fin (decide (g.Area < 0)) m e) (fin false 5832161517444792 (-51))
      = rne (xor (decide (g.Area < 0)) false) (m * 5832161517444792) 1 (e + -51) := rfl
  unfold convertedArea
  rw [hf, sqMileToSqKm_eq, hmul, hf2, toInt_fin]
  generalize ⌊(m2 : ℚ) * 2 ^ e2⌋ = t at hfl ⊢
  split_ifs <;> norm_num at * <;> omega

set_option maxRecDepth 8000 in
theorem mul_zero_sqMileToSqKm : F64.mul (ofInt 0) sqMileToSqKm = fin false 0 (-1074) := by
  decide

theorem toInt_mul_zero : toInt (F64.mul (ofInt 0) sqMileToSqKm) = 0 := by
  rw [mul_zero_sqMileToSqKm, toInt_fin]
  norm_num

/-- Up to `10^14` square miles the converted area is the exact product with `2.59`,
truncated. -/
theorem convertedArea_eq (g : countyGithub) (h0 : 0 ≤ g.Area) (h1 : g.Area ≤ 10 ^ 14) :
    convertedArea g = g.Area * 259 / 100 := by
  rcases h0.eq_or_lt with hz | hpos
  · unfold convertedArea
    rw [← hz, toInt_mul_zero]
    decide
  obtain ⟨A, hA⟩ := Int.eq_ofNat_of_zero_le h0
  have hApos : 0 < A := by omega
  have hAle : A ≤ 10 ^ 14 := by
    have : (A : ℤ) ≤ 10 ^ 14 := by rw [← hA]; exact h1
    exact_mod_cast this
  have hne : g.Area ≠ 0 := by omega
  have h53 : g.Area.natAbs < 2 ^ 53 := by
    rw [hA, Int.natAbs_ofNat]
    calc A ≤ 10 ^ 14 := hAle
      _ < 2 ^ 53 := by norm_num
  obtain ⟨m, e, hf, hval⟩ := ofInt_exact g.Area hne h53
  rw [hA, Int.natAbs_ofNat] at hval
  have hs : decide (g.Area < 0) = false := by
    rw [decide_eq_false_iff_not]; omega
  rw [hs] at hf
  have hAq1 : (1 : ℚ) ≤ (A : ℚ) := by exact_mod_cast hApos
  have hAq2 : (A : ℚ) ≤ 10 ^ 14 := by exact_mod_cast hAle
  have hm : 0 < m := by
    rcases Nat.eq_zero_or_pos m with h | h
    · rw [h] at hval; simp at hval; linarith
    · exact h
  have hv : ratVal (m * 5832161517444792) 1 (e + -51)
      = (A : ℚ) * (259 / 100 - 1 / (100 * 2 ^ 46)) := by
    rw [ratVal_mul, sqMileToSqKm_val, hval]
  set v := ratVal (m * 5832161517444792) 1 (e + -51) with hvdef
  have hp : 0 < m * 5832161517444792 := by positivity
  have hv1 : (1 : ℚ) ≤ v := by rw [hv]; nlinarith
  have hv48 : v < 2 ^ (48 : ℤ) := by
    rw [hv]
    have : (A : ℚ) * (259 / 100 - 1 / (100 * 2 ^ 46)) ≤ 10 ^ 14 * (259 / 100) := by nlinarith
    refine lt_of_le_of_lt this ?_
    norm_num
  have hlo : (2 : ℚ) ^ (-64 : ℤ) ≤ v := two_zpow_neg64_le_one.trans hv1
  have hv53 : v < 2 ^ (53 : ℤ) :=
    hv48.trans_le (zpow_le_zpow_right₀ (by norm_num) (by norm_num))
  have hhi : v ≤ 2 ^ (128 : ℤ) :=
    hv48.le.trans (zpow_le_zpow_right₀ (by norm_num) (by norm_num))
  -- the exact quotient and its integer part
  have hn1 : ((A * 259 / 100 : ℕ) : ℚ) * 100 ≤ (A : ℚ) * 259 := by
    have : A * 259 / 100 * 100 ≤ A * 259 := Nat.div_mul_le_self _ _
    exact_mod_cast this
  have hn2 : (A : ℚ) * 259 ≤ ((A * 259 / 100 : ℕ) : ℚ) * 100 + 99 := by
    have : A * 259 ≤ A * 259 / 100 * 100 + 99 := by omega
    exact_mod_cast this
  set n : ℕ := A * 259 / 100 with hn
  obtain ⟨⟨m2, e2, hf2⟩, -⟩ := rne_mag false (m * 5832161517444792) 1 (e + -51) hp
    Nat.one_pos hlo hhi
  have hge : (n : ℚ) ≤ mag (rne false (m * 5832161517444792) 1 (e + -51)) := by
    apply rne_mag_ge_near false _ _ _ n hp Nat.one_pos hlo hv53
    rw [← hvdef, hv]
    have h54 : (2 : ℚ) ^ (-54 : ℤ) = 1 / 2 ^ 54 := by rw [zpow_neg]; norm_num
    rw [h54]
    have hc : (259 : ℚ) / 100 ≤ (259 / 100 - 1 / (100 * 2 ^ 46)) * (1 + 1 / 2 ^ 54) := by
      norm_num
    nlinarith
  have hlt : mag (rne false (m * 5832161517444792) 1 (e + -51)) < ((n + 1 : ℕ) : ℚ) := by
    by_cases h47 : v < 2 ^ (47 : ℤ)
    · apply rne_mag_lt_near false _ _ _ (n + 1) 47 hp Nat.one_pos (by norm_num) hlo h47
      rw [← hvdef, hv]
      have h7 : (2 : ℚ) ^ ((47 : ℤ) - 54) = 1 / 128 := by
        rw [show (47 : ℤ) - 54 = -7 by norm_num, zpow_neg]; norm_num
      rw [h7]
      push_cast
      nlinarith
    · apply rne_mag_lt_near false _ _ _ (n + 1) 48 hp Nat.one_pos (by norm_num) hlo hv48
      rw [← hvdef]
      have h47b : (2 : ℚ) ^ (47 : ℤ) ≤ v := not_lt.1 h47
      rw [hv] at h47b ⊢
      have h6 : (2 : ℚ) ^ ((48 : ℤ) - 54) = 1 / 64 := by
        rw [show (48 : ℤ) - 54 = -6 by norm_num, zpow_neg]; norm_num
      have h47c : (2 : ℚ) ^ (47 : ℤ) = 140737488355328 := by norm_num
      rw [h6]
      rw [h47c] at h47b
      push_cast
      nlinarith
  have hmul : F64.mul (fin false m e) (fin false 5832161517444792 (-51))
      = rne (xor false false) (m * 5832161517444792) 1 (e + -51) := rfl
  rw [hf2] at hge hlt
  simp only [mag] at hge hlt
  have hfl : ⌊(m2 : ℚ) * 2 ^ e2⌋ = (n : ℤ) := by
    rw [Int.floor_eq_iff]
    constructor
    · exact_mod_cast hge
    · push_cast at hlt ⊢; exact hlt
  have hn63 : (n : ℤ) < 2 ^ 63 := by
    have : n ≤ 10 ^ 14 * 259 / 100 := Nat.div_le_div_right (Nat.mul_le_mul_right 259 hAle)
    have h2 : (n : ℤ) ≤ ((10 ^ 14 * 259 / 100 : ℕ) : ℤ) := by exact_mod_cast this
    refine lt_of_le_of_lt h2 ?_
    norm_num
  unfold convertedArea
  rw [hf, sqMileToSqKm_eq, hmul]
  simp only [Bool.xor_false]
  rw [hf2, toInt_fin, hfl]
  have hdiv : g.Area * 259 / 100 = (n : ℤ) := by
    rw [hA, hn]
    push_cast
    rfl
  rw [hdiv]
  have hn0 : (0 : ℤ) ≤ (n : ℤ) := Int.natCast_nonneg n
  simp only [Bool.false_eq_true, if_false]
  rw [if_pos]
  constructor
  · have : (-2 : ℤ) ^ 63 ≤ 0 := by norm_num
    norm_num at this ⊢
    omega
  · exact hn63

/-! ## The risk index -/

theorem nearestEven_sub_le (y : ℚ) :
    (nearestEven y : ℚ) - y ≤ 1 / 2 ∧ y - (nearestEven y : ℚ) ≤ 1 / 2 := by
  have hy1 : (⌊y⌋ : ℚ) ≤ y := Int.floor_le y
  have hy2 : y < ⌊y⌋ + 1 := Int.lt_floor_add_one y
  unfold nearestEven
  split_ifs <;> push_cast <;> constructor <;> linarith

/-- Rounding changes a value by at most the fraction `2^-53` of it. -/
theorem rne_mag_error (s : Bool) (p q : ℕ) (x : ℤ) (hp : 0 < p) (hq : 0 < q)
    (hlo : (2 : ℚ) ^ (-64 : ℤ) ≤ ratVal p q x) (hhi : ratVal p q x ≤ 2 ^ (128 : ℤ)) :
    |mag (rne s p q x) - ratVal p q x| ≤ ratVal p q x * 2 ^ (-53 : ℤ) := by
  rw [(rne_mag s p q x hp hq hlo hhi).2]
  obtain ⟨a1, -⟩ := ilog2_spec p q x hp hq
  set E := ilog2 p q x
  change (2 : ℚ) ^ E ≤ ratVal p q x at a1
  set v := ratVal p q x
  have hk : (0 : ℚ) < 2 ^ (E - 52) := by positivity
  obtain ⟨n1, n2⟩ := nearestEven_sub_le (v / 2 ^ (E - 52))
  have hvk : v / 2 ^ (E - 52) * 2 ^ (E - 52) = v := by field_simp
  have hE : (2 : ℚ) ^ E * 2 ^ (-53 : ℤ) = 2 ^ (E - 52) / 2 := by
    have : E = (E - 52) + 52 := by ring
    nth_rewrite 1 [this]
    rw [zpow_add₀ (by norm_num), zpow_neg]
    norm_num
    ring
  have h53 : (0 : ℚ) < 2 ^ (-53 : ℤ) := by positivity
  have hb : (2 : ℚ) ^ (E - 52) / 2 ≤ v * 2 ^ (-53 : ℤ) := by
    rw [← hE]; exact mul_le_mul_of_nonneg_right a1 h53.le
  unfold rndAt
  have e1 := mul_le_mul_of_nonneg_right n1 hk.le
  have e2 := mul_le_mul_of_nonneg_right n2 hk.le
  rw [sub_mul, hvk] at e1 e2
  rw [abs_le]
  generalize ((nearestEven (v / 2 ^ (E - 52)) : ℤ) : ℚ) * 2 ^ (E - 52) = r at e1 e2 ⊢
  generalize v * (2 : ℚ) ^ (-53 : ℤ) = w at hb ⊢
  generalize (2 : ℚ) ^ (E - 52) = K at hb e1 e2
  constructor <;> linarith

theorem Round_fin_of_neg (s : Bool) (m : ℕ) (e : ℤ) (he : e < 0) :
    Round (fin s m e) = rne s ((2 * m + 2 ^ (-e).toNat) / (2 * 2 ^ (-e).toNat)) 1 0 := by
  have h : ¬ (0 ≤ e) := by omega
  simp only [Round, h, if_false]

theorem Round_fin_of_nonneg (s : Bool) (m : ℕ) (e : ℤ) (he : 0 ≤ e) :
    Round (fin s m e) = fin s m e := by
  simp only [Round, he, if_true]

/-- The natural number `math.Round` rounds a magnitude `m * 2^(-j)` to. -/
theorem roundNat_bounds (m j L U : ℕ) (h1 : (L : ℚ) ≤ (m : ℚ) * 2 ^ (-(j : ℤ)))
    (h2 : (m : ℚ) * 2 ^ (-(j : ℤ)) ≤ (U : ℚ)) :
    L ≤ (2 * m + 2 ^ j) / (2 * 2 ^ j) ∧ (2 * m + 2 ^ j) / (2 * 2 ^ j) ≤ U := by
  have hj : (0 : ℚ) < 2 ^ j := by positivity
  rw [zpow_neg, zpow_natCast, ← div_eq_mul_inv] at h1 h2
  rw [le_div_iff₀ hj] at h1
  rw [div_le_iff₀ hj] at h2
  have h1n : L * 2 ^ j ≤ m := by exact_mod_cast h1
  have h2n : m ≤ U * 2 ^ j := by exact_mod_cast h2
  have hpos : 0 < 2 * 2 ^ j := by positivity
  constructor
  · rw [Nat.le_div_iff_mul_le hpos]
    nlinarith
  · have : (2 * m + 2 ^ j) / (2 * 2 ^ j) < U + 1 := by
      rw [Nat.div_lt_iff_lt_mul hpos]
      nlinarith
    omega

theorem Round_bounds (s : Bool) (m : ℕ) (e : ℤ) (h1 : (100 : ℚ) ≤ (m : ℚ) * 2 ^ e)
    (h2 : (m : ℚ) * 2 ^ e ≤ 2 ^ 70) :
    ∃ m1 e1, Round (fin s m e) = fin s m1 e1 ∧ (100 : ℚ) ≤ (m1 : ℚ) * 2 ^ e1 ∧
      (m1 : ℚ) * 2 ^ e1 ≤ 2 ^ 70 := by
  by_cases he : 0 ≤ e
  · exact ⟨m, e, Round_fin_of_nonneg s m e he, h1, h2⟩
  · have he2 : e < 0 := by omega
    obtain ⟨j, hj⟩ := Int.eq_ofNat_of_zero_le (show 0 ≤ -e by omega)
    have hej : e = -(j : ℤ) := by omega
    have htn : (-e).toNat = j := by omega
    rw [Round_fin_of_neg s m e he2, htn]
    rw [hej] at h1 h2
    obtain ⟨b1, b2⟩ := roundNat_bounds m j 100 (2 ^ 70) (by exact_mod_cast h1)
      (by push_cast; exact h2)
    set N := (2 * m + 2 ^ j) / (2 * 2 ^ j)
    have hN : 0 < N := by omega
    have b1q : (100 : ℚ) ≤ (N : ℚ) := by exact_mod_cast b1
    have b2q : (N : ℚ) ≤ 2 ^ 70 := by exact_mod_cast b2
    have hv : ratVal N 1 0 = (N : ℚ) := by simp [ratVal]
    have hlo : (2 : ℚ) ^ (-64 : ℤ) ≤ ratVal N 1 0 := by
      rw [hv]; exact two_zpow_neg64_le_one.trans (by linarith)
    have hhi : ratVal N 1 0 ≤ 2 ^ (128 : ℤ) := by
      rw [hv]; refine b2q.trans ?_; norm_num
    obtain ⟨⟨m1, e1, hf⟩, -⟩ := rne_mag s N 1 0 hN Nat.one_pos hlo hhi
    have hL : ratVal 100 1 0 = 100 := by simp [ratVal]
    have hU : ratVal 1 1 70 = 2 ^ 70 := by rw [ratVal_one]; norm_num
    have g1 := rne_ge_of_rep s N 1 0 100 0 hN Nat.one_pos (by norm_num) (by norm_num)
      (by rw [hL]; exact two_zpow_neg64_le_one.trans (by norm_num)) hhi
      (by rw [hL, hv]; exact b1q)
    have g2 := rne_le_of_rep s N 1 0 1 70 hN Nat.one_pos (by norm_num) hlo
      (by rw [hU]; norm_num) (by rw [hU, hv]; exact b2q)
    rw [hL, hf] at g1
    rw [hU, hf] at g2
    exact ⟨m1, e1, hf, g1, g2⟩

/-- The risk index computed from a product of at least one is at least `0.01`. -/
theorem riskOfProduct_ge (P : ℤ) (h1 : 1 ≤ P) (h2 : P < 2 ^ 63) :
    ∃ m e, riskOfProduct P = fin false m e ∧ (1 : ℚ) / 100 ≤ (m : ℚ) * 2 ^ e := by
  have hP : isInt64 P := by unfold isInt64; constructor <;> [skip; exact h2]; norm_num; omega
  obtain ⟨m1, e1, hf1, a1, a2⟩ := ofInt_bounds P (by omega) hP
  have hs : decide (P < 0) = false := by rw [decide_eq_false_iff_not]; omega
  rw [hs] at hf1
  have hm1 : 0 < m1 := by
    rcases Nat.eq_zero_or_pos m1 with h | h
    · rw [h] at a1; norm_num at a1
    · exact h
  -- the product with 100
  have hmul : F64.mul (fin false m1 e1) (fin false 7036874417766400 (-46))
      = rne false (m1 * 7036874417766400) 1 (e1 + -46) := rfl
  have h100 : ((7036874417766400 : ℕ) : ℚ) * 2 ^ (-46 : ℤ) = 100 := by
    rw [zpow_neg]; norm_num
  have hv2 : ratVal (m1 * 7036874417766400) 1 (e1 + -46) = (m1 : ℚ) * 2 ^ e1 * 100 := by
    rw [ratVal_mul, h100]
  have hp2 : 0 < m1 * 7036874417766400 := by positivity
  have hlo2 : (2 : ℚ) ^ (-64 : ℤ) ≤ ratVal (m1 * 7036874417766400) 1 (e1 + -46) := by
    rw [hv2]; exact two_zpow_neg64_le_one.trans (by linarith)
  have hhi2 : ratVal (m1 * 7036874417766400) 1 (e1 + -46) ≤ 2 ^ (128 : ℤ) := by
    rw [hv2]
    have : (m1 : ℚ) * 2 ^ e1 * 100 ≤ 2 ^ 63 * 100 := by linarith
    refine this.trans ?_
    norm_num
  obtain ⟨⟨m2, e2, hf2⟩, -⟩ := rne_mag false (m1 * 7036874417766400) 1 (e1 + -46) hp2
    Nat.one_pos hlo2 hhi2
  have hL : ratVal 100 1 0 = 100 := by simp [ratVal]
  have hU : ratVal 1 1 70 = 2 ^ 70 := by rw [ratVal_one]; norm_num
  have g1 := rne_ge_of_rep false (m1 * 7036874417766400) 1 (e1 + -46) 100 0 hp2 Nat.one_pos
    (by norm_num) (by norm_num)
    (by rw [hL]; exact two_zpow_neg64_le_one.trans (by norm_num)) hhi2
    (by rw [hL, hv2]; linarith)
  have g2 := rne_le_of_rep false (m1 * 7036874417766400) 1 (e1 + -46) 1 70 hp2 Nat.one_pos
    (by norm_num) hlo2 (by rw [hU]; norm_num)
    (by rw [hU, hv2]
        have : (m1 : ℚ) * 2 ^ e1 * 100 ≤ 2 ^ 63 * 100 := by linarith
        refine this.trans ?_
        norm_num)
  rw [hL, hf2] at g1
  rw [hU, hf2] at g2
  simp only [mag] at g1 g2
  -- math.Round
  obtain ⟨m3, e3, hf3, c1, c2⟩ := Round_bounds false m2 e2 g1 g2
  have hm3 : 0 < m3 := by
    rcases Nat.eq_zero_or_pos m3 with h | h
    · rw [h] at c1; norm_num at c1
    · exact h
  -- the quotient by 10000
  have hdiv : F64.div (fin false m3 e3) (fin false 5497558138880000 (-39))
      = rne false m3 5497558138880000 (e3 - -39) := rfl
  have h10000 : ((5497558138880000 : ℕ) : ℚ) * 2 ^ (-39 : ℤ) = 10000 := by
    rw [zpow_neg]; norm_num
  have hv4 : ratVal m3 5497558138880000 (e3 - -39) = (m3 : ℚ) * 2 ^ e3 / 10000 := by
    rw [ratVal_div, h10000]
  have hlo4 : (2 : ℚ) ^ (-64 : ℤ) ≤ ratVal 1 100 0 := by
    unfold ratVal
    rw [zpow_neg]
    norm_num
  have hhi4 : ratVal m3 5497558138880000 (e3 - -39) ≤ 2 ^ (128 : ℤ) := by
    rw [hv4]
    have : (m3 : ℚ) * 2 ^ e3 / 10000 ≤ 2 ^ 70 := by
      rw [div_le_iff₀ (by norm_num)]; linarith
    refine this.trans ?_
    norm_num
  have hle4 : ratVal 1 100 0 ≤ ratVal m3 5497558138880000 (e3 - -39) := by
    rw [hv4]
    unfold ratVal
    rw [le_div_iff₀ (by norm_num)]
    norm_num
    linarith
  have hmono := rne_mag_mono false false 1 100 m3 5497558138880000 0 (e3 - -39) Nat.one_pos
    (by norm_num) (by norm_num) hlo4 hhi4 hle4
  obtain ⟨⟨m4, e4, hf4⟩, -⟩ := rne_mag false m3 5497558138880000 (e3 - -39) hm3
    (by norm_num) (hlo4.trans hle4) hhi4
  rw [rne_hundredth, hf4] at hmono
  simp only [mag] at hmono
  refine ⟨m4, e4, ?_, ?_⟩
  · unfold riskOfProduct
    rw [hf1, ofInt_100, hmul, hf2, hf3, ofInt_10000, hdiv, hf4]
  · refine le_trans ?_ hmono
    rw [zpow_neg]
    norm_num

theorem rne_zero (s : Bool) (q : ℕ) (x : ℤ) : rne s 0 q x = fin s 0 (-1074) := by
  simp [rne]

/-- The `float64` of a natural number below `2^53` is left unchanged by `math.Round`. -/
theorem Round_of_nat (s : Bool) (N : ℕ) (h53 : N < 2 ^ 53) :
    Round (rne s N 1 0) = rne s N 1 0 := by
  rcases Nat.eq_zero_or_pos N with h0 | hN
  · subst h0
    rw [rne_zero, Round_fin_of_neg s 0 (-1074) (by norm_num)]
    have : (2 * 0 + 2 ^ (- (-1074 : ℤ)).toNat) / (2 * 2 ^ (- (-1074 : ℤ)).toNat) = 0 := by
      apply Nat.div_eq_of_lt
      have : 0 < 2 ^ (- (-1074 : ℤ)).toNat := by positivity
      omega
    rw [this, rne_zero]
  have hv : ratVal N 1 0 = (N : ℚ) := by simp [ratVal]
  have b1 : (1 : ℚ) ≤ (N : ℚ) := by exact_mod_cast hN
  have b2 : (N : ℚ) ≤ 2 ^ 53 := by exact_mod_cast h53.le
  have hlo : (2 : ℚ) ^ (-64 : ℤ) ≤ ratVal N 1 0 := by
    rw [hv]; exact two_zpow_neg64_le_one.trans b1
  have hhi : ratVal N 1 0 ≤ 2 ^ (128 : ℤ) := by
    rw [hv]; refine b2.trans ?_; norm_num
  obtain ⟨⟨m, e, hf⟩, -⟩ := rne_mag s N 1 0 hN Nat.one_pos hlo hhi
  have hex := rne_mag_exact s N 0 hN h53 hlo hhi
  rw [hf, hv] at hex
  simp only [mag] at hex
  by_cases he : 0 ≤ e
  · rw [hf, Round_fin_of_nonneg s m e he]
  · have he2 : e < 0 := by omega
    obtain ⟨j, hj⟩ := Int.eq_ofNat_of_zero_le (show 0 ≤ -e by omega)
    have hej : e = -(j : ℤ) := by omega
    have htn : (-e).toNat = j := by omega
    have hjpos : (0 : ℚ) < 2 ^ j := by positivity
    have hmN : m = N * 2 ^ j := by
      rw [hej, zpow_neg, zpow_natCast, ← div_eq_mul_inv, div_eq_iff hjpos.ne'] at hex
      exact_mod_cast hex
    have hdiv : (2 * m + 2 ^ j) / (2 * 2 ^ j) = N := by
      have h1 : 2 * m + 2 ^ j = (2 * N + 1) * 2 ^ j := by rw [hmN]; ring
      rw [h1, Nat.mul_div_mul_right _ _ (by positivity)]
      omega
    nth_rewrite 1 [hf]
    rw [Round_fin_of_neg s m e he2, htn, hdiv]

theorem riskOfProduct_zero : riskOfProduct 0 = fin false 0 (-1074) := by
  have h1 : ofInt 0 = fin false 0 (-1074) := by
    unfold ofInt
    simp [rne_zero]
  have h2 : F64.mul (fin false 0 (-1074)) (fin false 7036874417766400 (-46))
      = rne false (0 * 7036874417766400) 1 (-1074 + -46) := rfl
  have h3 : F64.div (fin false 0 (-1074)) (fin false 5497558138880000 (-39))
      = rne false 0 5497558138880000 (-1074 - -39) := rfl
  have h4 := Round_of_nat false 0 (by norm_num)
  rw [rne_zero] at h4
  unfold riskOfProduct
  rw [h1, ofInt_100, h2, Nat.zero_mul, rne_zero, h4, ofInt_10000, h3, rne_zero]

/-- For a product below `2^53 / 100` in magnitude the risk index is the `float64` nearest
to the hundredth of the product. -/
theorem riskOfProduct_nearest (P : ℤ) (h : P.natAbs ≤ 90071992547409) :
    riskOfProduct P = rne (decide (P < 0)) P.natAbs 100 0 := by
  by_cases h0 : P = 0
  · subst h0
    rw [riskOfProduct_zero]
    simp [rne_zero]
  set M := P.natAbs with hM
  set s := decide (P < 0) with hs
  have hMpos : 0 < M := by omega
  have hMq : (1 : ℚ) ≤ (M : ℚ) := by exact_mod_cast hMpos
  have h53 : M < 2 ^ 53 := by
    calc M ≤ 90071992547409 := h
      _ < 2 ^ 53 := by norm_num
  have h53b : M * 100 < 2 ^ 53 := by
    calc M * 100 ≤ 90071992547409 * 100 := Nat.mul_le_mul_right 100 h
      _ < 2 ^ 53 := by norm_num
  obtain ⟨m1, e1, hf1, hv1⟩ := ofInt_exact P h0 h53
  change (m1 : ℚ) * 2 ^ e1 = (M : ℚ) at hv1
  have hm1 : 0 < m1 := by
    rcases Nat.eq_zero_or_pos m1 with h | h
    · rw [h] at hv1; simp at hv1; linarith
    · exact h
  have hmul : F64.mul (fin s m1 e1) (fin false 7036874417766400 (-46))
      = rne (xor s false) (m1 * 7036874417766400) 1 (e1 + -46) := rfl
  have h100 : ((7036874417766400 : ℕ) : ℚ) * 2 ^ (-46 : ℤ) = 100 := by
    rw [zpow_neg]; norm_num
  have hc2 : rne s (m1 * 7036874417766400) 1 (e1 + -46) = rne s (M * 100) 1 0 := by
    apply rne_congr s _ _ _ _ _ _ (by positivity) Nat.one_pos (by positivity) Nat.one_pos
    rw [ratVal_mul, h100, hv1]
    simp [ratVal]
  have hv2 : ratVal (M * 100) 1 0 = (M : ℚ) * 100 := by simp [ratVal]
  have hlo2 : (2 : ℚ) ^ (-64 : ℤ) ≤ ratVal (M * 100) 1 0 := by
    rw [hv2]; exact two_zpow_neg64_le_one.trans (by linarith)
  have hhi2 : ratVal (M * 100) 1 0 ≤ 2 ^ (128 : ℤ) := by
    rw [hv2]
    have : (M : ℚ) * 100 ≤ 2 ^ 53 := by exact_mod_cast h53b.le
    refine this.trans ?_
    norm_num
  obtain ⟨⟨m2, e2, hf2⟩, -⟩ := rne_mag s (M * 100) 1 0 (by positivity) Nat.one_pos hlo2 hhi2
  have hex := rne_mag_exact s (M * 100) 0 (by positivity) h53b hlo2 hhi2
  rw [hf2, hv2] at hex
  simp only [mag] at hex
  have hm2 : 0 < m2 := by
    rcases Nat.eq_zero_or_pos m2 with h | h
    · rw [h] at hex; simp at hex; linarith
    · exact h
  have hdiv : F64.div (fin s m2 e2) (fin false 5497558138880000 (-39))
      = rne (xor s false) m2 5497558138880000 (e2 - -39) := rfl
  have h10000 : ((5497558138880000 : ℕ) : ℚ) * 2 ^ (-39 : ℤ) = 10000 := by
    rw [zpow_neg]; norm_num
  have hc4 : rne s m2 5497558138880000 (e2 - -39) = rne s M 100 0 := by
    apply rne_congr s _ _ _ _ _ _ hm2 (by norm_num) hMpos (by norm_num)
    rw [ratVal_div, h10000, hex]
    unfold ratVal
    norm_num
    ring
  unfold riskOfProduct
  rw [hf1, ofInt_100, hmul, Bool.xor_false, hc2, Round_of_nat s (M * 100) h53b, hf2,
    ofInt_10000, hdiv, Bool.xor_false, hc4]

/-! ## The loop body and the loops -/

theorem loopBody_of_sameFips (ParseFloat : String → F64) (g : countyGithub) (c : countyCDC)
    (v : MainVars) (h : sameFips g c) :
    loopBody ParseFloat g c v
      = (joinPair ParseFloat g c).map fun r => varsAfter ParseFloat g c r v := by
  unfold sameFips at h
  unfold loopBody joinPair
  simp only [h, if_true]
  cases h1 : divInt g.Population (convertedArea g) <;>
    simp [convertedArea, parseCount, parsePercent, varsAfter, riskIndexOf, riskOfProduct, h1] at *

theorem loopBody_of_not_sameFips (ParseFloat : String → F64) (g : countyGithub)
    (c : countyCDC) (v : MainVars) (h : ¬ sameFips g c) :
    loopBody ParseFloat g c v = some { v with tempFips := (Atoi g.Fips).1 } := by
  unfold sameFips at h
  unfold loopBody
  simp only [h, if_false]

theorem joinAll_append (ParseFloat : String → F64) (ps qs : List (countyGithub × countyCDC)) :
    joinAll ParseFloat (ps ++ qs)
      = (joinAll ParseFloat ps).bind fun a => (joinAll ParseFloat qs).map fun b => a ++ b := by
  induction ps with
  | nil => simp [joinAll]
  | cons p ps ih =>
    rw [List.cons_append]
    simp only [joinAll]
    rw [ih]
    cases joinPair ParseFloat p.1 p.2 with
    | none => simp
    | some r =>
      cases joinAll ParseFloat ps with
      | none => simp
      | some a => cases joinAll ParseFloat qs <;> simp

theorem innerLoop_result (ParseFloat : String → F64) (g : countyGithub) (cs : List countyCDC) :
    ∀ v : MainVars,
      (innerLoop ParseFloat g cs v).map (fun w => w.result)
        = (joinAll ParseFloat ((cs.filter fun c => decide (sameFips g c)).map fun c => (g, c))).map
            fun rs => v.result ++ rs := by
  induction cs with
  | nil => intro v; simp [innerLoop, joinAll]
  | cons c cs ih =>
    intro v
    by_cases h : sameFips g c
    · simp only [innerLoop, loopBody_of_sameFips ParseFloat g c v h, List.filter_cons, h,
        decide_True, if_true, List.map_cons, joinAll]
      cases hj : joinPair ParseFloat g c with
      | none => simp
      | some r =>
        simp only [Option.map_some', Option.some_bind, ih, varsAfter]
        cases joinAll ParseFloat ((cs.filter fun c => decide (sameFips g c)).map fun c => (g, c))
          <;> simp
    · simp only [innerLoop, loopBody_of_not_sameFips ParseFloat g c v h, List.filter_cons, h,
        decide_False, Option.some_bind, ih]
      simp

theorem outerLoop_result (ParseFloat : String → F64) (cs : List countyCDC)
    (gs : List countyGithub) :
    ∀ v : MainVars,
      (outerLoop ParseFloat cs gs v).map (fun w => w.result)
        = (joinAll ParseFloat (matchingPairs gs cs)).map fun rs => v.result ++ rs := by
  induction gs with
  | nil => intro v; simp [outerLoop, matchingPairs, joinAll]
  | cons g gs ih =>
    intro v
    have hi := innerLoop_result ParseFloat g cs v
    have hm : matchingPairs (g :: gs) cs
        = ((cs.filter fun c => decide (sameFips g c)).map fun c => (g, c))
            ++ matchingPairs gs cs := by
      simp [matchingPairs]
    rw [hm, joinAll_append]
    simp only [outerLoop]
    cases hv : innerLoop ParseFloat g cs v with
    | none =>
      rw [hv] at hi
      simp only [Option.map_none'] at hi
      cases hj : joinAll ParseFloat ((cs.filter fun c => decide (sameFips g c)).map fun c => (g, c)) with
      | none => simp
      | some rs => rw [hj] at hi; simp at hi
    | some w =>
      rw [hv] at hi
      cases hj : joinAll ParseFloat ((cs.filter fun c => decide (sameFips g c)).map fun c => (g, c)) with
      | none => rw [hj] at hi; simp at hi
      | some rs =>
        rw [hj] at hi
        simp only [Option.map_some', Option.some.injEq] at hi
        simp only [Option.some_bind, ih, hi]
        cases joinAll ParseFloat (matchingPairs gs cs) <;> simp

theorem mixResults_eq (ParseFloat : String → F64) (gs : List countyGithub)
    (cs : List countyCDC) :
    mixResults ParseFloat gs cs = joinAll ParseFloat (matchingPairs gs cs) := by
  unfold mixResults
  rw [outerLoop_result]
  cases joinAll ParseFloat (matchingPairs gs cs) <;> simp [initVars]

/-! ## The record of a joined pair -/

theorem divInt_eq_some {a b q : ℤ} (h : divInt a b = some q) :
    b ≠ 0 ∧ q = wrap64 (Int.tdiv a b) := by
  unfold divInt at h
  split_ifs at h with hb
  exact ⟨hb, (Option.some.inj h).symm⟩

theorem divInt_of_ne_zero (a : ℤ) {b : ℤ} (h : b ≠ 0) :
    divInt a b = some (wrap64 (Int.tdiv a b)) := by
  unfold divInt
  rw [if_neg h]

/-- The body on a matching pair: the record it appends is the record of the pair. -/
theorem loopBody_joined (ParseFloat : String → F64) (g : countyGithub) (c : countyCDC)
    (v w : MainVars) (hm : sameFips g c) (h : loopBody ParseFloat g c v = some w) :
    joinPair ParseFloat g c = some w.completeCounty ∧
      w.result = v.result ++ [w.completeCounty] := by
  rw [loopBody_of_sameFips ParseFloat g c v hm] at h
  cases hj : joinPair ParseFloat g c with
  | none => rw [hj] at h; simp at h
  | some r =>
    rw [hj] at h
    simp only [Option.map_some', Option.some.injEq] at h
    subst h
    simp [varsAfter]

/-- The fields of the record of a pair, and the two divisors the record needs non-zero. -/
theorem joinPair_fields (ParseFloat : String → F64) (g : countyGithub) (c : countyCDC)
    (r : county) (h : joinPair ParseFloat g c = some r) :
    g.Population ≠ 0 ∧ convertedArea g ≠ 0 ∧
    r.Name = ReplaceAll c.Name " County" "" ∧ r.State = g.State ∧ r.StateCode = c.State ∧
    r.Fips = c.Fips ∧ r.Population = g.Population ∧ r.Area = convertedArea g ∧
    r.Density = wrap64 (Int.tdiv g.Population r.Area) ∧
    r.Cases = parseCount c.Cases ∧ r.Deaths = parseCount c.Deaths ∧
    r.PercentOfState = parsePercent ParseFloat c.Percent ∧
    r.CasesByPopulation = wrap64 (Int.tdiv (mulInt r.Cases 100000) r.Population) ∧
    r.CasesByArea = wrap64 (Int.tdiv (mulInt r.Cases 1000) r.Area) ∧
    r.DeathsByPopulation = wrap64 (Int.tdiv (mulInt r.Deaths 100000) r.Population) ∧
    r.DeathsByArea = wrap64 (Int.tdiv (mulInt r.Deaths 1000) r.Area) ∧
    r.RiskIndex = riskIndexOf r.DeathsByArea r.CasesByPopulation := by
  unfold joinPair at h
  cases h1 : divInt g.Population (convertedArea g) with
  | none => rw [h1] at h; simp at h
  | some density =>
    cases h2 : divInt (mulInt (parseCount c.Cases) 100000) g.Population with
    | none => rw [h1, h2] at h; simp at h
    | some cbp =>
      cases h3 : divInt (mulInt (parseCount c.Cases) 1000) (convertedArea g) with
      | none => rw [h1, h2, h3] at h; simp at h
      | some cba =>
        cases h4 : divInt (mulInt (parseCount c.Deaths) 100000) g.Population with
        | none => rw [h1, h2, h3, h4] at h; simp at h
        | some dbp =>
          cases h5 : divInt (mulInt (parseCount c.Deaths) 1000) (convertedArea g) with
          | none => rw [h1, h2, h3, h4, h5] at h; simp at h
          | some dba =>
            rw [h1, h2, h3, h4, h5] at h
            simp only [Option.some_bind, Option.some.injEq] at h
            obtain ⟨a1, a2⟩ := divInt_eq_some h1
            obtain ⟨b1, b2⟩ := divInt_eq_some h2
            obtain ⟨-, c2⟩ := divInt_eq_some h3
            obtain ⟨-, d2⟩ := divInt_eq_some h4
            obtain ⟨-, e2⟩ := divInt_eq_some h5
            subst h
            exact ⟨b1, a1, rfl, rfl, rfl, rfl, rfl, rfl, a2, rfl, rfl, rfl, b2, c2, d2, e2, rfl⟩

/-- A pair has a record as soon as the population and the converted area are not zero. -/
theorem joinPair_isSome (ParseFloat : String → F64) (g : countyGithub) (c : countyCDC)
    (hp : g.Population ≠ 0) (ha : convertedArea g ≠ 0) :
    ∃ r, joinPair ParseFloat g c = some r := by
  unfold joinPair
  rw [divInt_of_ne_zero _ ha, divInt_of_ne_zero _ hp, divInt_of_ne_zero _ ha,
    divInt_of_ne_zero _ hp, divInt_of_ne_zero _ ha]
  exact ⟨_, rfl⟩

theorem joinAll_forall₂ (ParseFloat : String → F64) :
    ∀ (ps : List (countyGithub × countyCDC)) (out : List county),
      joinAll ParseFloat ps = some out →
        List.Forall₂ (fun p r => joinPair ParseFloat p.1 p.2 = some r) ps out := by
  intro ps
  induction ps with
  | nil =>
    intro out h
    simp only [joinAll, Option.some.injEq] at h
    subst h
    exact List.Forall₂.nil
  | cons p ps ih =>
    intro out h
    simp only [joinAll] at h
    cases h1 : joinPair ParseFloat p.1 p.2 with
    | none => rw [h1] at h; simp at h
    | some r =>
      cases h2 : joinAll ParseFloat ps with
      | none => rw [h1, h2] at h; simp at h
      | some rs =>
        rw [h1, h2] at h
        simp only [Option.some_bind, Option.some.injEq] at h
        subst h
        exact List.Forall₂.cons h1 (ih rs h2)

theorem joinAll_isSome (ParseFloat : String → F64) :
    ∀ ps : List (countyGithub × countyCDC),
      (∀ p ∈ ps, ∃ r, joinPair ParseFloat p.1 p.2 = some r) →
        ∃ out, joinAll ParseFloat ps = some out := by
  intro ps
  induction ps with
  | nil => intro _; exact ⟨[], rfl⟩
  | cons p ps ih =>
    intro h
    obtain ⟨r, hr⟩ := h p (by simp)
    obtain ⟨rs, hrs⟩ := ih (fun q hq => h q (List.mem_cons_of_mem _ hq))
    exact ⟨r :: rs, by simp [joinAll, hr, hrs]⟩

/-- The joined pairs are the pairs of the product with equal identifiers, in the order of
the product. -/
theorem matchingPairs_eq_filter (gs : List countyGithub) (cs : List countyCDC) :
    matchingPairs gs cs
      = (List.product gs cs).filter fun p => decide (sameFips p.1 p.2) := by
  induction gs with
  | nil => rfl
  | cons g gs ih =>
    have h1 : matchingPairs (g :: gs) cs
        = ((cs.filter fun c => decide (sameFips g c)).map fun c => (g, c))
            ++ matchingPairs gs cs := by
      simp [matchingPairs]
    have h2 : List.product (g :: gs) cs = cs.map (Prod.mk g) ++ List.product gs cs := by
      simp [List.product]
    rw [h1, h2, List.filter_append, ← ih, List.filter_map]
    rfl

theorem mem_matchingPairs {gs : List countyGithub} {cs : List countyCDC}
    {p : countyGithub × countyCDC} :
    p ∈ matchingPairs gs cs ↔ p.1 ∈ gs ∧ p.2 ∈ cs ∧ sameFips p.1 p.2 := by
  obtain ⟨g, c⟩ := p
  rw [matchingPairs_eq_filter]
  simp [List.mem_filter, List.pair_mem_product, and_assoc]

/-! ## The claims -/

set_option maxRecDepth 8000 in
/-- C1, counterexample: a demographic record with population zero and an epidemiological
record with the same identifier are a matching pair, and the loop ends in the panic
"integer divide by zero" instead of producing the record of the pair. -/
theorem join_panics_on_zero_population :
    sameFips emptyGithub losAngelesCDC ∧
      mixResults sampleParseFloat [emptyGithub] [losAngelesCDC] = none := by
  constructor <;> decide

/-- C1, amended: when no matching pair has population zero or converted area zero, the loop
produces exactly one record for each pair of the product of the two inputs whose identifiers
are equal as integers, in the order of the product, and no other record; inputs without a
matching pair give the empty output without error; a demographic record with identifier
`"06037"` and an epidemiological record with identifier `6037` give exactly one record. -/
theorem join_correct (ParseFloat : String → F64) (gs : List countyGithub)
    (cs : List countyCDC) :
    ((∀ g ∈ gs, ∀ c ∈ cs, sameFips g c → g.Population ≠ 0 ∧ convertedArea g ≠ 0) →
      ∃ out, mixResults ParseFloat gs cs = some out ∧
        List.Forall₂ (fun p r => joinPair ParseFloat p.1 p.2 = some r ∧ r.Fips = p.2.Fips)
          ((List.product gs cs).filter fun p => decide (sameFips p.1 p.2)) out) ∧
    ((∀ g ∈ gs, ∀ c ∈ cs, ¬ sameFips g c) → mixResults ParseFloat gs cs = some []) ∧
    (∀ (g : countyGithub) (c : countyCDC), g.Fips = "06037" → c.Fips = 6037 →
      g.Population ≠ 0 → convertedArea g ≠ 0 →
        ∃ r, mixResults ParseFloat [g] [c] = some [r]) := by
  have key : ∀ (gs : List countyGithub) (cs : List countyCDC),
      (∀ g ∈ gs, ∀ c ∈ cs, sameFips g c → g.Population ≠ 0 ∧ convertedArea g ≠ 0) →
      ∃ out, mixResults ParseFloat gs cs = some out ∧
        List.Forall₂ (fun p r => joinPair ParseFloat p.1 p.2 = some r ∧ r.Fips = p.2.Fips)
          ((List.product gs cs).filter fun p => decide (sameFips p.1 p.2)) out := by
    intro gs cs h
    have h1 : ∀ p ∈ matchingPairs gs cs, ∃ r, joinPair ParseFloat p.1 p.2 = some r := by
      intro p hp
      obtain ⟨hg, hc, hs⟩ := mem_matchingPairs.1 hp
      obtain ⟨a1, a2⟩ := h p.1 hg p.2 hc hs
      exact joinPair_isSome ParseFloat p.1 p.2 a1 a2
    obtain ⟨out, hout⟩ := joinAll_isSome ParseFloat _ h1
    refine ⟨out, by rw [mixResults_eq, hout], ?_⟩
    rw [← matchingPairs_eq_filter]
    refine (joinAll_forall₂ ParseFloat _ out hout).imp ?_
    intro p r hpr
    exact ⟨hpr, (joinPair_fields ParseFloat p.1 p.2 r hpr).2.2.2.2.2.1⟩
  refine ⟨key gs cs, ?_, ?_⟩
  · intro h
    have : matchingPairs gs cs = [] := by
      rw [List.eq_nil_iff_forall_not_mem]
      intro p hp
      obtain ⟨hg, hc, hs⟩ := mem_matchingPairs.1 hp
      exact h p.1 hg p.2 hc hs
    rw [mixResults_eq, this]
    rfl
  · intro g c hg hc hp ha
    have hs : sameFips g c := by
      unfold sameFips
      rw [hg, hc]
      decide
    obtain ⟨out, hout, hall⟩ := key [g] [c] (by
      intro g1 hg1 c1 hc1 _
      rw [List.mem_singleton] at hg1 hc1
      subst hg1
      exact ⟨hp, ha⟩)
    have hl : (List.product [g] [c]).filter (fun p => decide (sameFips p.1 p.2))
        = [(g, c)] := by
      simp [List.product, hs]
    rw [hl] at hall
    cases hall with
    | cons h1 h2 =>
      cases h2
      exact ⟨_, hout⟩

set_option maxRecDepth 8000 in
/-- C1, witness: the identifier text `"06037"` and the identifier `6037` give exactly one
joined record. -/
theorem join_correct_witness :
    ∃ r, mixResults sampleParseFloat [losAngelesGithub] [losAngelesCDC] = some [r] :=
  (join_correct sampleParseFloat [] []).2.2 losAngelesGithub losAngelesCDC rfl rfl
    (by decide) (by decide)

set_option maxRecDepth 8000 in
/-- C3, counterexample: the epidemiological name `"County County"` is joined under the name
`"County"`, not under the empty name: only the second word is preceded by a space. -/
theorem county_county_is_not_empty :
    countyCountyCDC.Name = "County County" ∧
      (mixResults sampleParseFloat [squareGithub] [countyCountyCDC]).map
          (List.map county.Name) = some ["County"] ∧
      ("County" : String) ≠ "" := by
  refine ⟨rfl, ?_, ?_⟩ <;> decide

/-- C3, amended: the epidemiological name `"County County"` yields `"County"` as the joined
county's Name. -/
theorem county_county_name (ParseFloat : String → F64) (g : countyGithub) (c : countyCDC)
    (v w : MainVars) (hm : sameFips g c) (h : loopBody ParseFloat g c v = some w)
    (hn : c.Name = "County County") : w.completeCounty.Name = "County" := by
  obtain ⟨hj, -⟩ := loopBody_joined ParseFloat g c v w hm h
  have hf := (joinPair_fields ParseFloat g c _ hj).2.2.1
  rw [hf, hn]
  decide

set_option maxRecDepth 8000 in
/-- C3, witness: the record joined from the epidemiological record named
`"County County"`. -/
theorem county_county_name_witness :
    ∃ w, loopBody sampleParseFloat squareGithub countyCountyCDC initVars = some w ∧
      w.completeCounty.Name = "County" := by
  have hw : (loopBody sampleParseFloat squareGithub countyCountyCDC initVars).isSome = true := by
    decide
  obtain ⟨w, hw⟩ := Option.isSome_iff_exists.1 hw
  exact ⟨w, hw, county_county_name sampleParseFloat squareGithub countyCountyCDC initVars w
    (by decide) hw rfl⟩

/-- C4: the joined county's Name is the epidemiological name with every occurrence of
`" County"` removed, wherever it occurs: the name is a sequence of segments without
`" County"` separated by `" County"`, and the Name is the concatenation of the segments,
whichever such sequence is taken. In particular `s ++ " County"` yields `s` when `s` does
not contain `" County"`. -/
theorem name_removes_county (ParseFloat : String → F64) (g : countyGithub) (c : countyCDC)
    (v w : MainVars) (hm : sameFips g c) (h : loopBody ParseFloat g c v = some w) :
    (∃ segs : List (List Char), (∀ s ∈ segs, ¬ " County".toList <:+: s) ∧
        c.Name.toList = " County".toList.intercalate segs ∧
        w.completeCounty.Name.toList = segs.flatten) ∧
    (∀ segs : List (List Char), (∀ s ∈ segs, ¬ " County".toList <:+: s) →
        c.Name.toList = " County".toList.intercalate segs →
        w.completeCounty.Name.toList = segs.flatten) ∧
    (∀ s : String, ¬ " County".toList <:+: s.toList → c.Name = s ++ " County" →
        w.completeCounty.Name = s) := by
  obtain ⟨hj, -⟩ := loopBody_joined ParseFloat g c v w hm h
  have hf := (joinPair_fields ParseFloat g c _ hj).2.2.1
  have hall : ∀ segs : List (List Char), (∀ s ∈ segs, ¬ " County".toList <:+: s) →
      c.Name.toList = " County".toList.intercalate segs →
      w.completeCounty.Name.toList = segs.flatten := by
    intro segs hsegs hname
    rw [hf, ReplaceAll_county_toList, hname]
    exact replaceScan_county_intercalate segs hsegs
  refine ⟨?_, hall, ?_⟩
  · obtain ⟨segs, h1, h2⟩ := exists_county_segments c.Name.toList.length c.Name.toList le_rfl
    exact ⟨segs, h1, h2, hall segs h1 h2⟩
  · intro s hs hname
    have h1 : ∀ x ∈ [s.toList, []], ¬ " County".toList <:+: x := by
      intro x hx
      simp only [List.mem_cons, List.mem_singleton, List.not_mem_nil, or_false] at hx
      rcases hx with hx | hx
      · rw [hx]; exact hs
      · rw [hx]
        intro hi
        have := List.eq_nil_of_infix_nil hi
        rw [county_chars] at this
        simp at this
    have h2 : c.Name.toList = " County".toList.intercalate [s.toList, []] := by
      rw [hname]
      simp [List.intercalate, List.intersperse, String.toList]
    have h3 := hall _ h1 h2
    simp only [List.flatten, List.append_nil] at h3
    exact String.ext h3

set_option maxRecDepth 8000 in
/-- C4, witness: `"Jefferson County"` yields `"Jefferson"`. -/
theorem name_removes_county_witness :
    ∃ w, loopBody sampleParseFloat losAngelesGithub sentinelCDC initVars = some w ∧
      w.completeCounty.Name = "Jefferson" := by
  have hw : (loopBody sampleParseFloat losAngelesGithub sentinelCDC initVars).isSome = true := by
    decide
  obtain ⟨w, hw⟩ := Option.isSome_iff_exists.1 hw
  exact ⟨w, hw, (name_removes_county sampleParseFloat losAngelesGithub sentinelCDC initVars w
    (by decide) hw).2.2 "Jefferson" (by decide) rfl⟩

/-- C5: a case field `"<20"` gives Cases = 10, a death field `"<20"` gives Deaths = 10 and
a percent field `"Not Calculated"` gives PercentOfState = 0.0, whatever the other fields of
the two records and whatever the variables held before. -/
theorem sentinel_handling (ParseFloat : String → F64) (g : countyGithub) (c : countyCDC)
    (v w : MainVars) (hm : sameFips g c) (h : loopBody ParseFloat g c v = some w) :
    (c.Cases = "<20" → w.completeCounty.Cases = 10) ∧
    (c.Deaths = "<20" → w.completeCounty.Deaths = 10) ∧
    (c.Percent = "Not Calculated" → w.completeCounty.PercentOfState = F64.zero) := by
  obtain ⟨hj, -⟩ := loopBody_joined ParseFloat g c v w hm h
  obtain ⟨-, -, -, -, -, -, -, -, -, h1, h2, h3, -⟩ := joinPair_fields ParseFloat g c _ hj
  refine ⟨?_, ?_, ?_⟩
  · intro hc; rw [h1, parseCount, if_pos hc]
  · intro hc; rw [h2, parseCount, if_pos hc]
  · intro hc; rw [h3, parsePercent, if_pos hc]

set_option maxRecDepth 8000 in
/-- C5, witness: the record joined from the epidemiological record holding the three
sentinels. -/
theorem sentinel_handling_witness :
    ∃ w, loopBody sampleParseFloat losAngelesGithub sentinelCDC initVars = some w ∧
      w.completeCounty.Cases = 10 ∧ w.completeCounty.Deaths = 10 ∧
      w.completeCounty.PercentOfState = F64.zero := by
  have hw : (loopBody sampleParseFloat losAngelesGithub sentinelCDC initVars).isSome = true := by
    decide
  obtain ⟨w, hw⟩ := Option.isSome_iff_exists.1 hw
  have hs := sentinel_handling sampleParseFloat losAngelesGithub sentinelCDC initVars w
    (by decide) hw
  exact ⟨w, hw, hs.1 rfl, hs.2.1 rfl, hs.2.2 rfl⟩


theorem mulInt_of_isInt64 {a b : ℤ} (h : isInt64 (a * b)) : mulInt a b = a * b :=
  wrap64_of_isInt64 h

/-- The product of line 178 in `int` arithmetic is the wrapped mathematical product. -/
theorem riskIndexOf_eq (dba cbp : ℤ) :
    riskIndexOf dba cbp = riskOfProduct (wrap64 ((dba + 1) * (cbp + 1))) := by
  unfold riskIndexOf mulInt addInt
  rw [wrap64_mul_wrap64]

set_option maxRecDepth 8000 in
/-- C2, counterexample: with the case text `"-2"`, a population of 100000 and a converted
area of 259, both positive, the joined county has the risk index `-0.01`. -/
theorem riskIndex_below_hundredth :
    negativeCDC.Cases = "-2" ∧
      (mixResults sampleParseFloat [squareGithub] [negativeCDC]).map
          (List.map fun r => (decide (0 < r.Population), decide (0 < r.Area), r.RiskIndex))
        = some [(true, true, F64.fin true 5764607523034235 (-59))] ∧
      (F64.fin true 5764607523034235 (-59)).toRat < 1 / 100 := by
  refine ⟨rfl, by decide, ?_⟩
  simp only [F64.toRat, if_true]
  rw [zpow_neg]
  norm_num

/-- C2, amended: for every joined county with population > 0 and converted area > 0 whose
case and death counts are not negative and for which neither `Cases * 100000`,
`Deaths * 1000` nor `(DeathsByArea + 1) * (CasesByPopulation + 1)` exceeds the range of
`int`, the risk index is a finite `float64` that is at least `0.01`. -/
theorem riskIndex_ge_hundredth (ParseFloat : String → F64) (g : countyGithub)
    (c : countyCDC) (v w : MainVars) (hm : sameFips g c)
    (h : loopBody ParseFloat g c v = some w)
    (hpop : 0 < w.completeCounty.Population) (harea : 0 < w.completeCounty.Area)
    (hc : 0 ≤ w.completeCounty.Cases) (hd : 0 ≤ w.completeCounty.Deaths)
    (hc2 : w.completeCounty.Cases * 100000 < 2 ^ 63)
    (hd2 : w.completeCounty.Deaths * 1000 < 2 ^ 63)
    (hP : (w.completeCounty.DeathsByArea + 1) * (w.completeCounty.CasesByPopulation + 1)
      < 2 ^ 63) :
    w.completeCounty.RiskIndex.isFinite = true ∧
      (1 : ℚ) / 100 ≤ w.completeCounty.RiskIndex.toRat := by
  obtain ⟨hj, -⟩ := loopBody_joined ParseFloat g c v w hm h
  obtain ⟨-, -, -, -, -, -, -, -, -, -, -, -, h1, -, -, h4, h5⟩ :=
    joinPair_fields ParseFloat g c _ hj
  set r := w.completeCounty
  have hx : isInt64 (r.Cases * 100000) := by
    unfold isInt64; constructor <;> [skip; exact hc2]; norm_num; omega
  have hy : isInt64 (r.Deaths * 1000) := by
    unfold isInt64; constructor <;> [skip; exact hd2]; norm_num; omega
  have hcbp0 : 0 ≤ Int.tdiv (r.Cases * 100000) r.Population :=
    Int.tdiv_nonneg (by omega) hpop.le
  have hdba0 : 0 ≤ Int.tdiv (r.Deaths * 1000) r.Area := Int.tdiv_nonneg (by omega) harea.le
  have hcbp : r.CasesByPopulation = Int.tdiv (r.Cases * 100000) r.Population := by
    rw [h1, mulInt_of_isInt64 hx]
    exact wrap64_of_isInt64 (isInt64_tdiv hx (Or.inr (by omega)))
  have hdba : r.DeathsByArea = Int.tdiv (r.Deaths * 1000) r.Area := by
    rw [h4, mulInt_of_isInt64 hy]
    exact wrap64_of_isInt64 (isInt64_tdiv hy (Or.inr (by omega)))
  have hcb : 0 ≤ r.CasesByPopulation := by rw [hcbp]; exact hcbp0
  have hdb : 0 ≤ r.DeathsByArea := by rw [hdba]; exact hdba0
  have hP1 : 1 ≤ (r.DeathsByArea + 1) * (r.CasesByPopulation + 1) := by nlinarith
  have hPi : isInt64 ((r.DeathsByArea + 1) * (r.CasesByPopulation + 1)) := by
    unfold isInt64; constructor <;> [skip; exact hP]; norm_num; omega
  obtain ⟨m, e, hf, hge⟩ := riskOfProduct_ge _ hP1 hP
  rw [h5, riskIndexOf_eq, wrap64_of_isInt64 hPi, hf]
  refine ⟨rfl, ?_⟩
  simpa [F64.toRat] using hge

set_option maxRecDepth 8000 in
/-- C2, witness: the Los Angeles pair has a risk index of at least `0.01`. -/
theorem riskIndex_ge_hundredth_witness :
    ∃ w, loopBody sampleParseFloat losAngelesGithub losAngelesCDC initVars = some w ∧
      (1 : ℚ) / 100 ≤ w.completeCounty.RiskIndex.toRat := by
  have hw : loopBody sampleParseFloat losAngelesGithub losAngelesCDC initVars
      = some (varsAfter sampleParseFloat losAngelesGithub losAngelesCDC
          { Name := "Los Angeles", State := "California", StateCode := "CA", Fips := 6037,
            Population := 10039107, Area := 10510, Density := 955, Cases := 1000,
            Deaths := 55, PercentOfState := F64.nan, CasesByPopulation := 9,
            CasesByArea := 95, DeathsByPopulation := 0, DeathsByArea := 5,
            RiskIndex := F64.fin false 5404319552844595 (-53) } initVars) := by
    decide
  exact ⟨_, hw, (riskIndex_ge_hundredth sampleParseFloat losAngelesGithub losAngelesCDC
    initVars _ (by decide) hw (by decide) (by decide) (by decide) (by decide) (by decide)
    (by decide) (by decide)).2⟩

set_option maxRecDepth 8000 in
/-- C6, counterexample: a source area of 108677597185661 is converted to 281474976710862,
one more than the truncated exact product 281474976710861: the `float64` product is
rounded up to a whole number before the truncation. -/
theorem vast_area_rounds_up :
    vastGithub.Area = 108677597185661 ∧
      (mixResults sampleParseFloat [vastGithub] [sixCasesCDC]).map (List.map county.Area)
        = some [281474976710862] ∧
      (108677597185661 : ℤ) * 259 / 100 = 281474976710861 := by
  refine ⟨rfl, ?_, ?_⟩ <;> decide

/-- C6, amended: for every matching pair with a demographic area `a` with
`0 ≤ a ≤ 10^14`, the joined county's Area is `a * 2.59` truncated to an integer,
`⌊a * 259 / 100⌋`; `a = 100` gives 259. -/
theorem area_conversion (ParseFloat : String → F64) (g : countyGithub) (c : countyCDC)
    (v w : MainVars) (hm : sameFips g c) (h : loopBody ParseFloat g c v = some w)
    (h0 : 0 ≤ g.Area) (h1 : g.Area ≤ 10 ^ 14) :
    w.completeCounty.Area = g.Area * 259 / 100 ∧
      (g.Area = 100 → w.completeCounty.Area = 259) := by
  obtain ⟨hj, -⟩ := loopBody_joined ParseFloat g c v w hm h
  have hf := (joinPair_fields ParseFloat g c _ hj).2.2.2.2.2.2.2.1
  have ha : w.completeCounty.Area = g.Area * 259 / 100 := by
    rw [hf]; exact convertedArea_eq g h0 h1
  refine ⟨ha, ?_⟩
  intro h100
  rw [ha, h100]
  decide

set_option maxRecDepth 8000 in
/-- C6, witness: a source area of 100 gives the Area 259. -/
theorem area_conversion_witness :
    ∃ w, loopBody sampleParseFloat squareGithub sixCasesCDC initVars = some w ∧
      w.completeCounty.Area = 259 := by
  have hw : (loopBody sampleParseFloat squareGithub sixCasesCDC initVars).isSome = true := by
    decide
  obtain ⟨w, hw⟩ := Option.isSome_iff_exists.1 hw
  exact ⟨w, hw, (area_conversion sampleParseFloat squareGithub sixCasesCDC initVars w
    (by decide) hw (by decide) (by decide)).2 rfl⟩

set_option maxRecDepth 8000 in
/-- C7, counterexample: with the case text `"100000000000000"` the product
`Cases * 100000` exceeds the range of `int` and wraps around: CasesByPopulation is
-84467440737095, while the truncating quotient of `Cases * 100000` by the population is
100000000000000. -/
theorem casesByPopulation_wraps :
    (mixResults sampleParseFloat [squareGithub] [hugeCDC]).map
        (List.map fun r => (r.Cases, r.Population, r.Area, r.CasesByPopulation))
      = some [(100000000000000, 100000, 259, -84467440737095)] ∧
      Int.tdiv (100000000000000 * 100000) 100000 = 100000000000000 := by
  constructor <;> decide

/-- C7, amended: every joined county has a non-zero Population and a non-zero Area, and
when `Cases * 100000` and `Deaths * 100000` are within the range of `int`, its four rate
fields are the truncating integer quotients of `Cases * 100000` and `Deaths * 100000` by
the Population and of `Cases * 1000` and `Deaths * 1000` by the Area, of the values stored
in the same record. -/
theorem rate_fields (ParseFloat : String → F64) (g : countyGithub) (c : countyCDC)
    (v w : MainVars) (hm : sameFips g c) (h : loopBody ParseFloat g c v = some w)
    (hc : isInt64 (w.completeCounty.Cases * 100000))
    (hd : isInt64 (w.completeCounty.Deaths * 100000)) :
    w.completeCounty.Population ≠ 0 ∧ w.completeCounty.Area ≠ 0 ∧
    w.completeCounty.CasesByPopulation
      = Int.tdiv (w.completeCounty.Cases * 100000) w.completeCounty.Population ∧
    w.completeCounty.CasesByArea
      = Int.tdiv (w.completeCounty.Cases * 1000) w.completeCounty.Area ∧
    w.completeCounty.DeathsByPopulation
      = Int.tdiv (w.completeCounty.Deaths * 100000) w.completeCounty.Population ∧
    w.completeCounty.DeathsByArea
      = Int.tdiv (w.completeCounty.Deaths * 1000) w.completeCounty.Area := by
  obtain ⟨hj, -⟩ := loopBody_joined ParseFloat g c v w hm h
  obtain ⟨a1, a2, -, -, -, -, a3, a4, -, -, -, -, h1, h2, h3, h4, -⟩ :=
    joinPair_fields ParseFloat g c _ hj
  set r := w.completeCounty
  have hc3 : isInt64 (r.Cases * 1000) := by
    unfold isInt64 at hc ⊢; norm_num at hc ⊢; omega
  have hd3 : isInt64 (r.Deaths * 1000) := by
    unfold isInt64 at hd ⊢; norm_num at hd ⊢; omega
  have n1 : r.Cases * 100000 ≠ -2 ^ 63 := by norm_num; omega
  have n2 : r.Cases * 1000 ≠ -2 ^ 63 := by norm_num; omega
  have n3 : r.Deaths * 100000 ≠ -2 ^ 63 := by norm_num; omega
  have n4 : r.Deaths * 1000 ≠ -2 ^ 63 := by norm_num; omega
  refine ⟨by rw [a3]; exact a1, by rw [a4]; exact a2, ?_, ?_, ?_, ?_⟩
  · rw [h1, mulInt_of_isInt64 hc]
    exact wrap64_of_isInt64 (isInt64_tdiv hc (Or.inl n1))
  · rw [h2, mulInt_of_isInt64 hc3]
    exact wrap64_of_isInt64 (isInt64_tdiv hc3 (Or.inl n2))
  · rw [h3, mulInt_of_isInt64 hd]
    exact wrap64_of_isInt64 (isInt64_tdiv hd (Or.inl n3))
  · rw [h4, mulInt_of_isInt64 hd3]
    exact wrap64_of_isInt64 (isInt64_tdiv hd3 (Or.inl n4))

set_option maxRecDepth 8000 in
/-- C7, witness: the four rates of the Los Angeles pair, 1000 cases and 55 deaths for
10039107 inhabitants on 10510 square kilometres. -/
theorem rate_fields_witness :
    ∃ w, loopBody sampleParseFloat losAngelesGithub losAngelesCDC initVars = some w ∧
      w.completeCounty.CasesByPopulation = 9 ∧ w.completeCounty.CasesByArea = 95 ∧
      w.completeCounty.DeathsByPopulation = 0 ∧ w.completeCounty.DeathsByArea = 5 := by
  have hw : loopBody sampleParseFloat losAngelesGithub losAngelesCDC initVars
      = some (varsAfter sampleParseFloat losAngelesGithub losAngelesCDC
          { Name := "Los Angeles", State := "California", StateCode := "CA", Fips := 6037,
            Population := 10039107, Area := 10510, Density := 955, Cases := 1000,
            Deaths := 55, PercentOfState := F64.nan, CasesByPopulation := 9,
            CasesByArea := 95, DeathsByPopulation := 0, DeathsByArea := 5,
            RiskIndex := F64.fin false 5404319552844595 (-53) } initVars) := by
    decide
  have hr := rate_fields sampleParseFloat losAngelesGithub losAngelesCDC initVars _
    (by decide) hw (by decide) (by decide)
  exact ⟨_, hw, hr.2.2.1.trans (by decide), hr.2.2.2.1.trans (by decide),
    hr.2.2.2.2.1.trans (by decide), hr.2.2.2.2.2.trans (by decide)⟩


theorem convertedArea_of_area_zero (g : countyGithub) (h : g.Area = 0) :
    convertedArea g = 0 := by
  unfold convertedArea
  rw [h]
  exact toInt_mul_zero

/-- C8: for every matching pair (the inputs being `int` values) the joined county's Density
is the demographic population divided by the converted integer Area, truncated, and the
density field of the demographic source is not read: changing it changes nothing in what
the loop body does. -/
theorem density_recomputed (ParseFloat : String → F64) (g : countyGithub) (c : countyCDC)
    (v w : MainVars) (hm : sameFips g c) (h : loopBody ParseFloat g c v = some w)
    (hp : isInt64 g.Population) (ha : isInt64 g.Area) :
    w.completeCounty.Area = convertedArea g ∧ w.completeCounty.Area ≠ 0 ∧
    w.completeCounty.Density = Int.tdiv g.Population w.completeCounty.Area ∧
    (∀ d : ℤ, loopBody ParseFloat { g with Density := d } c v = loopBody ParseFloat g c v) := by
  obtain ⟨hj, -⟩ := loopBody_joined ParseFloat g c v w hm h
  obtain ⟨-, a2, -, -, -, -, -, a4, a5, -⟩ := joinPair_fields ParseFloat g c _ hj
  have hne : g.Area ≠ 0 := fun h0 => a2 (convertedArea_of_area_zero g h0)
  have h2 := convertedArea_abs_ge g hne ha
  refine ⟨a4, by rw [a4]; exact a2, ?_, ?_⟩
  · rw [a5]
    apply wrap64_of_isInt64
    apply isInt64_tdiv hp
    right
    rw [a4]
    omega
  · intro d
    rfl

set_option maxRecDepth 8000 in
/-- C8, witness: 10039107 inhabitants on 10510 square kilometres give the Density 955,
whatever the density field of the source (2474 here). -/
theorem density_recomputed_witness :
    ∃ w, loopBody sampleParseFloat losAngelesGithub losAngelesCDC initVars = some w ∧
      losAngelesGithub.Density = 2474 ∧ w.completeCounty.Density = 955 := by
  have hw : loopBody sampleParseFloat losAngelesGithub losAngelesCDC initVars
      = some (varsAfter sampleParseFloat losAngelesGithub losAngelesCDC
          { Name := "Los Angeles", State := "California", StateCode := "CA", Fips := 6037,
            Population := 10039107, Area := 10510, Density := 955, Cases := 1000,
            Deaths := 55, PercentOfState := F64.nan, CasesByPopulation := 9,
            CasesByArea := 95, DeathsByPopulation := 0, DeathsByArea := 5,
            RiskIndex := F64.fin false 5404319552844595 (-53) } initVars) := by
    decide
  have hr := density_recomputed sampleParseFloat losAngelesGithub losAngelesCDC initVars _
    (by decide) hw (by decide) (by decide)
  exact ⟨_, hw, rfl, hr.2.2.1.trans (by decide)⟩

set_option maxRecDepth 8000 in
/-- C9, counterexample: for the product `(DeathsByArea + 1) * (CasesByPopulation + 1) = 7`
the risk index is the `float64` 5044031582654956 * 2^-56, which is not 7 / 100: a hundred
times it is not 7, neither exactly nor after rounding to `float64`. -/
theorem riskIndex_times_hundred_ne :
    (mixResults sampleParseFloat [squareGithub] [sixCasesCDC]).map
        (List.map fun r => ((r.DeathsByArea + 1) * (r.CasesByPopulation + 1), r.RiskIndex))
      = some [(7, F64.fin false 5044031582654956 (-56))] ∧
      (F64.fin false 5044031582654956 (-56)).toRat * 100 ≠ 7 ∧
      F64.mul (F64.fin false 5044031582654956 (-56)) (F64.ofInt 100) ≠ F64.ofInt 7 := by
  refine ⟨by decide, ?_, by decide⟩
  simp only [F64.toRat]
  rw [zpow_neg]
  norm_num

/-- C9, amended: the risk index of every joined county is computed in `float64` arithmetic
as `math.Round(float64(P) * 100) / 10000` from the `int` product
`P = (DeathsByArea + 1) * (CasesByPopulation + 1)`; when `|P| ≤ 90071992547409` (so that
`P * 100 < 2^53`) it is the `float64` nearest to `P / 100`, with the sign of `P`, and a
hundred times its magnitude differs from `|P|` by at most `|P| * 2^-53`; it need not be
`P / 100` exactly. -/
theorem riskIndex_formula (ParseFloat : String → F64) (g : countyGithub) (c : countyCDC)
    (v w : MainVars) (hm : sameFips g c) (h : loopBody ParseFloat g c v = some w) :
    w.completeCounty.RiskIndex
      = riskOfProduct (wrap64 ((w.completeCounty.DeathsByArea + 1)
          * (w.completeCounty.CasesByPopulation + 1))) ∧
    (((w.completeCounty.DeathsByArea + 1)
        * (w.completeCounty.CasesByPopulation + 1)).natAbs ≤ 90071992547409 →
      w.completeCounty.RiskIndex
        = F64.rne
            (decide ((w.completeCounty.DeathsByArea + 1)
              * (w.completeCounty.CasesByPopulation + 1) < 0))
            ((w.completeCounty.DeathsByArea + 1)
              * (w.completeCounty.CasesByPopulation + 1)).natAbs 100 0 ∧
      |w.completeCounty.RiskIndex.mag * 100
          - (((w.completeCounty.DeathsByArea + 1)
              * (w.completeCounty.CasesByPopulation + 1)).natAbs : ℚ)|
        ≤ (((w.completeCounty.DeathsByArea + 1)
              * (w.completeCounty.CasesByPopulation + 1)).natAbs : ℚ) * 2 ^ (-53 : ℤ)) := by
  obtain ⟨hj, -⟩ := loopBody_joined ParseFloat g c v w hm h
  have h5 := (joinPair_fields ParseFloat g c _ hj).2.2.2.2.2.2.2.2.2.2.2.2.2.2.2.2
  set P := (w.completeCounty.DeathsByArea + 1) * (w.completeCounty.CasesByPopulation + 1)
    with hP
  have hfirst : w.completeCounty.RiskIndex = riskOfProduct (wrap64 P) := by
    rw [h5, riskIndexOf_eq]
  refine ⟨hfirst, ?_⟩
  intro hsmall
  have hPi : isInt64 P := by
    unfold isInt64
    norm_num
    omega
  have hnear : w.completeCounty.RiskIndex = F64.rne (decide (P < 0)) P.natAbs 100 0 := by
    rw [hfirst, wrap64_of_isInt64 hPi]
    exact riskOfProduct_nearest P hsmall
  refine ⟨hnear, ?_⟩
  rw [hnear]
  rcases Nat.eq_zero_or_pos P.natAbs with h0 | hpos
  · rw [h0, rne_zero]
    simp [F64.mag]
  · have hM1 : (1 : ℚ) ≤ (P.natAbs : ℚ) := by exact_mod_cast hpos
    have hM2 : (P.natAbs : ℚ) ≤ 90071992547409 := by exact_mod_cast hsmall
    have hv : ratVal P.natAbs 100 0 = (P.natAbs : ℚ) / 100 := by simp [ratVal]
    have hlo : (2 : ℚ) ^ (-64 : ℤ) ≤ ratVal P.natAbs 100 0 := by
      rw [hv, zpow_neg, le_div_iff₀ (by norm_num)]
      norm_num
      linarith
    have hhi : ratVal P.natAbs 100 0 ≤ 2 ^ (128 : ℤ) := by
      rw [hv, div_le_iff₀ (by norm_num)]
      norm_num
      linarith
    have herr := rne_mag_error (decide (P < 0)) P.natAbs 100 0 hpos (by norm_num) hlo hhi
    rw [hv] at herr
    have h53 : (0 : ℚ) ≤ 2 ^ (-53 : ℤ) := by positivity
    rw [abs_le] at herr ⊢
    obtain ⟨e1, e2⟩ := herr
    generalize (F64.rne (decide (P < 0)) P.natAbs 100 0).mag = y at e1 e2 ⊢
    generalize (2 : ℚ) ^ (-53 : ℤ) = d at e1 e2 h53 ⊢
    generalize (P.natAbs : ℚ) = M at e1 e2 hM1 ⊢
    constructor <;> nlinarith

set_option maxRecDepth 8000 in
/-- C9, witness: for the product 7 the risk index is the `float64` nearest to 7 / 100. -/
theorem riskIndex_formula_witness :
    ∃ w, loopBody sampleParseFloat squareGithub sixCasesCDC initVars = some w ∧
      w.completeCounty.RiskIndex = F64.rne false 7 100 0 := by
  have hw : loopBody sampleParseFloat squareGithub sixCasesCDC initVars
      = some (varsAfter sampleParseFloat squareGithub sixCasesCDC
          { Name := "Square", State := "Wyoming", StateCode := "WY", Fips := 56001,
            Population := 100000, Area := 259, Density := 386, Cases := 6, Deaths := 0,
            PercentOfState := F64.nan, CasesByPopulation := 6, CasesByArea := 23,
            DeathsByPopulation := 0, DeathsByArea := 0,
            RiskIndex := F64.fin false 5044031582654956 (-56) } initVars) := by
    decide
  have hr := (riskIndex_formula sampleParseFloat squareGithub sixCasesCDC initVars _
    (by decide) hw).2 (by decide)
  exact ⟨_, hw, hr.1⟩

/-- C10: the record the loop body appends for a matching pair is `joinPair` of the pair, a
function of the two records alone, whatever the variables `completeCounty`, `cases`,
`deaths`, `percent`, `area` and `tempFips` held before; a pair that does not match appends
nothing. Hence the output of the loop, from any initial variables, is the concatenation of
`joinPair g c` over the matching pairs, demographic records in iteration order and
epidemiological records in list order, and it is a panic exactly when a pair has none. -/
theorem join_pure_per_pair (ParseFloat : String → F64) (gs : List countyGithub)
    (cs : List countyCDC) (v : MainVars) :
    (∀ (g : countyGithub) (c : countyCDC) (u : MainVars),
      loopBody ParseFloat g c u
        = if sameFips g c then
            (joinPair ParseFloat g c).map fun r =>
              { result := u.result ++ [r], completeCounty := r, tempFips := c.Fips,
                cases := parseCount c.Cases, deaths := parseCount c.Deaths,
                area := F64.mul (F64.ofInt g.Area) sqMileToSqKm,
                percent := parsePercent ParseFloat c.Percent }
          else some { u with tempFips := (Atoi g.Fips).1 }) ∧
    (outerLoop ParseFloat cs gs v).map (fun w => w.result)
      = (joinAll ParseFloat (matchingPairs gs cs)).map (fun rs => v.result ++ rs) ∧
    mixResults ParseFloat gs cs = joinAll ParseFloat (matchingPairs gs cs) ∧
    matchingPairs gs cs
      = (List.product gs cs).filter fun p => decide (sameFips p.1 p.2) := by
  refine ⟨?_, outerLoop_result ParseFloat cs gs v, mixResults_eq ParseFloat gs cs,
    matchingPairs_eq_filter gs cs⟩
  intro g c u
  split_ifs with hs
  · exact loopBody_of_sameFips ParseFloat g c u hs
  · exact loopBody_of_not_sameFips ParseFloat g c u hs

/-! ## `strconv.Atoi` on what is not a number -/

theorem ParseInt_syntaxErr (s : List Char) (h : (ParseInt s).2 = NumError.syntaxErr) :
    (ParseInt s).1 = 0 := by
  unfold ParseInt at h ⊢
  dsimp only at h ⊢
  by_cases h0 : s = []
  · rw [if_pos h0]
  · rw [if_neg h0] at h ⊢
    by_cases h1 : (ParseUint (splitSign s).2).2 = NumError.syntaxErr
    · rw [if_pos h1]
    · rw [if_neg h1] at h
      by_cases h2 : (splitSign s).1 = false ∧ 2 ^ 63 ≤ (ParseUint (splitSign s).2).1
      · rw [if_pos h2] at h
        exact absurd h (by decide)
      · rw [if_neg h2] at h
        by_cases h3 : (splitSign s).1 = true ∧ 2 ^ 63 < (ParseUint (splitSign s).2).1
        · rw [if_pos h3] at h
          exact absurd h (by decide)
        · rw [if_neg h3] at h
          exact NumError.noConfusion h

theorem ParseInt_rangeErr (s : List Char) (h : (ParseInt s).2 = NumError.rangeErr) :
    (ParseInt s).1 = 2 ^ 63 - 1 ∨ (ParseInt s).1 = -2 ^ 63 := by
  unfold ParseInt at h ⊢
  dsimp only at h ⊢
  by_cases h0 : s = []
  · rw [if_pos h0] at h
    exact absurd h (by decide)
  · rw [if_neg h0] at h ⊢
    by_cases h1 : (ParseUint (splitSign s).2).2 = NumError.syntaxErr
    · rw [if_pos h1] at h
      exact absurd h (by decide)
    · rw [if_neg h1] at h ⊢
      by_cases h2 : (splitSign s).1 = false ∧ 2 ^ 63 ≤ (ParseUint (splitSign s).2).1
      · left; rw [if_pos h2]
      · rw [if_neg h2] at h ⊢
        by_cases h3 : (splitSign s).1 = true ∧ 2 ^ 63 < (ParseUint (splitSign s).2).1
        · right; rw [if_pos h3]
        · rw [if_neg h3] at h
          exact NumError.noConfusion h

/-- The digit loop ends in a syntax error when at most 19 digits in all come before the
first character that is not a digit. -/
theorem parseUintLoop_syntaxErr :
    ∀ (cs : List Char) (n k : ℕ), n < 10 ^ k →
      k + (cs.takeWhile isDecimalDigit).length ≤ 19 → cs.all isDecimalDigit = false →
        parseUintLoop cs n = (0, NumError.syntaxErr) := by
  intro cs
  induction cs with
  | nil => intro n k _ _ h; simp at h
  | cons c cs ih =>
    intro n k hn hk hall
    unfold parseUintLoop
    by_cases hc : '0' ≤ c ∧ c ≤ '9'
    · have hd : isDecimalDigit c = true := by simp [isDecimalDigit, hc]
      rw [if_pos hc]
      simp only [List.takeWhile_cons, hd, if_true, List.length_cons] at hk
      simp only [List.all_cons, hd, Bool.true_and] at hall
      have hk18 : k ≤ 18 := by omega
      have h18 : 10 ^ k ≤ 10 ^ 18 := Nat.pow_le_pow_right (by norm_num) hk18
      have hdig : c.toNat - '0'.toNat ≤ 9 := by
        have h9 : c.toNat ≤ '9'.toNat := hc.2
        have : '9'.toNat = 57 := by decide
        have : '0'.toNat = 48 := by decide
        omega
      have hn1 : n * 10 + (c.toNat - '0'.toNat) < 10 ^ (k + 1) := by
        rw [pow_succ]; omega
      have h19 : 10 ^ (k + 1) ≤ 10 ^ 19 := Nat.pow_le_pow_right (by norm_num) (by omega)
      have hcut : ¬ (maxUint64 / 10 + 1 ≤ n) := by
        unfold maxUint64
        norm_num at h18 ⊢
        omega
      have hmax : ¬ (maxUint64 < n * 10 + (c.toNat - '0'.toNat)) := by
        unfold maxUint64
        norm_num at h19 ⊢
        omega
      rw [if_neg hcut]
      simp only [hmax, if_false]
      exact ih _ (k + 1) hn1 (by omega) hall
    · rw [if_neg hc]

/-- A text that is not the text of an integer and has at most 19 digits between its optional
sign and its first other character is a syntax error for `strconv.ParseInt`. -/
theorem ParseInt_of_not_integerText (s : List Char) (h : isIntegerText s = false)
    (hlen : ((splitSign s).2.takeWhile isDecimalDigit).length ≤ 19) :
    ParseInt s = (0, NumError.syntaxErr) := by
  have hrest : (splitSign s).2 = [] ∨ (splitSign s).2.all isDecimalDigit = false := by
    unfold isIntegerText at h
    unfold splitSign
    split at h <;> simp_all [isDigits]
    all_goals tauto
  unfold ParseInt
  dsimp only
  by_cases hs : s = []
  · rw [if_pos hs]
  · rw [if_neg hs]
    have hu : ParseUint (splitSign s).2 = (0, NumError.syntaxErr) := by
      unfold ParseUint
      rcases hrest with h0 | h1
      · rw [if_pos h0]
      · split_ifs
        · rfl
        · exact parseUintLoop_syntaxErr _ 0 0 (by norm_num) (by omega) h1
    rw [hu, if_pos rfl]

/-! ## Significands, and the sign of the converted area -/

/-- The significand of a rounded value is below `2^53`. -/
theorem rne_mant_lt (s : Bool) (p q : ℕ) (x : ℤ) (hp : 0 < p) (hq : 0 < q)
    (hlo : (2 : ℚ) ^ (-64 : ℤ) ≤ ratVal p q x) (hhi : ratVal p q x ≤ 2 ^ (128 : ℤ))
    (m : ℕ) (e : ℤ) (h : rne s p q x = fin s m e) : m < 2 ^ 53 := by
  obtain ⟨r1, r2⟩ := ilog2_range p q x hp hq hlo hhi
  obtain ⟨hs1, hs2⟩ := ilog2_spec p q x hp hq
  change ratVal p q x < 2 ^ (ilog2 p q x + 1) at hs2
  set E := ilog2 p q x with hE
  have hmax : max E (-1022) = E := max_eq_left (by omega)
  have hk : (0 : ℚ) < 2 ^ (E - 52) := by positivity
  have hden : 0 < scaledDen q x (E - 52) := scaledDen_pos q x _ hq
  have hn := nearestEven_natDiv (scaledNum p x (E - 52)) (scaledDen q x (E - 52)) hden
  rw [scaled_ratio, zpow_sub₀ (by norm_num : (2 : ℚ) ≠ 0)] at hn
  have hval : (p : ℚ) / q * (2 ^ x / 2 ^ (E - 52)) = ratVal p q x / 2 ^ (E - 52) := by
    unfold ratVal; ring
  rw [hval] at hn
  have hle : ratVal p q x / 2 ^ (E - 52) ≤ ((2 ^ 53 : ℤ) : ℚ) := by
    rw [div_le_iff₀ hk, ← two_zpow_split]
    exact hs2.le
  have hne := nearestEven_mono hle
  rw [nearestEven_intCast, ← hn] at hne
  have hn53 : roundHalfEven (scaledNum p x (E - 52)) (scaledDen q x (E - 52)) ≤ 2 ^ 53 := by
    exact_mod_cast hne
  unfold rne at h
  simp only [Nat.pos_iff_ne_zero.1 hp, if_false, ← hE, hmax] at h
  by_cases h53 : roundHalfEven (scaledNum p x (E - 52)) (scaledDen q x (E - 52)) = 2 ^ 53
  · simp only [h53, if_true] at h
    have : ¬ (971 < E - 52 + 1) := by omega
    simp only [this, if_false] at h
    injection h with _ hm _
    rw [← hm]
    norm_num
  · simp only [h53, if_false] at h
    have : ¬ (971 < E - 52) := by omega
    simp only [this, if_false] at h
    injection h with _ hm _
    rw [← hm]
    omega

/-- The `float64` product `float64(a) * 2.59` for a non-zero `int` `a`: a finite value with
the sign of `a`, of magnitude at least 2, and at most `2^63 - 1024` when `|a| ≤ 35 * 10^17`. -/
theorem area_product (a : ℤ) (h0 : a ≠ 0) (hr : isInt64 a) :
    ∃ m e, F64.mul (ofInt a) sqMileToSqKm = fin (decide (a < 0)) m e ∧
      (2 : ℚ) ≤ (m : ℚ) * 2 ^ e ∧
      (a.natAbs ≤ 35 * 10 ^ 17 → (m : ℚ) * 2 ^ e ≤ 9223372036854774784) := by
  obtain ⟨m1, e1, hf, b1, b2⟩ := ofInt_bounds a h0 hr
  have hm : 0 < m1 := by
    rcases Nat.eq_zero_or_pos m1 with h | h
    · rw [h] at b1; norm_num at b1
    · exact h
  have hv : ratVal (m1 * 5832161517444792) 1 (e1 + -51)
      = (m1 : ℚ) * 2 ^ e1 * (259 / 100 - 1 / (100 * 2 ^ 46)) := by
    rw [ratVal_mul, sqMileToSqKm_val]
  have hc1 : (2 : ℚ) ≤ 259 / 100 - 1 / (100 * 2 ^ 46) := by norm_num
  have hc2 : (259 : ℚ) / 100 - 1 / (100 * 2 ^ 46) ≤ 259 / 100 := by norm_num
  have hc0 : (0 : ℚ) ≤ 259 / 100 - 1 / (100 * 2 ^ 46) := by norm_num
  have hlo2 : (2 : ℚ) ≤ ratVal (m1 * 5832161517444792) 1 (e1 + -51) := by
    rw [hv]
    generalize (259 : ℚ) / 100 - 1 / (100 * 2 ^ 46) = c at hc1 hc2 hc0 ⊢
    nlinarith
  have hhi2 : ratVal (m1 * 5832161517444792) 1 (e1 + -51) ≤ 2 ^ (128 : ℤ) := by
    rw [hv]
    have : (m1 : ℚ) * 2 ^ e1 * (259 / 100 - 1 / (100 * 2 ^ 46)) ≤ 2 ^ 63 * (259 / 100) := by
      generalize (259 : ℚ) / 100 - 1 / (100 * 2 ^ 46) = c at hc1 hc2 hc0 ⊢
      nlinarith
    refine this.trans ?_
    norm_num
  have hp : 0 < m1 * 5832161517444792 := by positivity
  have hlo : (2 : ℚ) ^ (-64 : ℤ) ≤ ratVal (m1 * 5832161517444792) 1 (e1 + -51) :=
    two_zpow_neg64_le_one.trans (by linarith)
  obtain ⟨⟨m2, e2, hf2⟩, -⟩ := rne_mag (xor (decide (a < 0)) false)
    (m1 * 5832161517444792) 1 (e1 + -51) hp Nat.one_pos hlo hhi2
  have hge := rne_ge_of_rep (xor (decide (a < 0)) false) (m1 * 5832161517444792) 1
    (e1 + -51) 2 0 hp Nat.one_pos (by norm_num) (by norm_num)
    (by rw [ratVal_one]; norm_num [two_zpow_neg64_le_one]) hhi2
    (by rw [ratVal_one]; simpa using hlo2)
  rw [hf2, ratVal_one] at hge
  simp only [mag, Nat.cast_ofNat, zpow_zero, mul_one] at hge
  have hmul : F64.mul (fin (decide (a < 0)) m1 e1) (fin false 5832161517444792 (-51))
      = rne (xor (decide (a < 0)) false) (m1 * 5832161517444792) 1 (e1 + -51) := rfl
  rw [Bool.xor_false] at hf2 hmul
  refine ⟨m2, e2, by rw [hf, sqMileToSqKm_eq, hmul, hf2], hge, ?_⟩
  intro hsmall
  -- the conversion of `a` is at most `35 * 10^17`
  have hpa : 0 < a.natAbs := by omega
  have hva : ratVal a.natAbs 1 0 = (a.natAbs : ℚ) := by simp [ratVal]
  have haq : (a.natAbs : ℚ) ≤ 35 * 10 ^ 17 := by exact_mod_cast hsmall
  have ha1 : (1 : ℚ) ≤ (a.natAbs : ℚ) := by exact_mod_cast hpa
  have hrep : ratVal 26702880859375 1 17 = 35 * 10 ^ 17 := by
    rw [ratVal_one]; norm_num
  have hle1 := rne_le_of_rep (decide (a < 0)) a.natAbs 1 0 26702880859375 17 hpa Nat.one_pos
    (by norm_num) (by rw [hva]; exact two_zpow_neg64_le_one.trans ha1)
    (by rw [hrep]; norm_num) (by rw [hrep, hva]; exact haq)
  have hofInt : ofInt a = rne (decide (a < 0)) a.natAbs 1 0 := rfl
  rw [← hofInt, hf, hrep] at hle1
  simp only [mag] at hle1
  have hrep2 : ratVal 9007199254740991 1 10 = 9223372036854774784 := by
    rw [ratVal_one]; norm_num
  have hle2 := rne_le_of_rep (decide (a < 0)) (m1 * 5832161517444792) 1 (e1 + -51)
    9007199254740991 10 hp Nat.one_pos (by norm_num) hlo (by rw [hrep2]; norm_num)
    (by
      rw [hrep2, hv]
      have : (m1 : ℚ) * 2 ^ e1 * (259 / 100 - 1 / (100 * 2 ^ 46))
          ≤ 35 * 10 ^ 17 * (259 / 100) := by
        generalize (259 : ℚ) / 100 - 1 / (100 * 2 ^ 46) = c at hc1 hc2 hc0 ⊢
        nlinarith
      refine this.trans ?_
      norm_num)
  rw [hf2, hrep2] at hle2
  simpa [mag] using hle2

/-- The converted area has the sign of the source area and a magnitude of at least two; for
a positive source area this needs the product to fit an `int`. -/
theorem convertedArea_sign (g : countyGithub) (hr : isInt64 g.Area) :
    (1 ≤ g.Area → g.Area ≤ 35 * 10 ^ 17 → 2 ≤ convertedArea g) ∧
      (g.Area ≤ -1 → convertedArea g ≤ -2) := by
  constructor
  · intro h1 h2
    obtain ⟨m, e, hf, hge, hle⟩ := area_product g.Area (by omega) hr
    have hs : decide (g.Area < 0) = false := by rw [decide_eq_false_iff_not]; omega
    rw [hs] at hf
    have hle2 := hle (by omega)
    have hfl : (2 : ℤ) ≤ ⌊(m : ℚ) * 2 ^ e⌋ := by
      rw [Int.le_floor]; exact_mod_cast hge
    have hfu : ⌊(m : ℚ) * 2 ^ e⌋ ≤ 9223372036854774784 := by
      have := Int.floor_le ((m : ℚ) * 2 ^ e)
      have h3 : ((⌊(m : ℚ) * 2 ^ e⌋ : ℤ) : ℚ) ≤ ((9223372036854774784 : ℤ) : ℚ) := by
        push_cast; linarith
      exact_mod_cast h3
    unfold convertedArea
    rw [hf, toInt_fin]
    generalize ⌊(m : ℚ) * 2 ^ e⌋ = t at hfl hfu ⊢
    simp only [Bool.false_eq_true, if_false]
    rw [if_pos (by constructor <;> norm_num <;> omega)]
    exact hfl
  · intro h1
    obtain ⟨m, e, hf, hge, -⟩ := area_product g.Area (by omega) hr
    have hs : decide (g.Area < 0) = true := by rw [decide_eq_true_iff]; omega
    rw [hs] at hf
    have hfl : (2 : ℤ) ≤ ⌊(m : ℚ) * 2 ^ e⌋ := by
      rw [Int.le_floor]; exact_mod_cast hge
    unfold convertedArea
    rw [hf, toInt_fin]
    generalize ⌊(m : ℚ) * 2 ^ e⌋ = t at hfl ⊢
    simp only [if_true]
    split_ifs
    · omega
    · norm_num

/-! ## The risk index grows with the product -/

/-- Two roundings of ordered values between two representable bounds: both are finite, with
significands below `2^53`, in the same order and between the same bounds. -/
theorem rne_pair (s : Bool) (p q p1 q1 : ℕ) (x x1 : ℤ) (L U : ℕ) (jL jU : ℤ)
    (hp : 0 < p) (hq : 0 < q) (hp1 : 0 < p1) (hq1 : 0 < q1)
    (hL : 0 < L) (hL2 : L < 2 ^ 53) (hU2 : U < 2 ^ 53)
    (hlo : (2 : ℚ) ^ (-64 : ℤ) ≤ ratVal L 1 jL) (hhi : ratVal U 1 jU ≤ 2 ^ (128 : ℤ))
    (h1 : ratVal L 1 jL ≤ ratVal p q x) (h : ratVal p q x ≤ ratVal p1 q1 x1)
    (h2 : ratVal p1 q1 x1 ≤ ratVal U 1 jU) :
    ∃ m e m1 e1, rne s p q x = fin s m e ∧ rne s p1 q1 x1 = fin s m1 e1 ∧
      m < 2 ^ 53 ∧ m1 < 2 ^ 53 ∧ ratVal L 1 jL ≤ (m : ℚ) * 2 ^ e ∧
      (m : ℚ) * 2 ^ e ≤ (m1 : ℚ) * 2 ^ e1 ∧ (m1 : ℚ) * 2 ^ e1 ≤ ratVal U 1 jU := by
  have hlo1 : (2 : ℚ) ^ (-64 : ℤ) ≤ ratVal p q x := hlo.trans h1
  have hhi1 : ratVal p1 q1 x1 ≤ 2 ^ (128 : ℤ) := h2.trans hhi
  obtain ⟨⟨m, e, hf⟩, -⟩ := rne_mag s p q x hp hq hlo1 (h.trans hhi1)
  obtain ⟨⟨m1, e1, hf1⟩, -⟩ := rne_mag s p1 q1 x1 hp1 hq1 (hlo1.trans h) hhi1
  have hmono := rne_mag_mono s s p q p1 q1 x x1 hp hq hq1 hlo1 hhi1 h
  rw [hf, hf1] at hmono
  have hge := rne_ge_of_rep s p q x L jL hp hq hL hL2 hlo (h.trans hhi1) h1
  rw [hf] at hge
  have hle := rne_le_of_rep s p1 q1 x1 U jU hp1 hq1 hU2 (hlo1.trans h) hhi h2
  rw [hf1] at hle
  exact ⟨m, e, m1, e1, hf, hf1,
    rne_mant_lt s p q x hp hq hlo1 (h.trans hhi1) m e hf,
    rne_mant_lt s p1 q1 x1 hp1 hq1 (hlo1.trans h) hhi1 m1 e1 hf1, hge, hmono, hle⟩

/-- What `math.Round` gives on a finite value of magnitude at least one: the magnitude plus
one half, rounded down. -/
theorem Round_mag (s : Bool) (m : ℕ) (e : ℤ) (hm : m < 2 ^ 53)
    (h1 : (1 : ℚ) ≤ (m : ℚ) * 2 ^ e) :
    ∃ m1 e1, Round (fin s m e) = fin s m1 e1 ∧
      (m1 : ℚ) * 2 ^ e1 = ((⌊(m : ℚ) * 2 ^ e + 1 / 2⌋ : ℤ) : ℚ) := by
  have h12 : ⌊(1 / 2 : ℚ)⌋ = 0 := by rw [Int.floor_eq_iff]; norm_num
  by_cases he : 0 ≤ e
  · refine ⟨m, e, Round_fin_of_nonneg s m e he, ?_⟩
    obtain ⟨t, ht⟩ := Int.eq_ofNat_of_zero_le he
    subst ht
    have hc : (m : ℚ) * 2 ^ ((t : ℕ) : ℤ) = (((m : ℤ) * 2 ^ t : ℤ) : ℚ) := by
      rw [zpow_natCast]; push_cast; rfl
    rw [hc, Int.floor_int_add, h12, add_zero]
  · have he2 : e < 0 := by omega
    obtain ⟨j, hj⟩ := Int.eq_ofNat_of_zero_le (show 0 ≤ -e by omega)
    have hej : e = -(j : ℤ) := by omega
    have htn : (-e).toNat = j := by omega
    have hj1 : 1 ≤ j := by omega
    rw [Round_fin_of_neg s m e he2, htn]
    have hjq : (0 : ℚ) < 2 ^ j := by positivity
    have hval : (m : ℚ) * 2 ^ e + 1 / 2
        = (((2 * m + 2 ^ j : ℕ) : ℤ) : ℚ) / ((2 * 2 ^ j : ℕ) : ℚ) := by
      rw [hej, zpow_neg, zpow_natCast]
      push_cast
      field_simp
      ring
    have hfloor : ⌊(m : ℚ) * 2 ^ e + 1 / 2⌋ = (((2 * m + 2 ^ j) / (2 * 2 ^ j) : ℕ) : ℤ) := by
      rw [hval, Rat.floor_intCast_div_natCast]
      push_cast
      rfl
    set N := (2 * m + 2 ^ j) / (2 * 2 ^ j) with hN
    have hpos : 0 < 2 * 2 ^ j := by positivity
    have hN1 : 1 ≤ N := by
      have : (1 : ℤ) ≤ ⌊(m : ℚ) * 2 ^ e + 1 / 2⌋ := by
        rw [Int.le_floor]; push_cast; linarith
      rw [hfloor] at this
      exact_mod_cast this
    have hN53 : N < 2 ^ 53 := by
      rw [hN, Nat.div_lt_iff_lt_mul hpos]
      have h2j : 2 ≤ 2 ^ j := by
        calc 2 = 2 ^ 1 := by norm_num
          _ ≤ 2 ^ j := Nat.pow_le_pow_right (by norm_num) hj1
      nlinarith
    have hv : ratVal N 1 0 = (N : ℚ) := by simp [ratVal]
    have b1 : (1 : ℚ) ≤ (N : ℚ) := by exact_mod_cast hN1
    have b2 : (N : ℚ) ≤ 2 ^ 53 := by exact_mod_cast hN53.le
    have hlo : (2 : ℚ) ^ (-64 : ℤ) ≤ ratVal N 1 0 := by
      rw [hv]; exact two_zpow_neg64_le_one.trans b1
    have hhi : ratVal N 1 0 ≤ 2 ^ (128 : ℤ) := by
      rw [hv]; refine b2.trans ?_; norm_num
    obtain ⟨⟨m1, e1, hf⟩, -⟩ := rne_mag s N 1 0 (by omega) Nat.one_pos hlo hhi
    have hex := rne_mag_exact s N 0 (by omega) hN53 hlo hhi
    rw [hf, hv] at hex
    refine ⟨m1, e1, hf, ?_⟩
    rw [hfloor]
    simpa [mag] using hex

/-- The risk index of line 178 grows with the integer product it is computed from. -/
theorem riskOfProduct_mono (P Q : ℤ) (h1 : 1 ≤ P) (h : P ≤ Q) (h2 : Q < 2 ^ 63) :
    ∃ m e m1 e1, riskOfProduct P = fin false m e ∧ riskOfProduct Q = fin false m1 e1 ∧
      (m : ℚ) * 2 ^ e ≤ (m1 : ℚ) * 2 ^ e1 := by
  have hsP : decide (P < 0) = false := by rw [decide_eq_false_iff_not]; omega
  have hsQ : decide (Q < 0) = false := by rw [decide_eq_false_iff_not]; omega
  have hPn : (P.natAbs : ℚ) = (P : ℚ) := by
    have h3 : (P.natAbs : ℤ) = P := Int.natAbs_of_nonneg (by omega)
    calc (P.natAbs : ℚ) = ((P.natAbs : ℤ) : ℚ) := (Int.cast_natCast _).symm
      _ = (P : ℚ) := by rw [h3]
  have hQn : (Q.natAbs : ℚ) = (Q : ℚ) := by
    have h3 : (Q.natAbs : ℤ) = Q := Int.natAbs_of_nonneg (by omega)
    calc (Q.natAbs : ℚ) = ((Q.natAbs : ℤ) : ℚ) := (Int.cast_natCast _).symm
      _ = (Q : ℚ) := by rw [h3]
  have hL1 : ratVal 1 1 0 = 1 := by rw [ratVal_one]; norm_num
  have hU63 : ratVal 1 1 63 = 2 ^ 63 := by rw [ratVal_one]; norm_num
  have hP1 : (1 : ℚ) ≤ (P : ℚ) := by exact_mod_cast h1
  have hPQ : (P : ℚ) ≤ (Q : ℚ) := by exact_mod_cast h
  have hQ2 : (Q : ℚ) ≤ 2 ^ 63 := by exact_mod_cast h2.le
  -- the conversions of the two products
  have hofP : ofInt P = rne false P.natAbs 1 0 := by unfold ofInt; rw [hsP]
  have hofQ : ofInt Q = rne false Q.natAbs 1 0 := by unfold ofInt; rw [hsQ]
  obtain ⟨a, ea, b, eb, hfa, hfb, -, -, a1, a2, a3⟩ := rne_pair false P.natAbs 1 Q.natAbs 1
    0 0 1 1 0 63 (by omega) Nat.one_pos (by omega) Nat.one_pos Nat.one_pos (by norm_num)
    (by norm_num) (by rw [hL1]; exact two_zpow_neg64_le_one)
    (by rw [hU63]; norm_num)
    (by rw [hL1, ratVal_one, hPn]; simpa using hP1)
    (by rw [ratVal_one, ratVal_one, hPn, hQn]; simpa using hPQ)
    (by rw [hU63, ratVal_one, hQn]; simpa using hQ2)
  rw [hL1] at a1
  rw [hU63] at a3
  have a1n : (1 : ℚ) ≤ (a : ℚ) * 2 ^ ea := a1
  have a3n : (b : ℚ) * 2 ^ eb ≤ 2 ^ 63 := a3
  have ha : 0 < a := by
    rcases Nat.eq_zero_or_pos a with h0 | h0
    · rw [h0] at a1n; norm_num at a1n
    · exact h0
  have hb : 0 < b := by
    rcases Nat.eq_zero_or_pos b with h0 | h0
    · rw [h0] at a2; norm_num at a2; linarith
    · exact h0
  -- the products with 100
  have h100 : ((7036874417766400 : ℕ) : ℚ) * 2 ^ (-46 : ℤ) = 100 := by
    rw [zpow_neg]; norm_num
  have hmulA : F64.mul (fin false a ea) (fin false 7036874417766400 (-46))
      = rne false (a * 7036874417766400) 1 (ea + -46) := rfl
  have hmulB : F64.mul (fin false b eb) (fin false 7036874417766400 (-46))
      = rne false (b * 7036874417766400) 1 (eb + -46) := rfl
  have hvA : ratVal (a * 7036874417766400) 1 (ea + -46) = (a : ℚ) * 2 ^ ea * 100 := by
    rw [ratVal_mul, h100]
  have hvB : ratVal (b * 7036874417766400) 1 (eb + -46) = (b : ℚ) * 2 ^ eb * 100 := by
    rw [ratVal_mul, h100]
  have hL100 : ratVal 100 1 0 = 100 := by rw [ratVal_one]; norm_num
  have hU70 : ratVal 1 1 70 = 2 ^ 70 := by rw [ratVal_one]; norm_num
  obtain ⟨c, ec, d, ed, hfc, hfd, hc53, hd53, c1, c2, c3⟩ := rne_pair false
    (a * 7036874417766400) 1 (b * 7036874417766400) 1 (ea + -46) (eb + -46) 100 1 0 70
    (by positivity) Nat.one_pos (by positivity) Nat.one_pos (by norm_num) (by norm_num)
    (by norm_num) (by rw [hL100]; exact two_zpow_neg64_le_one.trans (by norm_num))
    (by rw [hU70]; norm_num)
    (by rw [hL100, hvA]; linarith)
    (by rw [hvA, hvB]; linarith)
    (by
      rw [hU70, hvB]
      have : (b : ℚ) * 2 ^ eb * 100 ≤ 2 ^ 63 * 100 := by linarith
      refine this.trans ?_
      norm_num)
  rw [hL100] at c1
  rw [hU70] at c3
  -- math.Round
  obtain ⟨r, er, hfr, hr⟩ := Round_mag false c ec hc53 (by linarith)
  obtain ⟨t, et, hft, ht⟩ := Round_mag false d ed hd53 (by linarith)
  have hrt : (r : ℚ) * 2 ^ er ≤ (t : ℚ) * 2 ^ et := by
    rw [hr, ht]
    have : ⌊(c : ℚ) * 2 ^ ec + 1 / 2⌋ ≤ ⌊(d : ℚ) * 2 ^ ed + 1 / 2⌋ :=
      Int.floor_mono (by linarith)
    exact_mod_cast this
  have hr100 : (100 : ℚ) ≤ (r : ℚ) * 2 ^ er := by
    rw [hr]
    have : (100 : ℤ) ≤ ⌊(c : ℚ) * 2 ^ ec + 1 / 2⌋ := by
      rw [Int.le_floor]; push_cast; linarith
    exact_mod_cast this
  have ht70 : (t : ℚ) * 2 ^ et ≤ 2 ^ 70 + 1 := by
    rw [ht]
    have := Int.floor_le ((d : ℚ) * 2 ^ ed + 1 / 2)
    linarith
  have hrpos : 0 < r := by
    rcases Nat.eq_zero_or_pos r with h0 | h0
    · rw [h0] at hr100; norm_num at hr100
    · exact h0
  have htpos : 0 < t := by
    rcases Nat.eq_zero_or_pos t with h0 | h0
    · rw [h0] at hrt; norm_num at hrt; linarith
    · exact h0
  -- the quotients by 10000
  have h10000 : ((5497558138880000 : ℕ) : ℚ) * 2 ^ (-39 : ℤ) = 10000 := by
    rw [zpow_neg]; norm_num
  have hdivR : F64.div (fin false r er) (fin false 5497558138880000 (-39))
      = rne false r 5497558138880000 (er - -39) := rfl
  have hdivT : F64.div (fin false t et) (fin false 5497558138880000 (-39))
      = rne false t 5497558138880000 (et - -39) := rfl
  have hvR : ratVal r 5497558138880000 (er - -39) = (r : ℚ) * 2 ^ er / 10000 := by
    rw [ratVal_div, h10000]
  have hvT : ratVal t 5497558138880000 (et - -39) = (t : ℚ) * 2 ^ et / 10000 := by
    rw [ratVal_div, h10000]
  have hL7 : ratVal 1 1 (-7) = 1 / 128 := by rw [ratVal_one, zpow_neg]; norm_num
  have hU58 : ratVal 1 1 58 = 2 ^ 58 := by rw [ratVal_one]; norm_num
  obtain ⟨u, eu, w, ew, hfu, hfw, -, -, -, u2, -⟩ := rne_pair false
    r 5497558138880000 t 5497558138880000 (er - -39) (et - -39) 1 1 (-7) 58
    hrpos (by norm_num) htpos (by norm_num) Nat.one_pos (by norm_num) (by norm_num)
    (by rw [hL7, zpow_neg]; norm_num) (by rw [hU58]; norm_num)
    (by rw [hL7, hvR, le_div_iff₀ (by norm_num)]; linarith)
    (by rw [hvR, hvT]; exact div_le_div_of_nonneg_right hrt (by norm_num))
    (by
      rw [hU58, hvT, div_le_iff₀ (by norm_num)]
      refine ht70.trans ?_
      norm_num)
  refine ⟨u, eu, w, ew, ?_, ?_, u2⟩
  · unfold riskOfProduct
    rw [hofP, hfa, ofInt_100, hmulA, hfc, hfr, ofInt_10000, hdivR, hfu]
  · unfold riskOfProduct
    rw [hofQ, hfb, ofInt_100, hmulB, hfd, hft, ofInt_10000, hdivT, hfw]

/-- Truncated division of non-negative numbers by a positive number grows with the
dividend. -/
theorem tdiv_mono_nonneg {a b d : ℤ} (ha : 0 ≤ a) (hab : a ≤ b) (hd : 0 < d) :
    0 ≤ Int.tdiv a d ∧ Int.tdiv a d ≤ Int.tdiv b d ∧ Int.tdiv b d ≤ b := by
  rw [Int.tdiv_eq_ediv ha hd.le, Int.tdiv_eq_ediv (ha.trans hab) hd.le]
  exact ⟨Int.ediv_nonneg ha hd.le, Int.ediv_le_ediv hd hab, Int.ediv_le_self d (ha.trans hab)⟩


/-! ## The claims on parse failures -/

theorem parseCount_of_syntaxErr (s : String) (h1 : s ≠ "<20")
    (h2 : (Atoi s).2 = NumError.syntaxErr) : parseCount s = 0 := by
  unfold parseCount
  rw [if_neg h1]
  exact ParseInt_syntaxErr s.toList h2

theorem Atoi_of_not_integerText (s : String) (h : isIntegerText s.toList = false)
    (hlen : ((splitSign s.toList).2.takeWhile isDecimalDigit).length ≤ 19) :
    Atoi s = (0, NumError.syntaxErr) :=
  ParseInt_of_not_integerText s.toList h hlen

set_option maxRecDepth 8000 in
/-- C11, counterexample: the case field `"999999999999999999999x"` is not `"<20"` and is not
the text of an integer, and the joined county's Cases is 9223372036854775807, not 0:
`strconv.Atoi` meets the overflow of the digits before it meets the letter and returns the
largest `int` with a range error. -/
theorem unparsable_count_is_not_zero :
    overflowCDC.Cases ≠ "<20" ∧ isIntegerText overflowCDC.Cases.toList = false ∧
      (mixResults sampleParseFloat [losAngelesGithub] [overflowCDC]).map
          (List.map county.Cases) = some [9223372036854775807] := by
  refine ⟨?_, ?_, ?_⟩ <;> decide

/-- C11, amended: for every matching pair with non-zero population and non-zero converted
area the joined record is produced, whatever the case and death fields hold; a case
(respectively death) field that is not `"<20"` and on which `strconv.Atoi` reports a syntax
error gives Cases (respectively Deaths) = 0, and that is so for every field that is not the
text of an integer and has at most 19 digits between its optional sign and its first other
character. -/
theorem parse_failure_yields_zero (ParseFloat : String → F64) (g : countyGithub)
    (c : countyCDC) (v : MainVars) (hm : sameFips g c) (hp : g.Population ≠ 0)
    (ha : convertedArea g ≠ 0) :
    ∃ w, loopBody ParseFloat g c v = some w ∧
      w.result = v.result ++ [w.completeCounty] ∧
      (c.Cases ≠ "<20" → (Atoi c.Cases).2 = NumError.syntaxErr →
        w.completeCounty.Cases = 0) ∧
      (c.Deaths ≠ "<20" → (Atoi c.Deaths).2 = NumError.syntaxErr →
        w.completeCounty.Deaths = 0) ∧
      (c.Cases ≠ "<20" → isIntegerText c.Cases.toList = false →
        ((splitSign c.Cases.toList).2.takeWhile isDecimalDigit).length ≤ 19 →
        w.completeCounty.Cases = 0) ∧
      (c.Deaths ≠ "<20" → isIntegerText c.Deaths.toList = false →
        ((splitSign c.Deaths.toList).2.takeWhile isDecimalDigit).length ≤ 19 →
        w.completeCounty.Deaths = 0) := by
  obtain ⟨r, hr⟩ := joinPair_isSome ParseFloat g c hp ha
  have hw : loopBody ParseFloat g c v = some (varsAfter ParseFloat g c r v) := by
    rw [loopBody_of_sameFips ParseFloat g c v hm, hr]
    rfl
  obtain ⟨-, -, -, -, -, -, -, -, -, h1, h2, -⟩ := joinPair_fields ParseFloat g c r hr
  refine ⟨_, hw, rfl, ?_, ?_, ?_, ?_⟩
  · intro a1 a2
    exact h1.trans (parseCount_of_syntaxErr _ a1 a2)
  · intro a1 a2
    exact h2.trans (parseCount_of_syntaxErr _ a1 a2)
  · intro a1 a2 a3
    refine h1.trans (parseCount_of_syntaxErr _ a1 ?_)
    rw [Atoi_of_not_integerText _ a2 a3]
  · intro a1 a2 a3
    refine h2.trans (parseCount_of_syntaxErr _ a1 ?_)
    rw [Atoi_of_not_integerText _ a2 a3]

set_option maxRecDepth 8000 in
/-- C11, witness: the case field `"n/a"` and the empty death field give a record with
Cases = 0 and Deaths = 0. -/
theorem parse_failure_yields_zero_witness :
    ∃ w, loopBody sampleParseFloat squareGithub unparsableCDC initVars = some w ∧
      w.completeCounty.Cases = 0 ∧ w.completeCounty.Deaths = 0 := by
  obtain ⟨w, hw, -, -, -, h3, h4⟩ := parse_failure_yields_zero sampleParseFloat squareGithub
    unparsableCDC initVars (by decide) (by decide) (by decide)
  exact ⟨w, hw, h3 (by decide) (by decide) (by decide),
    h4 (by decide) (by decide) (by decide)⟩

set_option maxRecDepth 8000 in
/-- C12, counterexample: the identifier text `"99999999999999999999"` fails to convert (range
error), the identifier used for the comparison is 9223372036854775807 and not 0, and the
record matches the epidemiological record with that identifier instead of the one with
identifier 0. -/
theorem overflowing_identifier_is_not_zero :
    (Atoi overflowGithub.Fips).2 = NumError.rangeErr ∧
      (Atoi overflowGithub.Fips).1 = 9223372036854775807 ∧
      sameFips overflowGithub maxFipsCDC ∧ maxFipsCDC.Fips ≠ 0 ∧
      (mixResults sampleParseFloat [overflowGithub] [maxFipsCDC]).map
          (List.map county.Fips) = some [9223372036854775807] ∧
      zeroFipsCDC.Fips = 0 ∧ ¬ sameFips overflowGithub zeroFipsCDC ∧
      mixResults sampleParseFloat [overflowGithub] [zeroFipsCDC] = some [] := by
  refine ⟨?_, ?_, ?_, ?_, ?_, rfl, ?_, ?_⟩ <;> decide

/-- C12, amended: for every demographic record whose identifier text is rejected by
`strconv.Atoi` with a syntax error, the identifier used for comparison is 0, and the record
matches exactly the epidemiological records whose identifier is 0: for the others the loop
body appends nothing. When the text is rejected with a range error the identifier used is
the largest or the smallest `int`, and the record matches exactly the epidemiological records
with that identifier. -/
theorem identifier_failure (ParseFloat : String → F64) (g : countyGithub) (c : countyCDC)
    (v : MainVars) :
    ((Atoi g.Fips).2 = NumError.syntaxErr →
      (Atoi g.Fips).1 = 0 ∧ (sameFips g c ↔ c.Fips = 0) ∧
      (c.Fips ≠ 0 → loopBody ParseFloat g c v = some { v with tempFips := 0 })) ∧
    ((Atoi g.Fips).2 = NumError.rangeErr →
      ((Atoi g.Fips).1 = 2 ^ 63 - 1 ∨ (Atoi g.Fips).1 = -2 ^ 63) ∧
      (sameFips g c ↔ c.Fips = (Atoi g.Fips).1)) := by
  constructor
  · intro h
    have h0 : (Atoi g.Fips).1 = 0 := ParseInt_syntaxErr g.Fips.toList h
    have hiff : sameFips g c ↔ c.Fips = 0 := by
      unfold sameFips
      rw [h0]
      exact eq_comm
    refine ⟨h0, hiff, ?_⟩
    intro hne
    have hns : ¬ sameFips g c := fun hs => hne (hiff.1 hs)
    rw [loopBody_of_not_sameFips ParseFloat g c v hns, h0]
  · intro h
    refine ⟨ParseInt_rangeErr g.Fips.toList h, ?_⟩
    unfold sameFips
    exact eq_comm

set_option maxRecDepth 8000 in
/-- C12, witness: the identifier text `"n/a"` is used as 0 and matches the epidemiological
record with identifier 0. -/
theorem identifier_failure_witness :
    (Atoi unnumberedGithub.Fips).1 = 0 ∧ sameFips unnumberedGithub zeroFipsCDC :=
  have h := (identifier_failure sampleParseFloat unnumberedGithub zeroFipsCDC initVars).1
    (by decide)
  ⟨h.1, h.2.1.2 rfl⟩


/-! ## The claims on the fetchers and the run -/

theorem fetch_some {α : Type} (Unmarshal : Bytes → α → α) (counties : α) (r : Response)
    (file : File) :
    fetch Unmarshal counties (some r) file
      = some
          { parsed := if r.StatusCode ≠ 200 then readFile file
              else trimPrefix r.body byteOrderMark
            counties := Unmarshal
              (if r.StatusCode ≠ 200 then readFile file else trimPrefix r.body byteOrderMark)
              counties
            file := writeFile file
              (if r.StatusCode ≠ 200 then readFile file
                else trimPrefix r.body byteOrderMark) } := rfl

theorem trimPrefix_append (pre b : Bytes) : trimPrefix (pre ++ b) pre = b := by
  unfold trimPrefix
  have h : pre.isPrefixOf (pre ++ b) = true := by
    rw [List.isPrefixOf_iff_prefix]
    exact List.prefix_append _ _
  rw [if_pos h, List.drop_left]

theorem trimPrefix_of_not_isPrefix (pre b : Bytes) (h : ¬ pre <+: b) :
    trimPrefix b pre = b := by
  unfold trimPrefix
  have h1 : ¬ (pre.isPrefixOf b = true) := by
    rw [List.isPrefixOf_iff_prefix]
    exact h
  rw [if_neg h1]

theorem cacheRefreshed_fetch {α : Type} (Unmarshal : Bytes → α → α) (counties : α)
    (r : Response) (file : File) (hw : file.writable = true) :
    ∃ out, fetch Unmarshal counties (some r) file = some out ∧ CacheRefreshed r file out := by
  refine ⟨_, fetch_some Unmarshal counties r file, ?_, ?_, ?_⟩
  · simp [writeFile, hw]
  · intro h200
    simp [h200]
  · intro hne b hb
    simp [hne, readFile, writeFile, hb, hw]

theorem mixResults_nil_right (ParseFloat : String → F64) (gs : List countyGithub) :
    mixResults ParseFloat gs [] = some [] := by
  rw [mixResults_eq]
  have : matchingPairs gs [] = [] := by simp [matchingPairs]
  rw [this]
  rfl

/-- C13, the code at the failing input: when `http.Get` yields no response, `getCDCFile` and
`getGithubFile` end in a run-time panic (`res.Body` on a nil response, lines 76 and 105)
without reading the cache, and so does the run; only a response with a status other than
200 makes them hand the content of the cache to the parser. -/
theorem fetch_without_response_panics (lib : Lib) (w : World) (cdcCounties : List countyCDC)
    (githubCounties : List countyGithub) (r : Response) (fileName : File) :
    getCDCFile lib.UnmarshalCDC cdcCounties none fileName = none ∧
    getGithubFile lib.UnmarshalGithub githubCounties none fileName = none ∧
    main lib { w with cdcResponse := none } = Run.panicked { w with cdcResponse := none } ∧
    (getCDCFile lib.UnmarshalCDC cdcCounties (some r) fileName).map (fun a => a.parsed)
      = some (if r.StatusCode ≠ 200 then readFile fileName
          else trimPrefix r.body byteOrderMark) ∧
    (getGithubFile lib.UnmarshalGithub githubCounties (some r) fileName).map
        (fun a => a.parsed)
      = some (if r.StatusCode ≠ 200 then readFile fileName
          else trimPrefix r.body byteOrderMark) :=
  ⟨rfl, rfl, rfl, rfl, rfl⟩

/-- C14, counterexample: a response with status 200 is parsed while the cache file cannot be
written: the bytes handed to the parser are the body without its byte-order mark, and the
cache file keeps its previous content. -/
theorem cache_not_refreshed_when_read_only :
    (getCDCFile sampleLib.UnmarshalCDC [] (some markedResponse) readOnlyFile).map
        (fun a => (a.parsed, a.file.content))
      = some ([0x7b, 0x7d], some [0x5b, 0x5d]) ∧
    (getGithubFile sampleLib.UnmarshalGithub [] (some markedResponse) readOnlyFile).map
        (fun a => (a.parsed, a.file.content))
      = some ([0x7b, 0x7d], some [0x5b, 0x5d]) := by
  constructor <;> decide

/-- C14, amended: after every fetch for which `http.Get` yielded a response and the cache
file can be written, the cache file holds exactly the bytes that were handed to the parser:
for a response with status 200 the bytes read from the body with one leading byte-order
mark (EF BB BF) removed if present, otherwise the previous content of the cache, unchanged,
when the cache could be read. This holds for `getCDCFile` and for `getGithubFile`. -/
theorem cache_refresh (lib : Lib) (cdcCounties : List countyCDC)
    (githubCounties : List countyGithub) (r : Response) (fileName : File)
    (hw : fileName.writable = true) :
    (∃ a, getCDCFile lib.UnmarshalCDC cdcCounties (some r) fileName = some a ∧
      CacheRefreshed r fileName a) ∧
    (∃ b, getGithubFile lib.UnmarshalGithub githubCounties (some r) fileName = some b ∧
      CacheRefreshed r fileName b) ∧
    (∀ body : Bytes, trimPrefix (byteOrderMark ++ body) byteOrderMark = body) ∧
    (∀ body : Bytes, ¬ byteOrderMark <+: body → trimPrefix body byteOrderMark = body) :=
  ⟨cacheRefreshed_fetch lib.UnmarshalCDC cdcCounties r fileName hw,
    cacheRefreshed_fetch lib.UnmarshalGithub githubCounties r fileName hw,
    fun body => trimPrefix_append byteOrderMark body,
    fun body h => trimPrefix_of_not_isPrefix byteOrderMark body h⟩

/-- C14, witness: a body with a byte-order mark, fetched with status 200, leaves the cache
with the body without the mark. -/
theorem cache_refresh_witness :
    ∃ a, getCDCFile sampleLib.UnmarshalCDC [] (some markedResponse) cachedFile = some a ∧
      a.parsed = [0x7b, 0x7d] ∧ a.file.content = some [0x7b, 0x7d] := by
  obtain ⟨a, ha, h1, h2, -⟩ := (cache_refresh sampleLib [] [] markedResponse cachedFile rfl).1
  have hp : a.parsed = [0x7b, 0x7d] := (h2 rfl).trans (by decide)
  exact ⟨a, ha, hp, by rw [h1, hp]⟩

/-- C15, counterexample: the first request is answered with status 404 and the first cache
file cannot be read; the run does not stop: it creates the cache file with an empty content,
goes on to the second fetch, the join and the export, and writes both result files. -/
theorem missing_cache_run_goes_on :
    missingCacheWorld.cdcResponse = some notFoundResponse ∧
    missingCacheWorld.cdcLocalFile.content = none ∧
    main sampleLib missingCacheWorld
      = Run.finished
          { cdcResponse := some notFoundResponse, githubResponse := some markedResponse,
            cdcLocalFile := { content := some [], writable := true },
            githubLocalFile := { content := some [0x7b, 0x7d], writable := true },
            resultJSONFile := { content := some (sampleLib.MarshalIndent []), writable := true },
            resultCSVFile :=
              { content := some (sampleLib.csvEncode [headerRow]), writable := true } } := by
  refine ⟨rfl, rfl, ?_⟩
  decide

/-- C15, amended: a missing cache during fallback is not fatal. When the first request is
answered with a status other than 200 and its cache file cannot be read, `getCDCFile` hands
the empty input to the parser and overwrites the cache file with the empty content (when the
file can be written); with a parser that leaves the records empty on the empty input, and a
response to the second request, the run goes on to the join, whose result is empty, and to
the export, and writes both result files: the structured one with the encoding of the empty
result, the tabular one with the header row alone. -/
theorem missing_cache_is_not_fatal (lib : Lib) (w : World) (r1 r2 : Response)
    (h1 : w.cdcResponse = some r1) (h2 : w.githubResponse = some r2)
    (hs : r1.StatusCode ≠ 200) (hc : w.cdcLocalFile.content = none)
    (hU : lib.UnmarshalCDC [] [] = []) :
    (getCDCFile lib.UnmarshalCDC [] w.cdcResponse w.cdcLocalFile).map
        (fun a => (a.parsed, a.counties, a.file))
      = some ([], [], writeFile w.cdcLocalFile []) ∧
    ∃ w1, main lib w = Run.finished w1 ∧
      w1.cdcLocalFile = writeFile w.cdcLocalFile [] ∧
      w1.resultJSONFile = writeFile w.resultJSONFile (lib.MarshalIndent []) ∧
      w1.resultCSVFile = writeFile w.resultCSVFile (lib.csvEncode [headerRow]) := by
  have hread : readFile w.cdcLocalFile = [] := by simp [readFile, hc]
  have hf : getCDCFile lib.UnmarshalCDC [] w.cdcResponse w.cdcLocalFile
      = some { parsed := [], counties := [], file := writeFile w.cdcLocalFile [] } := by
    rw [h1]
    unfold getCDCFile
    rw [fetch_some]
    simp only [hs, ne_eq, not_false_eq_true, if_true, hread, hU]
  refine ⟨by rw [hf]; rfl, ?_⟩
  unfold main
  rw [hf]
  simp only [h2]
  unfold getGithubFile
  rw [fetch_some]
  simp only [mixResults_nil_right]
  exact ⟨_, rfl, rfl, rfl, rfl⟩

/-- C15, witness: the run with a 404 answer and no cache file ends normally with both result
files written. -/
theorem missing_cache_is_not_fatal_witness :
    ∃ w1, main sampleLib missingCacheWorld = Run.finished w1 ∧
      w1.cdcLocalFile.content = some [] ∧ w1.resultJSONFile.content.isSome = true ∧
      w1.resultCSVFile.content.isSome = true := by
  obtain ⟨w1, hw1, a1, a2, a3⟩ := (missing_cache_is_not_fatal sampleLib missingCacheWorld
    notFoundResponse markedResponse rfl rfl (by decide) rfl rfl).2
  refine ⟨w1, hw1, ?_, ?_, ?_⟩
  · rw [a1]; rfl
  · rw [a2]; rfl
  · rw [a3]; rfl


/-! ## The claim on the tabular export -/

theorem fieldLoop_eq (Sprintf2f : F64 → String) :
    ∀ (vs : List FieldValue) (resultCsv : List String),
      fieldLoop Sprintf2f vs resultCsv = resultCsv ++ vs.map (formatField Sprintf2f) := by
  intro vs
  induction vs with
  | nil => intro acc; simp [fieldLoop]
  | cons x vs ih =>
    intro acc
    cases x <;> simp [fieldLoop, ih, formatField]

theorem countyFields_eq (r : county) : countyFields r = columns.map fun col => col.2 r := rfl

theorem rowLoop_eq (Sprintf2f : F64 → String) (result : List county) :
    rowLoop Sprintf2f result
      = result.map fun r => columns.map fun col => formatField Sprintf2f (col.2 r) := by
  induction result with
  | nil => rfl
  | cons r rs ih =>
    rw [rowLoop, ih, fieldLoop_eq, countyFields_eq]
    simp

/-- C16: for every result collection of any size, the records handed to the CSV writer are
the header row followed by one row per county in the order of the collection; the header row
is the fifteen labels Name, State, State Code, Fips, Population, Area, Density, Cases, Deaths,
Percent Of State, Cases By Population, Cases By Area, Deaths By Population, Deaths By Area,
Risk Index; every data row has fifteen fields, the i-th being the formatted value of the
county field named by the i-th label (a string verbatim, an integer in decimal, a
floating-point number through `%.2f`). -/
theorem column_order (Sprintf2f : F64 → String) (result : List county) :
    csvRecords Sprintf2f result
      = columns.map Prod.fst
          :: result.map (fun r => columns.map (fun col => formatField Sprintf2f (col.2 r))) ∧
    headerRow
      = ["Name", "State", "State Code", "Fips", "Population", "Area", "Density", "Cases",
          "Deaths", "Percent Of State", "Cases By Population", "Cases By Area",
          "Deaths By Population", "Deaths By Area", "Risk Index"] ∧
    (csvRecords Sprintf2f result).length = result.length + 1 ∧
    (∀ row ∈ csvRecords Sprintf2f result, row.length = 15) ∧
    (∀ (j : ℕ) (r : county), result[j]? = some r →
      (csvRecords Sprintf2f result)[j + 1]?
        = some [r.Name, r.State, r.StateCode, SprintfD r.Fips, SprintfD r.Population,
            SprintfD r.Area, SprintfD r.Density, SprintfD r.Cases, SprintfD r.Deaths,
            Sprintf2f r.PercentOfState, SprintfD r.CasesByPopulation,
            SprintfD r.CasesByArea, SprintfD r.DeathsByPopulation,
            SprintfD r.DeathsByArea, Sprintf2f r.RiskIndex]) := by
  have h1 : csvRecords Sprintf2f result
      = columns.map Prod.fst
          :: result.map fun r => columns.map fun col => formatField Sprintf2f (col.2 r) := by
    unfold csvRecords
    rw [rowLoop_eq]
    rfl
  refine ⟨h1, rfl, ?_, ?_, ?_⟩
  · rw [h1]; simp
  · rw [h1]
    intro row hrow
    rcases List.mem_cons.1 hrow with h | h
    · rw [h]; rfl
    · obtain ⟨r, -, hr⟩ := List.mem_map.1 h
      rw [← hr]
      rfl
  · intro j r hj
    rw [h1, List.getElem?_cons_succ, List.getElem?_map, hj]
    rfl

/-! ## Division safety -/

set_option maxRecDepth 8000 in
/-- C17, counterexample: a source area of `2^62`, which is at least 1, is converted to
`-2^63` (the product with 2.59 is beyond the `int` range, and the conversion of such a
`float64` gives the smallest `int` on amd64), which is not at least 2. -/
theorem positive_area_converted_negative :
    1 ≤ boundlessGithub.Area ∧ isInt64 boundlessGithub.Area ∧
      convertedArea boundlessGithub = -9223372036854775808 ∧
      ¬ (2 ≤ convertedArea boundlessGithub) := by
  decide

/-- C17: for `int` source areas, the converted Area is zero if and only if the source area
is zero; a source area from 1 to 3500000000000000000 gives a converted Area of at least 2,
a source area of at most -1 gives a converted Area of at most -2. Hence when every matching
demographic record has a non-zero population and a non-zero source area, none of the five
integer divisions of a matching pair divides by zero, and the join completes. -/
theorem division_safety (ParseFloat : String → F64) (gs : List countyGithub)
    (cs : List countyCDC) (hr : ∀ g ∈ gs, isInt64 g.Area) :
    (∀ g ∈ gs, (convertedArea g = 0 ↔ g.Area = 0) ∧
        (1 ≤ g.Area → g.Area ≤ 3500000000000000000 → 2 ≤ convertedArea g) ∧
        (g.Area ≤ -1 → convertedArea g ≤ -2)) ∧
      ((∀ g ∈ gs, ∀ c ∈ cs, sameFips g c → g.Population ≠ 0 ∧ g.Area ≠ 0) →
        (∀ g ∈ gs, ∀ c ∈ cs, sameFips g c →
          divInt g.Population (convertedArea g) ≠ none ∧
          divInt (mulInt (parseCount c.Cases) 100000) g.Population ≠ none ∧
          divInt (mulInt (parseCount c.Cases) 1000) (convertedArea g) ≠ none ∧
          divInt (mulInt (parseCount c.Deaths) 100000) g.Population ≠ none ∧
          divInt (mulInt (parseCount c.Deaths) 1000) (convertedArea g) ≠ none) ∧
        ∃ out, mixResults ParseFloat gs cs = some out) := by
  have hz : ∀ g ∈ gs, g.Area ≠ 0 → convertedArea g ≠ 0 := by
    intro g hg h0
    rcases convertedArea_abs_ge g h0 (hr g hg) with h | h <;> omega
  refine ⟨?_, ?_⟩
  · intro g hg
    obtain ⟨s1, s2⟩ := convertedArea_sign g (hr g hg)
    refine ⟨⟨?_, convertedArea_of_area_zero g⟩, ?_, s2⟩
    · intro hc
      by_contra h0
      exact hz g hg h0 hc
    · intro h1 h2
      exact s1 h1 (by norm_num; exact h2)
  · intro hne
    refine ⟨?_, ?_⟩
    · intro g hg c hc hm
      obtain ⟨hp, ha⟩ := hne g hg c hc hm
      have hca := hz g hg ha
      rw [divInt_of_ne_zero _ hca, divInt_of_ne_zero _ hp, divInt_of_ne_zero _ hca,
        divInt_of_ne_zero _ hp, divInt_of_ne_zero _ hca]
      simp
    · rw [mixResults_eq]
      apply joinAll_isSome
      intro p hp
      obtain ⟨h1, h2, h3⟩ := mem_matchingPairs.1 hp
      obtain ⟨hpop, ha⟩ := hne p.1 h1 p.2 h2 h3
      exact joinPair_isSome ParseFloat p.1 p.2 hpop (hz p.1 h1 ha)

set_option maxRecDepth 8000 in
/-- The division safety of C17 at the Los Angeles records. -/
theorem division_safety_witness :
    (∀ g ∈ [losAngelesGithub], isInt64 g.Area) ∧
      (∀ g ∈ [losAngelesGithub], ∀ c ∈ [losAngelesCDC], sameFips g c →
        g.Population ≠ 0 ∧ g.Area ≠ 0) ∧
      2 ≤ convertedArea losAngelesGithub ∧
      ∃ out, mixResults sampleParseFloat [losAngelesGithub] [losAngelesCDC] = some out :=
  have hr : ∀ g ∈ [losAngelesGithub], isInt64 g.Area := by decide
  have hne : ∀ g ∈ [losAngelesGithub], ∀ c ∈ [losAngelesCDC], sameFips g c →
      g.Population ≠ 0 ∧ g.Area ≠ 0 := by decide
  have h := division_safety sampleParseFloat [losAngelesGithub] [losAngelesCDC] hr
  ⟨hr, hne, (h.1 losAngelesGithub (by simp)).2.1 (by decide) (by decide), (h.2 hne).2⟩

/-! ## Monotonicity of the risk index -/

/-- C18: for one demographic record with a positive population and a positive converted
area, joined with two epidemiological records whose counts are non-negative with
`cases1 ≤ cases2` and `deaths1 ≤ deaths2`, and without `int` overflow in the larger record
(neither in the two multiplications of the counts nor in the product of line 178), both
risk indices are finite and the RiskIndex of the first record is at most the RiskIndex of
the second. -/
theorem riskIndex_monotone (ParseFloat : String → F64) (g : countyGithub)
    (c1 c2 : countyCDC) (v1 v2 w1 w2 : MainVars)
    (hm1 : sameFips g c1) (hm2 : sameFips g c2)
    (h1 : loopBody ParseFloat g c1 v1 = some w1) (h2 : loopBody ParseFloat g c2 v2 = some w2)
    (hpop : 0 < g.Population) (harea : 0 < convertedArea g)
    (hc0 : 0 ≤ w1.completeCounty.Cases)
    (hc : w1.completeCounty.Cases ≤ w2.completeCounty.Cases)
    (hd0 : 0 ≤ w1.completeCounty.Deaths)
    (hd : w1.completeCounty.Deaths ≤ w2.completeCounty.Deaths)
    (hoc : w2.completeCounty.Cases * 100000 < 2 ^ 63)
    (hod : w2.completeCounty.Deaths * 1000 < 2 ^ 63)
    (hop : (w2.completeCounty.DeathsByArea + 1) * (w2.completeCounty.CasesByPopulation + 1)
      < 2 ^ 63) :
    w1.completeCounty.RiskIndex.isFinite = true ∧
      w2.completeCounty.RiskIndex.isFinite = true ∧
      w1.completeCounty.RiskIndex.toRat ≤ w2.completeCounty.RiskIndex.toRat := by
  obtain ⟨hj1, -⟩ := loopBody_joined ParseFloat g c1 v1 w1 hm1 h1
  obtain ⟨hj2, -⟩ := loopBody_joined ParseFloat g c2 v2 w2 hm2 h2
  obtain ⟨-, -, -, -, -, -, p1, a1, -, -, -, -, cbp1, -, -, dba1, ri1⟩ :=
    joinPair_fields ParseFloat g c1 _ hj1
  obtain ⟨-, -, -, -, -, -, p2, a2, -, -, -, -, cbp2, -, -, dba2, ri2⟩ :=
    joinPair_fields ParseFloat g c2 _ hj2
  generalize w1.completeCounty = r1 at *
  generalize w2.completeCounty = r2 at *
  have i63 : ∀ x : ℤ, 0 ≤ x → x < 2 ^ 63 → isInt64 x := by
    intro x hx0 hx
    unfold isInt64
    constructor
    · have : (-2 : ℤ) ^ 63 ≤ 0 := by norm_num
      norm_num
      omega
    · exact hx
  -- the two multiplications of each record are exact
  have mc2 : mulInt r2.Cases 100000 = r2.Cases * 100000 :=
    mulInt_of_isInt64 (i63 _ (by omega) hoc)
  have mc1 : mulInt r1.Cases 100000 = r1.Cases * 100000 :=
    mulInt_of_isInt64 (i63 _ (by omega) (by omega))
  have md2 : mulInt r2.Deaths 1000 = r2.Deaths * 1000 :=
    mulInt_of_isInt64 (i63 _ (by omega) hod)
  have md1 : mulInt r1.Deaths 1000 = r1.Deaths * 1000 :=
    mulInt_of_isInt64 (i63 _ (by omega) (by omega))
  rw [mc1, p1] at cbp1
  rw [mc2, p2] at cbp2
  rw [md1, a1] at dba1
  rw [md2, a2] at dba2
  -- the two rates of each record
  obtain ⟨x0, x1, x2⟩ := tdiv_mono_nonneg (show 0 ≤ r1.Cases * 100000 by omega)
    (show r1.Cases * 100000 ≤ r2.Cases * 100000 by omega) hpop
  obtain ⟨y0, y1, y2⟩ := tdiv_mono_nonneg (show 0 ≤ r1.Deaths * 1000 by omega)
    (show r1.Deaths * 1000 ≤ r2.Deaths * 1000 by omega) harea
  rw [wrap64_of_isInt64 (i63 _ x0 (by omega))] at cbp1
  rw [wrap64_of_isInt64 (i63 _ (by omega) (by omega))] at cbp2
  rw [wrap64_of_isInt64 (i63 _ y0 (by omega))] at dba1
  rw [wrap64_of_isInt64 (i63 _ (by omega) (by omega))] at dba2
  rw [← cbp1, ← cbp2] at x1
  rw [← dba1, ← dba2] at y1
  rw [← cbp1] at x0
  rw [← dba1] at y0
  -- the products of line 178
  have hP1 : 1 ≤ (r1.DeathsByArea + 1) * (r1.CasesByPopulation + 1) := by nlinarith
  have hPQ : (r1.DeathsByArea + 1) * (r1.CasesByPopulation + 1)
      ≤ (r2.DeathsByArea + 1) * (r2.CasesByPopulation + 1) := by nlinarith
  rw [riskIndexOf_eq, wrap64_of_isInt64 (i63 _ (by omega) (by omega))] at ri1
  rw [riskIndexOf_eq, wrap64_of_isInt64 (i63 _ (by omega) hop)] at ri2
  obtain ⟨m, e, m1, e1, f1, f2, hle⟩ := riskOfProduct_mono _ _ hP1 hPQ hop
  rw [ri1, ri2, f1, f2]
  refine ⟨rfl, rfl, ?_⟩
  simpa [toRat] using hle

set_option maxRecDepth 8000 in
/-- The monotonicity of C18 at the Los Angeles records: 1000 cases and 55 deaths give the
risk index 0.6, and 2000 cases and 60 deaths give 1.2. -/
theorem riskIndex_monotone_witness :
    ∃ w1 w2, loopBody sampleParseFloat losAngelesGithub losAngelesCDC initVars = some w1 ∧
      loopBody sampleParseFloat losAngelesGithub losAngelesLaterCDC initVars = some w2 ∧
      w1.completeCounty.RiskIndex = F64.fin false 5404319552844595 (-53) ∧
      w2.completeCounty.RiskIndex = F64.fin false 5404319552844595 (-52) ∧
      w1.completeCounty.RiskIndex.toRat ≤ w2.completeCounty.RiskIndex.toRat := by
  have hw1 : loopBody sampleParseFloat losAngelesGithub losAngelesCDC initVars
      = some (varsAfter sampleParseFloat losAngelesGithub losAngelesCDC
          { Name := "Los Angeles", State := "California", StateCode := "CA", Fips := 6037,
            Population := 10039107, Area := 10510, Density := 955, Cases := 1000,
            Deaths := 55, PercentOfState := F64.nan, CasesByPopulation := 9,
            CasesByArea := 95, DeathsByPopulation := 0, DeathsByArea := 5,
            RiskIndex := F64.fin false 5404319552844595 (-53) } initVars) := by
    decide
  have hw2 : loopBody sampleParseFloat losAngelesGithub losAngelesLaterCDC initVars
      = some (varsAfter sampleParseFloat losAngelesGithub losAngelesLaterCDC
          { Name := "Los Angeles", State := "California", StateCode := "CA", Fips := 6037,
            Population := 10039107, Area := 10510, Density := 955, Cases := 2000,
            Deaths := 60, PercentOfState := F64.nan, CasesByPopulation := 19,
            CasesByArea := 190, DeathsByPopulation := 0, DeathsByArea := 5,
            RiskIndex := F64.fin false 5404319552844595 (-52) } initVars) := by
    decide
  have hr := riskIndex_monotone sampleParseFloat losAngelesGithub losAngelesCDC
    losAngelesLaterCDC initVars initVars _ _ (by decide) (by decide) hw1 hw2 (by decide)
    (by decide) (by decide) (by decide) (by decide) (by decide) (by decide) (by decide)
    (by decide)
  exact ⟨_, _, hw1, hw2, rfl, rfl, hr.2.2⟩

end UsCountyRisk
